import Mathlib

/-!
# z_extractor: openems_model_gen mesh generation

A shallow embedding of the mesh-line bookkeeping of `openems_model_gen.cpp`.

Conventions of the embedding.

* C++ `float` and `double` values are rationals (`ℚ`).  Where a property
  turns on rounding, the operations are rounded as the machine does:
  `f32` and `f64` round to the nearest binary32 and binary64 number, ties to
  even (exponent range unbounded: overflow and subnormal numbers are outside
  the model).  `_round_xy` and the `_f32` forms of the range overlay are
  written with them; elsewhere the arithmetic is exact.
* `std::uint32_t` priorities are natural numbers (they are only compared).
* A `std::set<mesh::line>` is the list of its elements in iteration order.
  An iterator is the index of the element it points to; the index
  `l.length` is `end()`.
* Dereferencing, erasing or incrementing `end()` is undefined behaviour in C++;
  the embedding reports it as `Fault.undefined_behaviour` instead of guessing
  a result.
* A statement written to a script is recorded as the `fprintf` call that
  writes it: the line of `openems_model_gen.cpp` the call stands on and the
  values of its arguments.
-/

namespace openems_model_gen

/-! ## Mesh lines and line sets -/

/-- The struct `mesh::line`: a coordinate and its priority. -/
structure line where
  v : ℚ
  prio : Nat
deriving DecidableEq

/-- Modelled from the spec: `mesh::line::operator<`, declared with `struct mesh`
in a revision of `openems_model_gen.h` that is not available.  The spec says a
Line is "ordered by value", so two lines are equivalent for the set exactly
when their values coincide. -/
def line.lt (a b : line) : Prop := a.v < b.v

instance (a b : line) : Decidable (line.lt a b) := by
  unfold line.lt; infer_instance

/-- The class invariant of `std::set<mesh::line>`: strictly ascending in
iteration order. -/
def is_set (l : List line) : Prop := l.Pairwise line.lt

/-- The call `std::set::insert(x)`: the new contents, the position of the
element equivalent to `x` (`r.first`) and whether `x` was inserted
(`r.second`). -/
def set_insert : List line → line → List line × Nat × Bool
  | [], x => ([x], 0, true)
  | y :: ys, x =>
    if line.lt y x then
      let r := set_insert ys x
      (y :: r.1, r.2.1 + 1, r.2.2)
    else if line.lt x y then (x :: y :: ys, 0, true)
    else (y :: ys, 0, false)

/-- What can go wrong when running the embedded code. -/
inductive Fault where
  /-- The C++ code would run into undefined behaviour. -/
  | undefined_behaviour
  /-- The bound on loop iterations given to the model is used up. -/
  | out_of_fuel
deriving DecidableEq

/-! ## `_clean_mesh_line` -/

/-- How one iteration of the scan loop ends. -/
inductive scan_next where
  /-- The loop condition is tested again in the state `(mesh_line, it1, it2, brk)`. -/
  | again (l : List line) (it1 it2 : Nat) (brk : Bool)
  /-- The loop condition `it2 != mesh_line.end()` failed: the loop is left. -/
  | done (l : List line) (brk : Bool)
  /-- An iterator equal to `end()` was dereferenced, erased or incremented. -/
  | fault

/-- One test of the condition and one run of the body of the loop
`for (; it2 != mesh_line.end(); )` in `_clean_mesh_line`, from the state
`(mesh_line, it1, it2, brk)`. -/
def scan_body (min_gap : ℚ) (l : List line) (it1 it2 : Nat) (brk : Bool) : scan_next :=
  if h2 : it2 < l.length then
    match l[it1]? with
    | none => .fault
    | some a =>
      let b := l[it2]
      if |b.v - a.v| < min_gap then
        -- brk = false;
        if a.prio = b.prio then
          let tmp : line := ⟨(a.v + b.v) * (1 / 2), a.prio⟩
          -- it1 = erase(it1); it1 = erase(it1);
          if it1 + 1 < l.length then
            let r := set_insert ((l.eraseIdx it1).eraseIdx it1) tmp
            -- if (r.second) it1 = r.first;
            let it1n := if r.2.2 then r.2.1 else it1
            -- it2 = it1; it2++; continue;
            if it1n < r.1.length then .again r.1 it1n (it1n + 1) false else .fault
          else .fault
        else if a.prio > b.prio then
          -- it1 = erase(it2); it2 = it1; it2++; continue;
          let l2 := l.eraseIdx it2
          if it2 < l2.length then .again l2 it2 (it2 + 1) false else .fault
        else
          -- it1 = erase(it1); it2 = it1; it2++; continue;
          let l2 := l.eraseIdx it1
          if it1 < l2.length then .again l2 it1 (it1 + 1) false else .fault
      else
        -- it1++; it2++;
        .again l (it1 + 1) (it2 + 1) brk
  else .done l brk

/-- The loop `for (; it2 != mesh_line.end(); )` of `_clean_mesh_line`, from the
state `(mesh_line, it1, it2, brk)`.  Returns the set and `brk` at loop exit. -/
def scan_loop (min_gap : ℚ) (l : List line) (it1 it2 : Nat) (brk : Bool) :
    Except Fault (List line × Bool) :=
  match h : scan_body min_gap l it1 it2 brk with
  | .again l2 a b c => scan_loop min_gap l2 a b c
  | .done l2 c => .ok (l2, c)
  | .fault => .error .undefined_behaviour
termination_by (l.length, l.length - it2)
decreasing_by
  -- every resolution shortens the set, every other iteration advances `it2`
  have herase : ∀ (m : List line) (i : Nat), i < m.length →
      (m.eraseIdx i).length = m.length - 1 := by
    intro m i hi
    rw [List.length_eraseIdx]
    simp [hi]
  have hins : ∀ (m : List line) (x : line), (set_insert m x).1.length ≤ m.length + 1 := by
    intro m x
    induction m with
    | nil => simp [set_insert]
    | cons y ys ih =>
      simp only [set_insert]
      split_ifs
      · simp only [List.length_cons]; omega
      · simp
      · simp
  apply Prod.lex_def.mpr
  unfold scan_body at h
  split at h
  next h2 =>
    split at h
    · cases h
    next x hx =>
      have hi1 : it1 < l.length := by
        rcases Nat.lt_or_ge it1 l.length with h | h
        · exact h
        · rw [List.getElem?_eq_none h] at hx; cases hx
      have hlen := hins ((l.eraseIdx it1).eraseIdx it1) ⟨(x.v + l[it2].v) * (1 / 2), x.prio⟩
      have e1 := herase l it1 hi1
      have e2 := herase l it2 h2
      have e3 : it1 + 1 < l.length →
          ((l.eraseIdx it1).eraseIdx it1).length = l.length - 1 - 1 := by
        intro h3
        rw [herase (l.eraseIdx it1) it1 (by omega), e1]
      simp only at h
      split_ifs at h with hc hp h3
      all_goals cases h
      all_goals first
        | (left; have e4 := e3 h3; omega)
        | (left; omega)
        | (right; omega)
  · cases h

/-- One pass of the `do { ... } while (brk == false)` body: `brk = true`,
`it1 = begin()`, `it2 = it1 + 1`, then the scan. -/
def scan (min_gap : ℚ) (l : List line) : Except Fault (List line × Bool) :=
  if 0 < l.length then scan_loop min_gap l 0 1 true else .error .undefined_behaviour

/-- The `do ... while (brk == false)` loop; `fuel` bounds the number of
passes. -/
def do_while (min_gap : ℚ) : Nat → List line → Except Fault (List line)
  | 0, _ => .error .out_of_fuel
  | fuel + 1, l =>
    match scan min_gap l with
    | .error e => .error e
    | .ok (l2, brk) => if brk then .ok l2 else do_while min_gap fuel l2

/-- The function `openems_model_gen::_clean_mesh_line(mesh_line, min_gap)`,
with at most `fuel` passes of the do-while loop. -/
def _clean_mesh_line (fuel : Nat) (l : List line) (min_gap : ℚ) : Except Fault (List line) :=
  if l.length < 2 then .ok l else do_while min_gap fuel l

/-- No two neighbours of the list are closer than `g`. -/
def no_close_neighbours (g : ℚ) (l : List line) : Prop :=
  ∀ (j : Nat) (h : j + 1 < l.length), ¬ |l[j + 1].v - l[j].v| < g

/-! ## `_apply_mesh_line_range` -/

/-- The struct `mesh::line_range`: lines every `gap` over `[start, end)`. -/
structure line_range where
  start : ℚ
  end_ : ℚ
  gap : ℚ
  prio : Nat
deriving DecidableEq

/-- The innermost loop of `_apply_mesh_line_range`: the flag `continue_` after
running over the ranges `prev` that come before `it` in the multiset. -/
def continue_ (prev : List line_range) (v : ℚ) : Bool :=
  prev.any (fun it2 => decide (v ≥ it2.start ∧ v < it2.end_))

/-- The loop `for (float v = start; v < end; v += gap)` for the range `it`,
from the current `v` and set, with the sum `v + gap` exact (`range_loop_f32`
rounds it); `fuel` bounds the number of runs of the body. -/
def range_loop (prev : List line_range) (it : line_range) :
    Nat → ℚ → List line → Except Fault (List line)
  | 0, v, mesh_line => if v < it.end_ then .error .out_of_fuel else .ok mesh_line
  | fuel + 1, v, mesh_line =>
    if v < it.end_ then
      if continue_ prev v then range_loop prev it fuel (v + it.gap) mesh_line
      else range_loop prev it fuel (v + it.gap) (set_insert mesh_line ⟨v, it.prio⟩).1
    else .ok mesh_line

/-- The lines handed to `mesh_line.insert` by the loop over `v`, in order. -/
def range_inserts (prev : List line_range) (it : line_range) :
    Nat → ℚ → Except Fault (List line)
  | 0, v => if v < it.end_ then .error .out_of_fuel else .ok []
  | fuel + 1, v =>
    if v < it.end_ then
      if continue_ prev v then range_inserts prev it fuel (v + it.gap)
      else
        match range_inserts prev it fuel (v + it.gap) with
        | .error e => .error e
        | .ok calls => .ok (⟨v, it.prio⟩ :: calls)
    else .ok []

/-- The outer loop over the multiset: `prev` holds the ranges already passed,
the second list the ranges from `it` on. -/
def apply_loop (fuel : Nat) :
    List line_range → List line_range → List line → Except Fault (List line)
  | _, [], mesh_line => .ok mesh_line
  | prev, it :: rest, mesh_line =>
    match range_loop prev it fuel it.start mesh_line with
    | .error e => .error e
    | .ok m2 => apply_loop fuel (prev ++ [it]) rest m2

/-- The function `openems_model_gen::_apply_mesh_line_range(mesh_line,
mesh_line_range)`; the multiset is given in iteration order and every range
may run the body of its loop at most `fuel` times. -/
def _apply_mesh_line_range (fuel : Nat) (mesh_line : List line)
    (mesh_line_range : List line_range) : Except Fault (List line) :=
  apply_loop fuel [] mesh_line_range mesh_line

/-- Inserting a sequence of lines one after the other. -/
def insert_all (mesh_line : List line) (calls : List line) : List line :=
  calls.foldl (fun m x => (set_insert m x).1) mesh_line

/-! ## `_string_to_float` -/

/-- The test in the loop of `_string_to_float` that keeps a character in
`num`. -/
def is_num_char (c : Char) : Bool :=
  c == '+' || c == '-' || c == '.' || c == 'e' || c == 'E' || (c ≥ '0' && c ≤ '9')

/-- The function `openems_model_gen::_suffix_to_value`: the `switch` on
`suffix[0]`; for an empty string `suffix[0]` is the terminating NUL, which
takes the default `return 1`. -/
def _suffix_to_value (suffix : List Char) : ℚ :=
  let c := suffix.headD (Char.ofNat 0)
  if c = 'T' then 10 ^ 12
  else if c = 'G' then 10 ^ 9
  else if c = 'M' then 10 ^ 6
  else if c = 'k' then 10 ^ 3
  else if c = 'm' then 1 / 10 ^ 3
  else if c = 'u' then 1 / 10 ^ 6
  else if c = 'n' then 1 / 10 ^ 9
  else if c = 'p' then 1 / 10 ^ 12
  else if c = 'f' then 1 / 10 ^ 15
  else 1

/-- Value of a sequence of decimal digits. -/
def digits_to_nat (ds : List Char) : Nat :=
  ds.foldl (fun n c => 10 * n + (c.toNat - '0'.toNat)) 0

/-- Drops one leading `+` or `-`. -/
def skip_sign (s : List Char) : List Char :=
  match s with
  | [] => []
  | c :: t => if c = '+' ∨ c = '-' then t else c :: t

/-- The exponent part of a decimal floating constant: `e` or `E`, an optional
sign and the digits after it; without `e` or without digits it counts 0. -/
def exponent_part (s : List Char) : ℤ :=
  match s with
  | [] => 0
  | c :: t =>
    if c = 'e' ∨ c = 'E' then
      let digits := (skip_sign t).takeWhile Char.isDigit
      if t.head? = some '-' then -(digits_to_nat digits : ℤ) else (digits_to_nat digits : ℤ)
    else 0

/-- The C library function `atof` (`strtod`) on the strings that
`_string_to_float` passes to it, which hold only signs, digits, `.`, `e` and
`E`: the longest leading decimal constant (optional sign, digits with an
optional point, optional exponent) is converted, and 0 is returned when
there is none.  The value is exact, not rounded to `double`. -/
def atof (s : List Char) : ℚ :=
  let s1 := skip_sign s
  let int_part := s1.takeWhile Char.isDigit
  let s2 := s1.dropWhile Char.isDigit
  let frac_part := if s2.head? = some '.' then s2.tail.takeWhile Char.isDigit else []
  let s3 := if s2.head? = some '.' then s2.tail.dropWhile Char.isDigit else s2
  if int_part.isEmpty && frac_part.isEmpty then 0
  else
    let mantissa : ℚ := (digits_to_nat (int_part ++ frac_part) : ℚ) / 10 ^ frac_part.length
    (if s.head? = some '-' then -mantissa else mantissa) * 10 ^ exponent_part s3

/-- The function `openems_model_gen::_string_to_float`. -/
def _string_to_float (str : String) : ℚ :=
  -- for (c : str) if (numeric c) num.push_back(c) else break
  let num := str.toList.takeWhile is_num_char
  -- suffix = str.substr(num.size(), str.npos)
  let suffix := str.toList.drop num.length
  atof num * _suffix_to_value suffix

/-! ## Rounding and `_round_xy` -/

/-- Nearest integer, a tie going to the even neighbour: the rounding of IEEE 754
arithmetic in its default mode. -/
def round_even (y : ℚ) : ℤ :=
  if y - ⌊y⌋ < 1 / 2 then ⌊y⌋
  else if 1 / 2 < y - ⌊y⌋ then ⌊y⌋ + 1
  else if ⌊y⌋ % 2 = 0 then ⌊y⌋ else ⌊y⌋ + 1

/-- The value with `p` significant binary digits nearest to `x`, ties to even:
what the machine stores for an exact result `x` in a format of precision `p`.
The exponent is not bounded: overflow and subnormal numbers are outside the
model. -/
def fl (p : Nat) (x : ℚ) : ℚ :=
  if x = 0 then 0
  else (round_even (x / 2 ^ (Int.log 2 |x| + 1 - (p : ℤ))) : ℚ) * 2 ^ (Int.log 2 |x| + 1 - (p : ℤ))

/-- Rounding to binary32, the C++ type `float`. -/
def f32 (x : ℚ) : ℚ := fl 24 x

/-- Rounding to binary64, the C++ type `double`. -/
def f64 (x : ℚ) : ℚ := fl 53 x

/-- The C function `roundf`: nearest integer, halves away from zero. -/
def roundf (x : ℚ) : ℤ := if 0 ≤ x then ⌊x + 1 / 2⌋ else -⌊-x + 1 / 2⌋

/-- The function `openems_model_gen::_round_xy`: `roundf(v * 10.) / 10.`.  The
product and the quotient are formed in `double` (the literal `10.` is one),
`roundf` takes and returns a `float`, and the result is returned as `float`. -/
def _round_xy (v : ℚ) : ℚ := f32 (f64 ((roundf (f32 (f64 (v * 10))) : ℚ) / 10))

/-! ## `_apply_mesh_line_range` with binary32 sums -/

/-- The loop `for (float v = start; v < end; v += gap)` for the range `it`
with the sum `v + gap` rounded to binary32, as the `float` variable `v` stores
it; otherwise as `range_loop`. -/
def range_loop_f32 (prev : List line_range) (it : line_range) :
    Nat → ℚ → List line → Except Fault (List line)
  | 0, v, mesh_line => if v < it.end_ then .error .out_of_fuel else .ok mesh_line
  | fuel + 1, v, mesh_line =>
    if v < it.end_ then
      if continue_ prev v then range_loop_f32 prev it fuel (f32 (v + it.gap)) mesh_line
      else range_loop_f32 prev it fuel (f32 (v + it.gap)) (set_insert mesh_line ⟨v, it.prio⟩).1
    else .ok mesh_line

/-- The lines handed to `mesh_line.insert` by the loop over `v` with binary32
sums, in order. -/
def range_inserts_f32 (prev : List line_range) (it : line_range) :
    Nat → ℚ → Except Fault (List line)
  | 0, v => if v < it.end_ then .error .out_of_fuel else .ok []
  | fuel + 1, v =>
    if v < it.end_ then
      if continue_ prev v then range_inserts_f32 prev it fuel (f32 (v + it.gap))
      else
        match range_inserts_f32 prev it fuel (f32 (v + it.gap)) with
        | .error e => .error e
        | .ok calls => .ok (⟨v, it.prio⟩ :: calls)
    else .ok []

/-- The outer loop over the multiset, with binary32 sums in the loop over
`v`. -/
def apply_loop_f32 (fuel : Nat) :
    List line_range → List line_range → List line → Except Fault (List line)
  | _, [], mesh_line => .ok mesh_line
  | prev, it :: rest, mesh_line =>
    match range_loop_f32 prev it fuel it.start mesh_line with
    | .error e => .error e
    | .ok m2 => apply_loop_f32 fuel (prev ++ [it]) rest m2

/-- The function `openems_model_gen::_apply_mesh_line_range(mesh_line,
mesh_line_range)` with the sum `v + gap` rounded to binary32 at every step;
the multiset is given in iteration order and every range may run the body of
its loop at most `fuel` times. -/
def _apply_mesh_line_range_f32 (fuel : Nat) (mesh_line : List line)
    (mesh_line_range : List line_range) : Except Fault (List line) :=
  apply_loop_f32 fuel [] mesh_line_range mesh_line

/-- The value of the loop variable `v` of the range `it` after `k` further
runs of `v += gap` in binary32, starting from `v`. -/
def loop_value_f32 (it : line_range) : Nat → ℚ → ℚ
  | 0, v => v
  | k + 1, v => loop_value_f32 it k (f32 (v + it.gap))

/-! ## Ports and lumped elements -/

/-- The struct `openems_model_gen::point`; its default constructor gives
`(0, 0, 0)`. -/
structure point where
  x : ℚ := 0
  y : ℚ := 0
  z : ℚ := 0
deriving DecidableEq

/-- The struct `pcb::point`. -/
structure pcb_point where
  x : ℚ
  y : ℚ
deriving DecidableEq

/-- The fields of `pcb::pad` that the generator reads. -/
structure pad where
  pad_number : String
  at_ : pcb_point
  size_w : ℚ
  size_h : ℚ
deriving DecidableEq

/-- The fields of `pcb::footprint` that the generator reads. -/
structure footprint where
  reference : String
  value : String
  layer : String
  at_ : pcb_point
  at_angle : ℚ
  pads : List pad
deriving DecidableEq

/-- The queries of the board model (class `pcb`, implemented in `pcb.cpp`)
that the port and element builders call.  A lookup that returns `false` in
C++ is `none`. -/
structure pcb where
  get_footprint : String → Option footprint
  get_pad : String → String → Option pad
  get_rotation_pos : pcb_point → ℚ → pcb_point → pcb_point
  get_layer_z_axis : String → ℚ

/-- The enumerators `DIR_X`, `DIR_Y`, `DIR_Z` of `excitation` and
`lumped_element`. -/
def DIR_X : Nat := 0

/-- See `DIR_X`. -/
def DIR_Y : Nat := 1

/-- See `DIR_X`. -/
def DIR_Z : Nat := 2

/-- The enumerators `TYPE_R`, `TYPE_L`, `TYPE_C` of `lumped_element`. -/
def TYPE_R : Nat := 0

/-- See `TYPE_R`. -/
def TYPE_L : Nat := 1

/-- See `TYPE_R`. -/
def TYPE_C : Nat := 2

/-- The struct `openems_model_gen::excitation`, as used by the builders. -/
structure excitation where
  start : point
  end_ : point
  dir : Nat
  R : ℚ
  excite : Bool
  gen_mesh : Bool
deriving DecidableEq

/-- The struct `openems_model_gen::lumped_element`, as used by the builders. -/
structure lumped_element where
  name : String
  type : Nat
  v : ℚ
  dir : Nat
  start : point
  end_ : point
  gen_mesh : Bool
deriving DecidableEq

/-- The struct `openems_model_gen::mesh`: the three line sets and the three
bags of pending ranges. -/
structure mesh where
  x : List line := []
  y : List line := []
  z : List line := []
  x_range : List line_range := []
  y_range : List line_range := []
  z_range : List line_range := []

/-- The members of the generator that registration and emission change. -/
structure gen_state where
  _excitations : List excitation := []
  _lumped_elements : List lumped_element := []
  _mesh : mesh := {}

/-- The start and end points computed by the two-pad forms of `add_lumped_port`
from the rotated pad centres `p1`, `p2`: the chain
`if (dir == DIR_X) ... else if (dir == DIR_Y) ... else if (dir == DIR_Z) ...`
of lines 133-186.  Coordinates that no branch assigns keep the 0 of the
default constructor. -/
def port_box (dir : Nat) (gen_mesh : Bool) (p1 p2 : pcb_point) (pad1 pad2 : pad)
    (z1 z2 : ℚ) : point × point :=
  let size := min (min pad1.size_w pad1.size_h) (min pad2.size_w pad2.size_h) / 2
  if dir = DIR_X then
    if gen_mesh then
      (⟨_round_xy p1.x, _round_xy p1.y, z1⟩, ⟨_round_xy p2.x, _round_xy p2.y, z2⟩)
    else (⟨_round_xy p1.x, p1.y - size, z1⟩, ⟨_round_xy p2.x, p1.y + size, z2⟩)
  else if dir = DIR_Y then
    if gen_mesh then
      (⟨_round_xy p1.x, _round_xy p1.y, z1⟩, ⟨_round_xy p2.x, _round_xy p2.y, z2⟩)
    else (⟨p1.x - size, _round_xy p1.y, z1⟩, ⟨p2.x + size, _round_xy p2.y, z2⟩)
  else if dir = DIR_Z then
    if gen_mesh then
      (⟨_round_xy p1.x, _round_xy p1.y, z1⟩, ⟨_round_xy p2.x, _round_xy p2.y, z2⟩)
    else (⟨p1.x - size, p1.y - size, z1⟩, ⟨p1.x + size, p1.y + size, z2⟩)
  else (⟨0, 0, z1⟩, ⟨0, 0, z2⟩)

/-- The two-pad form `add_lumped_port(fp1, fp1_pad_number, fp1_layer_name, fp2,
fp2_pad_number, fp2_layer_name, dir, R, excite, gen_mesh)`. -/
def add_lumped_port (b : pcb) (s : gen_state)
    (fp1 fp1_pad_number fp1_layer_name fp2 fp2_pad_number fp2_layer_name : String)
    (dir : Nat) (R : ℚ) (excite gen_mesh : Bool) : gen_state :=
  match b.get_footprint fp1, b.get_footprint fp2, b.get_pad fp1 fp1_pad_number,
      b.get_pad fp2 fp2_pad_number with
  | some footprint1, some footprint2, some pad1, some pad2 =>
    let p1 := b.get_rotation_pos footprint1.at_ footprint1.at_angle pad1.at_
    let p2 := b.get_rotation_pos footprint2.at_ footprint2.at_angle pad2.at_
    let box := port_box dir gen_mesh p1 p2 pad1 pad2
      (b.get_layer_z_axis fp1_layer_name) (b.get_layer_z_axis fp2_layer_name)
    let ex : excitation :=
      { start := box.1, end_ := box.2, dir := dir, R := R, excite := excite,
        gen_mesh := gen_mesh }
    { s with _excitations := s._excitations ++ [ex] }
  | _, _, _, _ => s

/-- The two-pad form of `add_excitation`: `add_lumped_port` with
`excite = true`. -/
def add_excitation (b : pcb) (s : gen_state)
    (fp1 fp1_pad_number fp1_layer_name fp2 fp2_pad_number fp2_layer_name : String)
    (dir : Nat) (R : ℚ) (gen_mesh : Bool) : gen_state :=
  add_lumped_port b s fp1 fp1_pad_number fp1_layer_name fp2 fp2_pad_number fp2_layer_name
    dir R true gen_mesh

/-- The start and end points computed by the single-footprint form of
`add_lumped_port` (lines 236-269); `dir` is `DIR_X` or `DIR_Y` there. -/
def port_box_single (dir : Nat) (gen_mesh : Bool) (p1 p2 : pcb_point) (pad1 pad2 : pad)
    (z : ℚ) : point × point :=
  let size := min (min pad1.size_w pad1.size_h) (min pad2.size_w pad2.size_h) / 2
  if dir = DIR_X then
    if gen_mesh then
      (⟨_round_xy p1.x, _round_xy p1.y, z⟩, ⟨_round_xy p2.x, _round_xy p2.y, z⟩)
    else (⟨_round_xy p1.x, p1.y - size, z⟩, ⟨_round_xy p2.x, p1.y + size, z⟩)
  else if dir = DIR_Y then
    if gen_mesh then
      (⟨_round_xy p1.x, _round_xy p1.y, z⟩, ⟨_round_xy p2.x, _round_xy p2.y, z⟩)
    else (⟨p1.x - size, _round_xy p1.y, z⟩, ⟨p1.x + size, _round_xy p2.y, z⟩)
  else (⟨0, 0, z⟩, ⟨0, 0, z⟩)

/-- The direction chosen by the single-footprint forms: `DIR_X` when
`fabs(p1.x - p2.x) > fabs(p1.y - p2.y)`, else `DIR_Y`. -/
def infer_dir (p1 p2 : pcb_point) : Nat :=
  if |p1.x - p2.x| > |p1.y - p2.y| then DIR_X else DIR_Y

/-- The single-footprint form `add_lumped_port(fp_name, excite, gen_mesh)`.
`ref.front()` of an empty string is undefined; the model then takes the
rejecting branch. -/
def add_lumped_port_fp (b : pcb) (s : gen_state) (fp_name : String)
    (excite gen_mesh : Bool) : gen_state :=
  if fp_name.toList.head? ≠ some 'R' ∧ fp_name.toList.head? ≠ some 'r' then s
  else
    match b.get_footprint fp_name with
    | some fp =>
      match fp.pads with
      | [pad1, pad2] =>
        let p1 := b.get_rotation_pos fp.at_ fp.at_angle pad1.at_
        let p2 := b.get_rotation_pos fp.at_ fp.at_angle pad2.at_
        let dir := infer_dir p1 p2
        let box := port_box_single dir gen_mesh p1 p2 pad1 pad2 (b.get_layer_z_axis fp.layer)
        let ex : excitation :=
          { start := box.1, end_ := box.2, dir := dir, R := _string_to_float fp.value,
            excite := excite, gen_mesh := gen_mesh }
        { s with _excitations := s._excitations ++ [ex] }
      | _ => s
    | none => s

/-- The start and end points computed by the two-pad form of
`add_lumped_element` (lines 307-359). -/
def element_box (dir : Nat) (gen_mesh : Bool) (p1 p2 : pcb_point) (pad1 pad2 : pad)
    (z1 z2 : ℚ) : point × point :=
  let size := min (min pad1.size_w pad1.size_h) (min pad2.size_w pad2.size_h) / 2
  if dir = DIR_X then
    if gen_mesh then
      (⟨_round_xy p1.x, _round_xy p1.y, z1⟩, ⟨_round_xy p2.x, _round_xy p2.y, z2⟩)
    else (⟨_round_xy p1.x, p1.y - size, z1⟩, ⟨_round_xy p2.x, p1.y + size, z2⟩)
  else if dir = DIR_Y then
    if gen_mesh then
      (⟨_round_xy p1.x, _round_xy p1.y, z1⟩, ⟨_round_xy p2.x, _round_xy p2.y, z2⟩)
    else (⟨p1.x - size, _round_xy p1.y, z1⟩, ⟨p1.x + size, _round_xy p2.y, z2⟩)
  else if dir = DIR_Z then
    if gen_mesh then
      (⟨_round_xy p1.x, _round_xy p1.y, z1⟩, ⟨_round_xy p2.x, _round_xy p2.y, z2⟩)
    else (⟨p1.x - size, p1.y - size, z1⟩, ⟨p1.x + size, p1.y + size, z2⟩)
  else (⟨0, 0, z1⟩, ⟨0, 0, z2⟩)

/-- The two-pad form `add_lumped_element(fp1, fp1_pad_number, fp1_layer_name,
fp2, fp2_pad_number, fp2_layer_name, dir, type, v, gen_mesh)`. -/
def add_lumped_element (b : pcb) (s : gen_state)
    (fp1 fp1_pad_number fp1_layer_name fp2 fp2_pad_number fp2_layer_name : String)
    (dir type : Nat) (v : ℚ) (gen_mesh : Bool) : gen_state :=
  match b.get_footprint fp1, b.get_footprint fp2, b.get_pad fp1 fp1_pad_number,
      b.get_pad fp2 fp2_pad_number with
  | some footprint1, some footprint2, some pad1, some pad2 =>
    let p1 := b.get_rotation_pos footprint1.at_ footprint1.at_angle pad1.at_
    let p2 := b.get_rotation_pos footprint2.at_ footprint2.at_angle pad2.at_
    let box := element_box dir gen_mesh p1 p2 pad1 pad2
      (b.get_layer_z_axis fp1_layer_name) (b.get_layer_z_axis fp2_layer_name)
    let element : lumped_element :=
      { name := "LE_" ++ fp1 ++ fp1_pad_number ++ fp1_layer_name ++ "_" ++ fp2 ++
          fp2_pad_number ++ fp2_layer_name,
        type := type, v := v, dir := dir, start := box.1, end_ := box.2,
        gen_mesh := gen_mesh }
    { s with _lumped_elements := s._lumped_elements ++ [element] }
  | _, _, _, _ => s

/-- The single-footprint form `add_lumped_element(fp_name, gen_mesh)`; the
start and end points are computed as in the single-footprint port form
(lines 421-454 repeat lines 236-269). -/
def add_lumped_element_fp (b : pcb) (s : gen_state) (fp_name : String)
    (gen_mesh : Bool) : gen_state :=
  let front := fp_name.toList.head?
  if front = some 'R' ∨ front = some 'r' ∨ front = some 'L' ∨ front = some 'l' ∨
      front = some 'C' ∨ front = some 'c' then
    let type :=
      if front = some 'R' ∨ front = some 'r' then TYPE_R
      else if front = some 'L' ∨ front = some 'l' then TYPE_L
      else TYPE_C
    match b.get_footprint fp_name with
    | some fp =>
      match fp.pads with
      | [pad1, pad2] =>
        let p1 := b.get_rotation_pos fp.at_ fp.at_angle pad1.at_
        let p2 := b.get_rotation_pos fp.at_ fp.at_angle pad2.at_
        let dir := infer_dir p1 p2
        let box := port_box_single dir gen_mesh p1 p2 pad1 pad2 (b.get_layer_z_axis fp.layer)
        let element : lumped_element :=
          { name := "LE_" ++ fp_name, type := type, v := _string_to_float fp.value,
            dir := dir, start := box.1, end_ := box.2, gen_mesh := gen_mesh }
        { s with _lumped_elements := s._lumped_elements ++ [element] }
      | _ => s
    | none => s
  else s

/-- The struct `pcb::segment`. -/
structure segment where
  start : pcb_point
  mid : pcb_point
  end_ : pcb_point
  width : ℚ
  layer_name : String
  net : Nat
deriving DecidableEq

/-- The method `pcb::segment::is_arc`. -/
def segment.is_arc (s : segment) : Bool := s.mid.x ≠ 0 || s.mid.y ≠ 0

/-- The per-net directive `mesh_info`. -/
structure mesh_info where
  gen_mesh : Bool
  zone_gen_mesh : Bool
  mesh_prio : Nat
  use_uniform_grid : Bool
  x_gap : ℚ
  y_gap : ℚ

/-- A statement group written to the model file: one extruded polygon
(`AddLinPoly` with the points set before it). -/
structure lin_poly where
  net_name : String
  points : List pcb_point
  z : ℚ
  thickness : ℚ
deriving DecidableEq

/-- What `_add_segment` takes from outside `openems_model_gen.cpp`: the board
queries and the complex-number geometry of the C++ library.
`arc_points s` is the point list built by the sampling loop of the arc
branch; `cap_point s at_end i` is the point `p` of iteration `i` of the loop
for the start cap (`at_end = false`) or the end cap (`at_end = true`). -/
structure segment_env where
  get_segments : Nat → List segment
  get_net_name : Nat → String
  get_layer_z_axis : String → ℚ
  get_layer_thickness : String → ℚ
  get_segment_len : segment → ℚ
  distance : pcb_point → pcb_point → ℚ
  arc_points : segment → List pcb_point
  cap_point : segment → Bool → Nat → pcb_point

/-- The locals of `_add_segment` while the segments of one net are processed:
the output so far, the x and y line sets and the range accumulator. -/
structure segment_state where
  out : List lin_poly
  mesh_x : List line
  mesh_y : List line
  x_min : ℚ
  x_max : ℚ
  y_min : ℚ
  y_max : ℚ

/-- The ten cap points of a straight segment in the order they are written:
`i = 0 .. n` with `n = 4` for the start cap, then for the end cap. -/
def cap_points (env : segment_env) (s : segment) : List pcb_point :=
  (List.range 5).map (env.cap_point s false) ++ (List.range 5).map (env.cap_point s true)

/-- The body of `for (const auto& s: segments)` in `_add_segment`. -/
def add_segment_body (env : segment_env) (info : mesh_info) (st : segment_state)
    (s : segment) : segment_state :=
  let z1 := env.get_layer_z_axis s.layer_name
  let thickness := env.get_layer_thickness s.layer_name
  -- the four lines after the if/else: the range accumulator
  let accumulate (st : segment_state) : segment_state :=
    { st with
      x_min := min st.x_min (min (s.start.x - s.width) (s.end_.x - s.width))
      x_max := max st.x_max (max (s.start.x + s.width) (s.end_.x + s.width))
      y_min := min st.y_min (min (s.start.y - s.width) (s.end_.y - s.width))
      y_max := max st.y_max (max (s.start.y + s.width) (s.end_.y + s.width)) }
  if s.is_arc then
    if env.get_segment_len s < s.width * (1 / 2) then st -- continue
    else
      accumulate
        { st with out := st.out ++ [⟨env.get_net_name s.net, env.arc_points s, z1, thickness⟩] }
  else
    if env.distance s.end_ s.start < s.width * (1 / 2) then st -- continue
    else
      let pts := cap_points env s
      let st1 : segment_state :=
        if info.gen_mesh && !info.use_uniform_grid then
          { st with
            mesh_x := pts.foldl (fun m p => (set_insert m ⟨p.x, info.mesh_prio⟩).1) st.mesh_x
            mesh_y := pts.foldl (fun m p => (set_insert m ⟨p.y, info.mesh_prio⟩).1) st.mesh_y }
        else st
      accumulate { st1 with out := st1.out ++ [⟨env.get_net_name s.net, pts, z1, thickness⟩] }

/-- Modelled from the spec: `mesh::line_range::operator<` is declared in a
revision of `openems_model_gen.h` that is not available; the spec orders
ranges by ascending start.  `std::multiset::insert` puts the new range after
the ranges that are not greater. -/
def range_insert : List line_range → line_range → List line_range
  | [], r => [r]
  | q :: qs, r => if r.start < q.start then r :: q :: qs else q :: range_insert qs r

/-- The body of `for (auto net: _nets)` in `_add_segment`, on the output and
the mesh. -/
def add_segment_net (env : segment_env) (acc : List lin_poly × mesh)
    (net : Nat × mesh_info) : List lin_poly × mesh :=
  let info := net.2
  let st := (env.get_segments net.1).foldl (add_segment_body env info)
    { out := acc.1, mesh_x := acc.2.x, mesh_y := acc.2.y,
      x_min := 100000, x_max := -100000, y_min := 100000, y_max := -100000 }
  let m : mesh := { acc.2 with x := st.mesh_x, y := st.mesh_y }
  if info.gen_mesh && info.use_uniform_grid
      && decide (st.x_min < 100000) && decide (st.x_max > -100000)
      && decide (st.x_min < st.x_max)
      && decide (st.y_min < 100000) && decide (st.y_max > -100000)
      && decide (st.y_min < st.y_max) then
    (st.out,
      { m with
        x_range := range_insert m.x_range ⟨st.x_min, st.x_max, info.x_gap, info.mesh_prio⟩
        y_range := range_insert m.y_range ⟨st.y_min, st.y_max, info.y_gap, info.mesh_prio⟩ })
  else (st.out, m)

/-- The function `openems_model_gen::_add_segment`: the polygons written and
the mesh after the loop over `_nets`. -/
def _add_segment (env : segment_env) (_nets : List (Nat × mesh_info)) (m : mesh) :
    List lin_poly × mesh :=
  _nets.foldl (add_segment_net env) ([], m)

/-! ## Emitted statements -/

/-- The value of one argument of an `fprintf` call: a float (`%f`, `%g`, `%e`),
an unsigned (`%u`, `%d`) or a string (`%s`). -/
inductive fprintf_arg where
  | f (x : ℚ)
  | u (n : Nat)
  | s (str : String)
deriving DecidableEq

/-- One `fprintf(fp, ...)` call of `openems_model_gen.cpp`: the line of the
file the call stands on, which fixes its format string, and the values of its
arguments in order.  The text itself is produced by the C library. -/
structure fprintf where
  cpp_line : Nat
  args : List fprintf_arg := []
deriving DecidableEq

/-- The constant `openems_model_gen::C0`. -/
def C0 : ℚ := 299792458

/-! ## `_add_nf2ff_box` -/

/-- The board outline and thickness as the board model reports them:
`get_edge_left`, `get_edge_right`, `get_edge_top`, `get_edge_bottom` and
`get_board_thickness` of class `pcb`. -/
structure pcb_edges where
  get_edge_left : ℚ
  get_edge_right : ℚ
  get_edge_top : ℚ
  get_edge_bottom : ℚ
  get_board_thickness : ℚ

/-- The members of the generator that `_add_nf2ff_box` reads; `pml` is the
outcome of the test `_bc == BC_PML`. -/
structure nf2ff_config where
  _nf2ff_fp : String
  pml : Bool
  _lambda_mesh_ratio : ℚ
  _far_field_freq : ℚ

/-- The function `openems_model_gen::_add_nf2ff_box(fp, mesh_prio)`: the mesh
after it and the `fprintf` calls it makes.  With `_nf2ff_fp` empty the
function returns at once (the statements after that `return` are never run,
whatever `_excitations` holds). -/
def _add_nf2ff_box (b : pcb) (e : pcb_edges) (cfg : nf2ff_config)
    (_excitations : List excitation) (mesh_prio : Nat) (m : mesh) : mesh × List fprintf :=
  if cfg._nf2ff_fp = "" then (m, [])
  else
    let c : point :=
      match b.get_footprint cfg._nf2ff_fp with
      | some fp => ⟨fp.at_.x, fp.at_.y, b.get_layer_z_axis fp.layer⟩
      | none => ⟨0, 0, 0⟩
    let ratio := if cfg.pml then cfg._lambda_mesh_ratio / 10 else cfg._lambda_mesh_ratio
    let lambda := C0 / cfg._far_field_freq * 1000
    let x_margin := max (max (|c.x - e.get_edge_left| + lambda / ratio)
      (|c.x - e.get_edge_right| + lambda / ratio)) (lambda / 2)
    let y_margin := max (max (|c.y - e.get_edge_top| + lambda / ratio)
      (|c.y - e.get_edge_bottom| + lambda / ratio)) (lambda / 2)
    let z_margin := max (e.get_board_thickness * ratio) (lambda / 2)
    ({ m with
        x := (set_insert (set_insert m.x ⟨c.x - x_margin - lambda / ratio, mesh_prio⟩).1
          ⟨c.x + x_margin + lambda / ratio, mesh_prio⟩).1
        y := (set_insert (set_insert m.y ⟨c.y - y_margin - lambda / ratio, mesh_prio⟩).1
          ⟨c.y + y_margin + lambda / ratio, mesh_prio⟩).1
        z := (set_insert (set_insert m.z ⟨c.z - z_margin - lambda / ratio, mesh_prio⟩).1
          ⟨c.z + z_margin + lambda / ratio, mesh_prio⟩).1 },
      [⟨1517, [.f cfg._far_field_freq]⟩,
       ⟨1518, [.f c.x, .f c.y, .f c.z]⟩,
       ⟨1519, [.f x_margin, .f y_margin, .f z_margin]⟩,
       ⟨1520, []⟩, ⟨1521, []⟩, ⟨1522, []⟩, ⟨1525, []⟩, ⟨1526, []⟩])

/-! ## `_add_gr` -/

/-- The enumerators `GR_POLY`, `GR_ARC`, `GR_CIRCLE`, `GR_LINE`, `GR_RECT`,
`GR_TEXT` of `pcb::gr`. -/
def GR_POLY : Int := 0
/-- See `GR_POLY`. -/
def GR_ARC : Int := 1
/-- See `GR_POLY`. -/
def GR_CIRCLE : Int := 2
/-- See `GR_POLY`. -/
def GR_LINE : Int := 3
/-- See `GR_POLY`. -/
def GR_RECT : Int := 4
/-- See `GR_POLY`. -/
def GR_TEXT : Int := 5

/-- The enumerators `FILL_NONE`, `FILL_SOLID` of `pcb::gr`. -/
def FILL_NONE : Int := 0
/-- See `FILL_NONE`. -/
def FILL_SOLID : Int := 1

/-- The fields of `pcb::gr` that `_add_gr` reads. -/
structure gr where
  layer_name : String
  gr_type : Int
  fill_type : Int
  pts : List pcb_point
  start : pcb_point
  end_ : pcb_point
deriving DecidableEq

/-- Modelled from the spec: the struct `range_det` (the spec's
RangeAccumulator) is declared in a revision of `openems_model_gen.h` that is
not available; it holds the running minimum and maximum of the x and y
values seen. -/
structure range_det where
  x_min : ℚ
  x_max : ℚ
  y_min : ℚ
  y_max : ℚ
deriving DecidableEq

/-- Modelled from the spec: the method `range_det::det(x, y)`, which takes
`(x, y)` into the running minimum and maximum. -/
def range_det.det (r : range_det) (x y : ℚ) : range_det :=
  { x_min := min r.x_min x, x_max := max r.x_max x,
    y_min := min r.y_min y, y_max := max r.y_max y }

/-- A solid written to the model file: an extruded polygon (`AddLinPoly`) or
a cylinder (`AddCylinder`) between two points. -/
inductive primitive where
  | poly (p : lin_poly)
  | cylinder (name : String) (start stop : point) (radius : ℚ)
deriving DecidableEq

/-- What `_add_gr` takes from outside `openems_model_gen.cpp`: board queries
and `calc_dist` of `calc.h`. -/
structure gr_env where
  get_layer_z_axis : String → ℚ
  get_layer_thickness : String → ℚ
  get_rotation_pos : pcb_point → ℚ → pcb_point → pcb_point
  calc_dist : ℚ → ℚ → ℚ → ℚ → ℚ

/-- What `_add_gr` changes: the solids written, `_mesh.x`, `_mesh.y` and the
accumulator `range` passed by reference. -/
structure gr_state where
  out : List primitive
  mesh_x : List line
  mesh_y : List line
  range : range_det
deriving DecidableEq

/-- `range.det` and, with `gen_mesh`, the two `insert` calls for each of the
given points in turn. -/
def gr_points (pts : List pcb_point) (mesh_prio : Nat) (gen_mesh : Bool) (st : gr_state) :
    gr_state :=
  { st with
    range := pts.foldl (fun r p => r.det p.x p.y) st.range
    mesh_x :=
      if gen_mesh then pts.foldl (fun m p => (set_insert m ⟨p.x, mesh_prio⟩).1) st.mesh_x
      else st.mesh_x
    mesh_y :=
      if gen_mesh then pts.foldl (fun m p => (set_insert m ⟨p.y, mesh_prio⟩).1) st.mesh_y
      else st.mesh_y }

/-- The function `openems_model_gen::_add_gr(gr, at, angle, name, fp, range,
mesh_prio, gen_mesh)`. -/
def _add_gr (env : gr_env) (g : gr) (at_ : pcb_point) (angle : ℚ) (name : String)
    (mesh_prio : Nat) (gen_mesh : Bool) (st : gr_state) : gr_state :=
  let z1 := env.get_layer_z_axis g.layer_name
  let thickness := env.get_layer_thickness g.layer_name
  let z2 := z1 + thickness
  if g.gr_type = GR_POLY then
    let pts := g.pts.map (env.get_rotation_pos at_ angle)
    let st1 := gr_points pts mesh_prio gen_mesh st
    { st1 with out := st1.out ++ [.poly ⟨name, pts, z1, thickness⟩] }
  else if g.gr_type = GR_RECT then
    let p1 := env.get_rotation_pos at_ angle ⟨g.start.x, g.start.y⟩
    let p2 := env.get_rotation_pos at_ angle ⟨g.end_.x, g.start.y⟩
    let p3 := env.get_rotation_pos at_ angle ⟨g.end_.x, g.end_.y⟩
    let p4 := env.get_rotation_pos at_ angle ⟨g.start.x, g.end_.y⟩
    if g.fill_type = FILL_SOLID then
      gr_points [p1, p2, p3, p4] mesh_prio gen_mesh
        { st with out := st.out ++ [.poly ⟨name, [p1, p2, p3, p4], z1, thickness⟩] }
    else st
  else if g.gr_type = GR_LINE then st
  else if g.gr_type = GR_CIRCLE then
    let start := env.get_rotation_pos at_ angle g.start
    let end_ := env.get_rotation_pos at_ angle g.end_
    let radius := env.calc_dist start.x start.y end_.x end_.y
    if g.fill_type = FILL_SOLID then
      gr_points [start] mesh_prio gen_mesh
        { st with
          out := st.out ++ [.cylinder name ⟨start.x, start.y, z1⟩ ⟨start.x, start.y, z2⟩
            radius] }
    else st
  else st

/-! ## Report sections of the two-port script -/

/-- The function `openems_model_gen::_add_read_ui`. -/
def _add_read_ui (_excitations : List excitation) : List fprintf :=
  ⟨1532, []⟩ ::
    ((List.range _excitations.length).map
      (fun idx => [⟨1535, [.u idx, .u idx]⟩, ⟨1536, [.u idx, .u idx]⟩, ⟨1537, []⟩])).flatten

/-- The loop of `_add_plot_feed_point_impedance` from the counter value `idx`:
an excitation with `excite == false` is passed over by `continue`, before the
`idx++` at the end of the body. -/
def feed_point_loop (_freq : List ℚ) : List excitation → Nat → List fprintf
  | [], _ => []
  | ex :: rest, idx =>
    if ex.excite = false then feed_point_loop _freq rest idx
    else
      [⟨1551, []⟩, ⟨1552, []⟩, ⟨1553, [.u idx, .u idx]⟩, ⟨1554, []⟩, ⟨1555, []⟩, ⟨1556, []⟩,
        ⟨1557, []⟩, ⟨1558, []⟩, ⟨1559, []⟩, ⟨1560, []⟩, ⟨1561, []⟩, ⟨1562, [.u idx]⟩,
        ⟨1564, []⟩, ⟨1565, []⟩, ⟨1566, []⟩] ++
      (_freq.map (fun freq => [⟨1570, [.f freq]⟩, ⟨1571, []⟩])).flatten ++
      [⟨1574, []⟩, ⟨1575, []⟩] ++ feed_point_loop _freq rest (idx + 1)

/-- The function `openems_model_gen::_add_plot_feed_point_impedance`. -/
def _add_plot_feed_point_impedance (_excitations : List excitation) (_freq : List ℚ) :
    List fprintf :=
  feed_point_loop _freq _excitations 0

/-- The function `openems_model_gen::_add_plot_two_sparamer`: nothing is
written to the file unless `_excitations.size() == 2`; all four resistances
printed are `_excitations[0].R`. -/
def _add_plot_two_sparamer (_excitations : List excitation) : List fprintf :=
  match _excitations with
  | [ex0, _] =>
    [⟨1650, []⟩, ⟨1652, [.f ex0.R]⟩, ⟨1653, [.f ex0.R]⟩, ⟨1654, []⟩, ⟨1655, []⟩, ⟨1656, []⟩,
      ⟨1658, [.f ex0.R]⟩, ⟨1659, [.f ex0.R]⟩, ⟨1660, []⟩, ⟨1661, []⟩, ⟨1662, []⟩, ⟨1664, []⟩,
      ⟨1666, []⟩, ⟨1667, []⟩, ⟨1668, []⟩, ⟨1669, []⟩, ⟨1670, []⟩, ⟨1671, []⟩, ⟨1673, []⟩,
      ⟨1674, []⟩, ⟨1675, []⟩, ⟨1677, []⟩, ⟨1678, []⟩]
  | _ => []

/-- Lines 692-699 of `gen_two_port_sparamer_scripts`: what is written after
the simulation part of the script. -/
def two_port_report (_excitations : List excitation) (_freq : List ℚ) : List fprintf :=
  ⟨692, []⟩ ::
    (_add_read_ui _excitations ++ _add_plot_two_sparamer _excitations ++
      _add_plot_feed_point_impedance _excitations _freq ++ [⟨698, []⟩, ⟨699, []⟩])

/-! ## `gen_mesh` -/

/-- The fields of `pcb::layer` that `_gen_mesh_z` reads; `type` holds one of
the enumerators of `pcb::layer`. -/
structure layer where
  name : String
  type : Nat
deriving DecidableEq

/-- What `_gen_mesh_z` takes from the board model: the layer stack and the
queries on it.  The enumerators `COPPER`, `DIELECTRIC`, `TOP_SOLDER_MASK`,
`BOTTOM_SOLDER_MASK` of `pcb::layer` are declared in a revision of `pcb.h`
that is not available, so their values are given here. -/
structure layer_env where
  COPPER : Nat
  DIELECTRIC : Nat
  TOP_SOLDER_MASK : Nat
  BOTTOM_SOLDER_MASK : Nat
  get_layers : List layer
  get_layer_z_axis : String → ℚ
  get_layer_thickness : String → ℚ
  get_cu_min_thickness : ℚ
  get_min_thickness : Nat → ℚ

/-- The members of the generator that `_gen_mesh_z` and `_gen_mesh_xy` read;
`pml` is the outcome of the test `_bc == BC_PML`. -/
structure mesh_config where
  _ignore_cu_thickness : Bool
  _f0 : ℚ
  _fc : ℚ
  _mesh_x_min_gap : ℚ
  _mesh_y_min_gap : ℚ
  _mesh_z_min_gap : ℚ
  _lambda_mesh_ratio : ℚ
  pml : Bool

/-- The function `openems_model_gen::_apply_mesh_line_range(mesh&)`: the three
overlays in the order x, y, z. -/
def _apply_mesh_line_range_mesh (fuel : Nat) (m : mesh) : Except Fault mesh :=
  match _apply_mesh_line_range fuel m.x m.x_range with
  | .error f => .error f
  | .ok x =>
    match _apply_mesh_line_range fuel m.y m.y_range with
    | .error f => .error f
    | .ok y =>
      match _apply_mesh_line_range fuel m.z m.z_range with
      | .error f => .error f
      | .ok z => .ok { m with x := x, y := y, z := z }

/-- The body of the loop over `layers` in `_gen_mesh_z`, on the pair of
`_mesh.z` and `last_layer`. -/
def z_layer_step (env : layer_env) (cfg : mesh_config) (acc : List line × String)
    (l : layer) : List line × String :=
  if l.type = env.TOP_SOLDER_MASK ∨ l.type = env.BOTTOM_SOLDER_MASK then acc
  else if cfg._ignore_cu_thickness = true ∧ l.type = env.COPPER then acc
  else ((set_insert acc.1 ⟨env.get_layer_z_axis l.name, 0⟩).1, l.name)

/-- The contents of `_mesh.z` when `_gen_mesh_z` hands it to
`_clean_mesh_line`: the set is cleared at the start of the function, then
takes the z of every layer the loop keeps and the top of the last one. -/
def z_lines (env : layer_env) (cfg : mesh_config) : List line :=
  let r := env.get_layers.foldl (z_layer_step env cfg) ([], "")
  (set_insert r.1 ⟨env.get_layer_z_axis r.2 + env.get_layer_thickness r.2, 0⟩).1

/-- The statements of `_gen_mesh_z` that widen the z axis, from the copy
`mesh_z` of `_mesh.z` taken at the start of the function: the branch
`mesh_z.size() > 1` and its `else`. -/
def z_widen (e : pcb_edges) (cfg : mesh_config) (mesh_z : List line) : List fprintf :=
  let lambda := C0 / (cfg._f0 + cfg._fc) * 1000
  let margin := max lambda (e.get_board_thickness * 20)
  match mesh_z with
  | a :: b :: rest =>
    [⟨757, [.f (min (-margin) a.v), .f (max margin (rest.getLastD b).v)]⟩]
  | _ => [⟨761, [.f margin]⟩, ⟨762, []⟩]

/-- The function `openems_model_gen::_gen_mesh_z`: the mesh after it and the
`fprintf` calls it makes. -/
def _gen_mesh_z (e : pcb_edges) (env : layer_env) (cfg : mesh_config) (fuel : Nat) (m : mesh) :
    Except Fault (mesh × List fprintf) :=
  let mesh_z := m.z
  let min_z :=
    if cfg._ignore_cu_thickness then env.get_min_thickness env.DIELECTRIC
    else env.get_cu_min_thickness
  match _clean_mesh_line fuel (z_lines env cfg) cfg._mesh_z_min_gap with
  | .error f => .error f
  | .ok z =>
    .ok ({ m with z := z },
      [⟨741, []⟩] ++ z.map (fun l => ⟨744, [.f l.v]⟩) ++
        [⟨746, []⟩, ⟨748, [.f min_z]⟩, ⟨749, []⟩] ++ z_widen e cfg mesh_z ++
        [⟨765, [.f cfg._lambda_mesh_ratio]⟩, ⟨766, []⟩, ⟨768, []⟩])

/-- The two guarded inserts of `_gen_mesh_xy` on one axis: a line at `lo`
with the priority of the first line when the first line lies above `lo`, then
a line at `hi` with the priority of the last line when the last line lies
below `hi`. -/
def extend_axis (lo hi : ℚ) (l : List line) : List line :=
  let l1 :=
    match l.head? with
    | some b => if b.v > lo then (set_insert l ⟨lo, b.prio⟩).1 else l
    | none => l
  match l1.getLast? with
  | some r => if r.v < hi then (set_insert l1 ⟨hi, r.prio⟩).1 else l1
  | none => l1

/-- The contents of `_mesh.x` when `_gen_mesh_xy` hands it to
`_clean_mesh_line`. -/
def x_lines (e : pcb_edges) (cfg : mesh_config) (x : List line) : List line :=
  let lambda := C0 / (cfg._f0 + cfg._fc) * 1000
  let ratio := if cfg.pml then cfg._lambda_mesh_ratio / 10 else cfg._lambda_mesh_ratio / 4
  extend_axis (e.get_edge_left - lambda / ratio) (e.get_edge_right + lambda / ratio) x

/-- The contents of `_mesh.y` when `_gen_mesh_xy` hands it to
`_clean_mesh_line`. -/
def y_lines (e : pcb_edges) (cfg : mesh_config) (y : List line) : List line :=
  let lambda := C0 / (cfg._f0 + cfg._fc) * 1000
  let ratio := if cfg.pml then cfg._lambda_mesh_ratio / 10 else cfg._lambda_mesh_ratio / 4
  extend_axis (e.get_edge_top - lambda / ratio) (e.get_edge_bottom + lambda / ratio) y

/-- The function `openems_model_gen::_gen_mesh_xy`: the mesh after it and the
`fprintf` calls it makes. -/
def _gen_mesh_xy (e : pcb_edges) (cfg : mesh_config) (fuel : Nat) (m : mesh) :
    Except Fault (mesh × List fprintf) :=
  match _clean_mesh_line fuel (x_lines e cfg m.x) cfg._mesh_x_min_gap with
  | .error f => .error f
  | .ok x =>
    match _clean_mesh_line fuel (y_lines e cfg m.y) cfg._mesh_y_min_gap with
    | .error f => .error f
    | .ok y =>
      .ok ({ m with x := x, y := y },
        [⟨814, []⟩] ++ x.map (fun l => ⟨817, [.f l.v]⟩) ++ [⟨819, []⟩, ⟨821, []⟩] ++
          y.map (fun l => ⟨824, [.f l.v]⟩) ++
          [⟨826, []⟩, ⟨829, [.f cfg._lambda_mesh_ratio]⟩, ⟨830, []⟩, ⟨831, []⟩])

/-- The function `openems_model_gen::gen_mesh` once the file is open: the
overlay of the pending ranges on the three axes, then `_gen_mesh_z`, then
`_gen_mesh_xy`.  `func_name` is the argument of the first statement. -/
def gen_mesh (e : pcb_edges) (env : layer_env) (cfg : mesh_config) (fuel : Nat)
    (func_name : String) (m : mesh) : Except Fault (mesh × List fprintf) :=
  match _apply_mesh_line_range_mesh fuel m with
  | .error f => .error f
  | .ok m1 =>
    match _gen_mesh_z e env cfg fuel m1 with
    | .error f => .error f
    | .ok (m2, out_z) =>
      match _gen_mesh_xy e cfg fuel m2 with
      | .error f => .error f
      | .ok (m3, out_xy) =>
        .ok (m3, [⟨563, [.s func_name]⟩, ⟨564, []⟩, ⟨565, []⟩] ++ out_z ++ out_xy ++ [⟨571, []⟩])

/-! ## Example boards -/

/-- A board of one dielectric layer `core` of thickness `t` with its lower
face at `z = 0`. -/
def core_board (t : ℚ) : layer_env :=
  { COPPER := 0, DIELECTRIC := 1, TOP_SOLDER_MASK := 2, BOTTOM_SOLDER_MASK := 3,
    get_layers := [⟨"core", 1⟩],
    get_layer_z_axis := fun _ => 0,
    get_layer_thickness := fun _ => t,
    get_cu_min_thickness := 7 / 200,
    get_min_thickness := fun _ => t }

/-- The outline `[0, 100] x [0, 50]` of a board of thickness `t`. -/
def core_edges (t : ℚ) : pcb_edges := ⟨0, 100, 0, 50, t⟩

/-- Settings with `f0 + fc` chosen so that the wavelength `C0 / (f0 + fc) * 1e3`
is `1`, minimum gaps `1 / 10`, density ratio `20` and a PML boundary. -/
def unit_wave_config : mesh_config :=
  { _ignore_cu_thickness := false, _f0 := 0, _fc := 299792458000,
    _mesh_x_min_gap := 1 / 10, _mesh_y_min_gap := 1 / 10, _mesh_z_min_gap := 1 / 10,
    _lambda_mesh_ratio := 20, pml := true }

/-- A mesh with no line yet and two pending ranges: one on x that yields the
line `0`, one on z that yields the line `5`, both of priority 3. -/
def overlay_mesh : mesh := { x_range := [⟨0, 1, 1, 3⟩], z_range := [⟨5, 6, 1, 3⟩] }

/-- What `gen_mesh` leaves and writes for `overlay_mesh` on the board
`core_board (8 / 5)` under `unit_wave_config`. -/
def overlay_mesh_result : mesh × List fprintf :=
  ({ x := [⟨-1 / 2, 3⟩, ⟨0, 3⟩, ⟨201 / 2, 3⟩], y := [], z := [⟨0, 0⟩, ⟨8 / 5, 0⟩],
     x_range := [⟨0, 1, 1, 3⟩], z_range := [⟨5, 6, 1, 3⟩] },
    [⟨563, [.s "mesh"]⟩, ⟨564, []⟩, ⟨565, []⟩,
      ⟨741, []⟩, ⟨744, [.f 0]⟩, ⟨744, [.f (8 / 5)]⟩, ⟨746, []⟩, ⟨748, [.f (7 / 200)]⟩,
      ⟨749, []⟩, ⟨761, [.f 32]⟩, ⟨762, []⟩, ⟨765, [.f 20]⟩, ⟨766, []⟩, ⟨768, []⟩,
      ⟨814, []⟩, ⟨817, [.f (-1 / 2)]⟩, ⟨817, [.f 0]⟩, ⟨817, [.f (201 / 2)]⟩, ⟨819, []⟩,
      ⟨821, []⟩, ⟨826, []⟩, ⟨829, [.f 20]⟩, ⟨830, []⟩, ⟨831, []⟩, ⟨571, []⟩])

/-! ## Widening and clearance values -/

/-- The two values that the statements of `z_widen` add to `mesh.z` in the
script: the two arguments of statement 757
(`mesh.z = unique([mesh.z, %f, %f])`), or `-margin` and `margin` of statement
762 (`mesh.z = unique([mesh.z, -margin, margin])`) with `margin` as set by
statement 761. -/
def z_widen_values (e : pcb_edges) (cfg : mesh_config) (mesh_z : List line) : ℚ × ℚ :=
  let lambda := C0 / (cfg._f0 + cfg._fc) * 1000
  let margin := max lambda (e.get_board_thickness * 20)
  match mesh_z with
  | a :: b :: rest => (min (-margin) a.v, max margin (rest.getLastD b).v)
  | _ => (-margin, margin)

/-- The distance `lambda / ratio` of `_gen_mesh_xy`: how far beyond the board
edge the x and y axes are to reach. -/
def xy_clearance (cfg : mesh_config) : ℚ :=
  let lambda := C0 / (cfg._f0 + cfg._fc) * 1000
  let ratio := if cfg.pml then cfg._lambda_mesh_ratio / 10 else cfg._lambda_mesh_ratio / 4
  lambda / ratio

/-! ## The statements of `_add_excitation` -/

/-- The `fprintf` call of line 1403 for the excitation `ex` when the counter
`portnr` has the given value: port number, resistance, start and end point,
the three direction flags and the text of the excite flag. -/
def excitation_statement (portnr : Nat) (ex : excitation) : fprintf :=
  ⟨1403, [.u portnr, .f ex.R, .f ex.start.x, .f ex.start.y, .f ex.start.z,
    .f ex.end_.x, .f ex.end_.y, .f ex.end_.z,
    .u (if ex.dir = DIR_X then 1 else 0), .u (if ex.dir = DIR_Y then 1 else 0),
    .u (if ex.dir = DIR_Z then 1 else 0), .s (if ex.excite then "true" else "false")]⟩

/-- The `fprintf` calls made by the loop of `_add_excitation` from the counter
value `portnr`; the counter goes up by one after every excitation. -/
def excitation_loop : List excitation → Nat → List fprintf
  | [], _ => []
  | ex :: rest, portnr => excitation_statement portnr ex :: excitation_loop rest (portnr + 1)

/-- The `fprintf` calls of `openems_model_gen::_add_excitation`; what the
function does to the mesh is `_add_excitation`. -/
def _add_excitation_fprintf (_excitations : List excitation) : List fprintf :=
  excitation_loop _excitations 0 ++ [⟨1421, []⟩, ⟨1422, []⟩]

/-! ## `add_mesh_range` -/

/-- The enumerators `DIR_X`, `DIR_Y`, `DIR_Z` of `mesh`; they are declared in a
revision of `openems_model_gen.h` that is not available, so their values are
given here. -/
structure mesh_dir where
  DIR_X : Nat
  DIR_Y : Nat
  DIR_Z : Nat

/-- The function `openems_model_gen::add_mesh_range(start, end, gap, dir,
prio)` on `_mesh`. -/
def add_mesh_range (d : mesh_dir) (m : mesh) (start end_ gap : ℚ) (dir prio : Nat) : mesh :=
  let range : line_range := ⟨start, end_, gap, prio⟩
  if dir = d.DIR_X then { m with x_range := range_insert m.x_range range }
  else if dir = d.DIR_Y then { m with y_range := range_insert m.y_range range }
  else if dir = d.DIR_Z then { m with z_range := range_insert m.z_range range }
  else m

/-! ## Further examples -/

/-- A mesh whose only line is the x line `-9/20` of priority 3, on entry to
`_gen_mesh_xy`. -/
def near_edge_mesh : mesh := { x := [⟨-9 / 20, 3⟩] }

/-- A board on which every footprint lies at the origin unrotated, pad `1` of
each footprint is centred at (0, 0) and every other pad at (2, 5), all pads 1
by 1, and every layer is at `z = 0`. -/
def two_pad_board : pcb :=
  { get_footprint := fun n => some ⟨n, "50", "F.Cu", ⟨0, 0⟩, 0, []⟩,
    get_pad := fun _ n => if n = "1" then some ⟨"1", ⟨0, 0⟩, 1, 1⟩ else some ⟨n, ⟨2, 5⟩, 1, 1⟩,
    get_rotation_pos := fun _ _ q => q,
    get_layer_z_axis := fun _ => 0 }

/-- Two registered ports: the first passive (`excite == false`), the second
excited. -/
def passive_then_excited : List excitation :=
  [⟨⟨0, 0, 0⟩, ⟨1, 0, 0⟩, DIR_X, 50, false, false⟩,
    ⟨⟨5, 0, 0⟩, ⟨6, 0, 0⟩, DIR_X, 50, true, false⟩]

theorem length_eraseIdx_of_lt (l : List line) (i : Nat) (h : i < l.length) :
    (l.eraseIdx i).length = l.length - 1 := by
  rw [List.length_eraseIdx]; simp [h]

theorem set_insert_length_le (l : List line) (x : line) :
    (set_insert l x).1.length ≤ l.length + 1 := by
  induction l with
  | nil => simp [set_insert]
  | cons y ys ih =>
    simp only [set_insert]
    split_ifs
    · simp; omega
    · simp
    · simp

theorem scan_loop_again {g : ℚ} {l l2 : List line} {it1 it2 a b : Nat} {brk c : Bool}
    (h : scan_body g l it1 it2 brk = .again l2 a b c) :
    scan_loop g l it1 it2 brk = scan_loop g l2 a b c := by
  rw [scan_loop]
  split
  · next l3 a3 b3 c3 h3 => rw [h] at h3; cases h3; rfl
  · next l3 c3 h3 => rw [h] at h3; cases h3
  · next h3 => rw [h] at h3; cases h3

theorem scan_loop_done {g : ℚ} {l l2 : List line} {it1 it2 : Nat} {brk c : Bool}
    (h : scan_body g l it1 it2 brk = .done l2 c) :
    scan_loop g l it1 it2 brk = .ok (l2, c) := by
  rw [scan_loop]
  split
  · next l3 a3 b3 c3 h3 => rw [h] at h3; cases h3
  · next l3 c3 h3 => rw [h] at h3; cases h3; rfl
  · next h3 => rw [h] at h3; cases h3

theorem scan_loop_fault {g : ℚ} {l : List line} {it1 it2 : Nat} {brk : Bool}
    (h : scan_body g l it1 it2 brk = .fault) :
    scan_loop g l it1 it2 brk = .error .undefined_behaviour := by
  rw [scan_loop]
  split
  · next l3 a3 b3 c3 h3 => rw [h] at h3; cases h3
  · next l3 c3 h3 => rw [h] at h3; cases h3
  · rfl

/-- Invariant rule for the scan loop: an invariant kept by every iteration
holds when the loop is left. -/
theorem scan_loop_rule (g : ℚ) (Inv : List line → Nat → Nat → Bool → Prop)
    (Post : List line → Bool → Prop)
    (hstep : ∀ l it1 it2 brk l2 a b c, Inv l it1 it2 brk →
      scan_body g l it1 it2 brk = .again l2 a b c → Inv l2 a b c)
    (hdone : ∀ l it1 it2 brk l2 c, Inv l it1 it2 brk →
      scan_body g l it1 it2 brk = .done l2 c → Post l2 c) :
    ∀ l it1 it2 brk, Inv l it1 it2 brk →
      ∀ l2 c, scan_loop g l it1 it2 brk = .ok (l2, c) → Post l2 c := by
  intro l it1 it2 brk
  induction l, it1, it2, brk using scan_loop.induct g with
  | case1 l it1 it2 brk l2 a b c h ih =>
    intro hinv l3 c3 hr
    rw [scan_loop_again h] at hr
    exact ih (hstep _ _ _ _ _ _ _ _ hinv h) _ _ hr
  | case2 l it1 it2 brk l2 c h =>
    intro hinv l3 c3 hr
    rw [scan_loop_done h] at hr
    cases hr
    exact hdone _ _ _ _ _ _ hinv h
  | case3 l it1 it2 brk h =>
    intro hinv l3 c3 hr
    rw [scan_loop_fault h] at hr
    cases hr

/-- The loop is left exactly when `it2` is `end()`; the set and `brk` are
returned as they are. -/
theorem scan_body_done {g : ℚ} {l l2 : List line} {it1 it2 : Nat} {brk c : Bool}
    (h : scan_body g l it1 it2 brk = .done l2 c) :
    l.length ≤ it2 ∧ l2 = l ∧ c = brk := by
  unfold scan_body at h
  split at h
  · split at h
    · cases h
    · simp only at h
      split_ifs at h
  · cases h
    exact ⟨by omega, rfl, rfl⟩

/-- The four ways an iteration can go on: no resolution (both iterators
advance), or one of the three resolutions. -/
theorem scan_body_again {g : ℚ} {l l2 : List line} {it1 it2 a b : Nat} {brk c : Bool}
    (h : scan_body g l it1 it2 brk = .again l2 a b c) :
    ∃ (h2 : it2 < l.length) (h1 : it1 < l.length),
      (¬ |l[it2].v - l[it1].v| < g ∧ l2 = l ∧ a = it1 + 1 ∧ b = it2 + 1 ∧ c = brk) ∨
      (|l[it2].v - l[it1].v| < g ∧ c = false ∧ b = a + 1 ∧ a < l2.length ∧
        ((l[it1].prio = l[it2].prio ∧ it1 + 1 < l.length ∧
            l2 = (set_insert ((l.eraseIdx it1).eraseIdx it1)
              ⟨(l[it1].v + l[it2].v) * (1 / 2), l[it1].prio⟩).1) ∨
          (l[it1].prio > l[it2].prio ∧ l2 = l.eraseIdx it2 ∧ a = it2) ∨
          (l[it1].prio < l[it2].prio ∧ l2 = l.eraseIdx it1 ∧ a = it1))) := by
  unfold scan_body at h
  split at h
  next h2 =>
    split at h
    · cases h
    next x hx =>
      have hi1 : it1 < l.length := by
        rcases Nat.lt_or_ge it1 l.length with h | h
        · exact h
        · rw [List.getElem?_eq_none h] at hx; cases hx
      have hx2 : l[it1] = x := by
        rw [List.getElem?_eq_getElem hi1] at hx
        exact Option.some.inj hx
      refine ⟨h2, hi1, ?_⟩
      rw [hx2]
      simp only at h
      split_ifs at h
      all_goals cases h
      all_goals first
        | exact Or.inl ⟨by assumption, rfl, rfl, rfl, rfl⟩
        | exact Or.inr ⟨by assumption, rfl, rfl, by assumption,
            Or.inl ⟨by assumption, by assumption, rfl⟩⟩
        | exact Or.inr ⟨by assumption, rfl, rfl, by assumption,
            Or.inr (Or.inl ⟨by assumption, rfl, rfl⟩)⟩
        | exact Or.inr ⟨by assumption, rfl, rfl, by assumption,
            Or.inr (Or.inr ⟨by omega, rfl, rfl⟩)⟩
  · cases h

/-! ### The set invariant -/

theorem mem_set_insert {l : List line} {x z : line} (h : z ∈ (set_insert l x).1) :
    z = x ∨ z ∈ l := by
  induction l with
  | nil =>
    simp only [set_insert, List.mem_singleton] at h
    exact Or.inl h
  | cons y ys ih =>
    simp only [set_insert] at h
    split_ifs at h with h1 h2
    · simp only [List.mem_cons] at h ⊢
      rcases h with h | h
      · exact Or.inr (Or.inl h)
      · rcases ih h with h | h
        · exact Or.inl h
        · exact Or.inr (Or.inr h)
    · simp only [List.mem_cons] at h ⊢
      exact h
    · exact Or.inr h

theorem set_insert_is_set {l : List line} (x : line) (h : is_set l) :
    is_set (set_insert l x).1 := by
  induction l with
  | nil => simp [set_insert, is_set]
  | cons y ys ih =>
    have h0 := List.pairwise_cons.1 h
    simp only [set_insert]
    split_ifs with h1 h2
    · refine List.pairwise_cons.2 ⟨?_, ih h0.2⟩
      intro z hz
      rcases mem_set_insert hz with rfl | hz
      · exact h1
      · exact h0.1 z hz
    · refine List.pairwise_cons.2 ⟨?_, h⟩
      intro z hz
      rcases List.mem_cons.1 hz with rfl | hz
      · exact h2
      · exact lt_trans (show x.v < y.v from h2) (h0.1 z hz)
    · exact h

theorem eraseIdx_is_set {l : List line} (k : Nat) (h : is_set l) : is_set (l.eraseIdx k) :=
  List.Pairwise.sublist (List.eraseIdx_sublist l k) h

theorem scan_body_is_set {g : ℚ} {l l2 : List line} {it1 it2 a b : Nat} {brk c : Bool}
    (hs : is_set l) (h : scan_body g l it1 it2 brk = .again l2 a b c) : is_set l2 := by
  obtain ⟨h2, h1, hcase⟩ := scan_body_again h
  rcases hcase with ⟨_, rfl, _⟩ | ⟨_, _, _, _, ⟨_, _, rfl⟩ | ⟨_, rfl, _⟩ | ⟨_, rfl, _⟩⟩
  · exact hs
  · exact set_insert_is_set _ (eraseIdx_is_set _ (eraseIdx_is_set _ hs))
  · exact eraseIdx_is_set _ hs
  · exact eraseIdx_is_set _ hs

theorem scan_loop_is_set {g : ℚ} {l l2 : List line} {it1 it2 : Nat} {brk c : Bool}
    (hs : is_set l) (h : scan_loop g l it1 it2 brk = .ok (l2, c)) : is_set l2 :=
  scan_loop_rule g (fun l _ _ _ => is_set l) (fun l _ => is_set l)
    (fun _ _ _ _ _ _ _ _ hinv hb => scan_body_is_set hinv hb)
    (fun _ _ _ _ _ _ hinv hb => by rw [(scan_body_done hb).2.1]; exact hinv)
    l it1 it2 brk hs l2 c h

/-! ### What a pass that leaves `brk` set has checked -/

theorem scan_loop_fixpoint {g : ℚ} {l l2 : List line}
    (h : scan_loop g l 0 1 true = .ok (l2, true)) : l2 = l ∧ no_close_neighbours g l := by
  have key := scan_loop_rule g
    (fun m it1 it2 brk => it2 = it1 + 1 ∧ (brk = true → m = l ∧
      ∀ j, j < it1 → ∀ (h : j + 1 < l.length), ¬ |l[j + 1].v - l[j].v| < g))
    (fun m c => c = true → m = l ∧ no_close_neighbours g l)
    (by
      intro m it1 it2 brk m2 a b c ⟨hi, hinv⟩ hb
      obtain ⟨h2, h1, hcase⟩ := scan_body_again hb
      rcases hcase with ⟨hc, rfl, rfl, rfl, rfl⟩ | ⟨_, rfl, rfl, _, _⟩
      · refine ⟨by omega, ?_⟩
        intro hbrk
        obtain ⟨rfl, hall⟩ := hinv hbrk
        refine ⟨rfl, ?_⟩
        intro j hj hjl
        rcases Nat.lt_or_ge j it1 with hlt | hge
        · exact hall j hlt hjl
        · have hje : j = it1 := by omega
          subst hje
          subst hi
          exact hc
      · exact ⟨rfl, fun hf => by cases hf⟩)
    (by
      intro m it1 it2 brk m2 c ⟨hi, hinv⟩ hb
      obtain ⟨hlen, rfl, rfl⟩ := scan_body_done hb
      intro hbrk
      obtain ⟨rfl, hall⟩ := hinv hbrk
      exact ⟨rfl, fun j hjl => hall j (by omega) hjl⟩)
    l 0 1 true ⟨rfl, fun _ => ⟨rfl, fun j hj => by omega⟩⟩ l2 true h
  exact key rfl

/-! ### What a pass that clears `brk` has removed -/

theorem scan_loop_shrinks {g : ℚ} {l l2 : List line} {c : Bool} (hl : 0 < l.length)
    (h : scan_loop g l 0 1 true = .ok (l2, c)) :
    0 < l2.length ∧ l2.length ≤ l.length ∧ (c = false → l2.length < l.length) := by
  exact scan_loop_rule g
    (fun m _ _ brk => 0 < m.length ∧ m.length ≤ l.length ∧ (brk = false → m.length < l.length))
    (fun m c => 0 < m.length ∧ m.length ≤ l.length ∧ (c = false → m.length < l.length))
    (by
      intro m it1 it2 brk m2 a b c ⟨hpos, hle, hlt⟩ hb
      obtain ⟨h2, h1, hcase⟩ := scan_body_again hb
      rcases hcase with ⟨_, rfl, _, _, rfl⟩ |
        ⟨_, rfl, _, ha, ⟨_, h3, rfl⟩ | ⟨_, rfl, _⟩ | ⟨_, rfl, _⟩⟩
      · exact ⟨hpos, hle, hlt⟩
      · have hlen := set_insert_length_le ((m.eraseIdx it1).eraseIdx it1)
          ⟨(m[it1].v + m[it2].v) * (1 / 2), m[it1].prio⟩
        have e1 := length_eraseIdx_of_lt m it1 h1
        have e2 := length_eraseIdx_of_lt (m.eraseIdx it1) it1 (by omega)
        exact ⟨by omega, by omega, fun _ => by omega⟩
      · have e1 := length_eraseIdx_of_lt m it2 h2
        exact ⟨by omega, by omega, fun _ => by omega⟩
      · have e1 := length_eraseIdx_of_lt m it1 h1
        exact ⟨by omega, by omega, fun _ => by omega⟩)
    (by
      intro m it1 it2 brk m2 c hinv hb
      obtain ⟨_, rfl, rfl⟩ := scan_body_done hb
      exact hinv)
    l 0 1 true ⟨hl, le_refl _, fun hf => by cases hf⟩ l2 c h

/-! ### The do-while loop -/

theorem scan_ok {g : ℚ} {l : List line} {r : List line × Bool} (h : scan g l = .ok r) :
    0 < l.length ∧ scan_loop g l 0 1 true = .ok r := by
  unfold scan at h
  split_ifs at h with h0
  exact ⟨h0, h⟩

theorem do_while_ok {g : ℚ} : ∀ (fuel : Nat) (l l2 : List line), is_set l →
    do_while g fuel l = .ok l2 → is_set l2 ∧ no_close_neighbours g l2 := by
  intro fuel
  induction fuel with
  | zero => intro l l2 _ h; cases h
  | succ n ih =>
    intro l l2 hs h
    simp only [do_while] at h
    cases hsc : scan g l with
    | error e => rw [hsc] at h; cases h
    | ok r =>
      obtain ⟨l3, brk⟩ := r
      rw [hsc] at h
      obtain ⟨_, hloop⟩ := scan_ok hsc
      cases brk with
      | true =>
        simp only [if_true] at h
        cases h
        obtain ⟨rfl, hfix⟩ := scan_loop_fixpoint hloop
        exact ⟨hs, hfix⟩
      | false =>
        simp only [Bool.false_eq_true, if_false] at h
        exact ih l3 l2 (scan_loop_is_set hs hloop) h

theorem scan_loop_no_timeout {g : ℚ} (l : List line) (it1 it2 : Nat) (brk : Bool) :
    scan_loop g l it1 it2 brk ≠ .error .out_of_fuel := by
  induction l, it1, it2, brk using scan_loop.induct g with
  | case1 l it1 it2 brk l2 a b c hb ih =>
    intro hr; rw [scan_loop_again hb] at hr; exact ih hr
  | case2 l it1 it2 brk l2 c hb => intro hr; rw [scan_loop_done hb] at hr; cases hr
  | case3 l it1 it2 brk hb => intro hr; rw [scan_loop_fault hb] at hr; cases hr

theorem do_while_fuel {g : ℚ} : ∀ (fuel : Nat) (l : List line), 0 < l.length →
    l.length ≤ fuel → do_while g fuel l ≠ .error .out_of_fuel := by
  intro fuel
  induction fuel with
  | zero => intro l h0 h1; omega
  | succ n ih =>
    intro l h0 h1 h
    simp only [do_while] at h
    cases hsc : scan g l with
    | error e =>
      rw [hsc] at h
      unfold scan at hsc
      rw [if_pos h0] at hsc
      cases e with
      | undefined_behaviour => cases h
      | out_of_fuel => exact scan_loop_no_timeout _ _ _ _ hsc
    | ok r =>
      obtain ⟨l3, brk⟩ := r
      rw [hsc] at h
      obtain ⟨_, hloop⟩ := scan_ok hsc
      obtain ⟨hpos, _, hlt⟩ := scan_loop_shrinks h0 hloop
      cases brk with
      | true => simp at h
      | false =>
        simp only [Bool.false_eq_true, if_false] at h
        exact ih l3 hpos (by have := hlt rfl; omega) h

/-! ### Neighbours far apart means all lines far apart -/

theorem is_set_getElem_le {l : List line} (hs : is_set l) {i j : Nat} (hij : i ≤ j)
    (hj : j < l.length) : l[i].v ≤ l[j].v := by
  rcases Nat.eq_or_lt_of_le hij with rfl | hlt
  · exact le_refl _
  · exact le_of_lt (List.pairwise_iff_getElem.1 hs i j (by omega) hj hlt)

theorem far_apart_of_neighbours {g : ℚ} {l : List line} (hs : is_set l)
    (hn : no_close_neighbours g l) :
    l.Pairwise (fun a b => g ≤ |a.v - b.v|) := by
  rw [List.pairwise_iff_getElem]
  intro i j hi hj hij
  have h1 : l[i].v < l[i + 1].v :=
    List.pairwise_iff_getElem.1 hs i (i + 1) hi (by omega) (by omega)
  have h2 : l[i + 1].v ≤ l[j].v := is_set_getElem_le hs (by omega) hj
  have h3 := hn i (by omega)
  rw [abs_of_pos (sub_pos.2 h1), not_lt] at h3
  rw [abs_sub_comm, abs_of_pos (sub_pos.2 (lt_of_lt_of_le h1 h2))]
  linarith

/-! ### Claims about `_clean_mesh_line` -/

theorem clean_ok {fuel : Nat} {l l2 : List line} {g : ℚ} (hs : is_set l)
    (h : _clean_mesh_line fuel l g = .ok l2) : is_set l2 ∧ no_close_neighbours g l2 := by
  unfold _clean_mesh_line at h
  split_ifs at h with hlen
  · cases h
    exact ⟨hs, fun j hj => by omega⟩
  · exact do_while_ok fuel l l2 hs h

/-- C1: on a set of `n` lines `_clean_mesh_line` needs no more than `n`
passes, and whenever it returns, any two distinct lines left in the set have
values at least `min_gap` apart. -/
theorem C1_clean_min_gap (l : List line) (min_gap : ℚ) (hs : is_set l) :
    _clean_mesh_line l.length l min_gap ≠ .error .out_of_fuel ∧
    ∀ fuel l2, _clean_mesh_line fuel l min_gap = .ok l2 →
      ∀ a ∈ l2, ∀ b ∈ l2, a ≠ b → min_gap ≤ |a.v - b.v| := by
  constructor
  · unfold _clean_mesh_line
    split_ifs with hlen
    · intro h; cases h
    · exact do_while_fuel l.length l (by omega) (le_refl _)
  · intro fuel l2 h
    obtain ⟨hs2, hn⟩ := clean_ok hs h
    have hp := far_apart_of_neighbours hs2 hn
    intro a ha b hb hab
    exact List.Pairwise.forall (fun x y hxy => by rw [abs_sub_comm]; exact hxy) hp ha hb hab

theorem pair_merge_step (a b g : ℚ) (p : Nat) (hab : a < b) (hg : b - a < g) (brk : Bool) :
    scan_body g [⟨a, p⟩, ⟨b, p⟩] 0 1 brk = .again [⟨(a + b) / 2, p⟩] 0 1 false := by
  have h1 : |b - a| < g := by rw [abs_of_pos (sub_pos.2 hab)]; exact hg
  simp [scan_body, set_insert, h1]
  ring

theorem single_done (x : line) (g : ℚ) (brk : Bool) :
    scan_body g [x] 0 1 brk = .done [x] brk := by
  simp [scan_body]

theorem scan_single (x : line) (g : ℚ) : scan g [x] = .ok ([x], true) := by
  unfold scan
  rw [if_pos (by simp), scan_loop_done (single_done _ _ _)]

theorem clean_equal_pair (fuel : Nat) (a b g : ℚ) (p : Nat) (hab : a < b)
    (hg : b - a < g) (hfuel : 2 ≤ fuel) :
    _clean_mesh_line fuel [⟨a, p⟩, ⟨b, p⟩] g = .ok [⟨(a + b) / 2, p⟩] := by
  obtain ⟨n, rfl⟩ : ∃ n, fuel = n + 2 := ⟨fuel - 2, by omega⟩
  have s1 : scan g [⟨a, p⟩, ⟨b, p⟩] = .ok ([⟨(a + b) / 2, p⟩], false) := by
    unfold scan
    rw [if_pos (by simp), scan_loop_again (pair_merge_step a b g p hab hg true),
      scan_loop_done (single_done _ _ _)]
  unfold _clean_mesh_line
  rw [if_neg (by simp)]
  simp only [do_while, s1, scan_single]
  simp

theorem pair_drop_first_step (a b g : ℚ) (pa pb : Nat) (hg : |b - a| < g) (hp : pa < pb)
    (brk : Bool) :
    scan_body g [⟨a, pa⟩, ⟨b, pb⟩] 0 1 brk = .again [⟨b, pb⟩] 0 1 false := by
  have h1 : pa ≠ pb := by omega
  have h2 : ¬ pb < pa := by omega
  simp [scan_body, hg, h1, h2]

theorem pair_drop_second_step (a b g : ℚ) (pa pb : Nat) (hg : |b - a| < g) (hp : pb < pa)
    (brk : Bool) :
    scan_body g [⟨a, pa⟩, ⟨b, pb⟩] 0 1 brk = .fault := by
  have h1 : pa ≠ pb := by omega
  simp [scan_body, hg, h1, hp]

theorem clean_pair_higher_second (fuel : Nat) (a b g : ℚ) (pa pb : Nat) (hg : |b - a| < g)
    (hp : pa < pb) (hfuel : 2 ≤ fuel) :
    _clean_mesh_line fuel [⟨a, pa⟩, ⟨b, pb⟩] g = .ok [⟨b, pb⟩] := by
  obtain ⟨n, rfl⟩ : ∃ n, fuel = n + 2 := ⟨fuel - 2, by omega⟩
  have s1 : scan g [⟨a, pa⟩, ⟨b, pb⟩] = .ok ([⟨b, pb⟩], false) := by
    unfold scan
    rw [if_pos (by simp), scan_loop_again (pair_drop_first_step a b g pa pb hg hp true),
      scan_loop_done (single_done _ _ _)]
  unfold _clean_mesh_line
  rw [if_neg (by simp)]
  simp only [do_while, s1, scan_single]
  simp

theorem clean_pair_higher_first (fuel : Nat) (a b g : ℚ) (pa pb : Nat) (hg : |b - a| < g)
    (hp : pb < pa) (hfuel : 1 ≤ fuel) :
    _clean_mesh_line fuel [⟨a, pa⟩, ⟨b, pb⟩] g = .error .undefined_behaviour := by
  obtain ⟨n, rfl⟩ : ∃ n, fuel = n + 1 := ⟨fuel - 1, by omega⟩
  have s1 : scan g [⟨a, pa⟩, ⟨b, pb⟩] = .error .undefined_behaviour := by
    unfold scan
    rw [if_pos (by simp), scan_loop_fault (pair_drop_second_step a b g pa pb hg hp true)]
  unfold _clean_mesh_line
  rw [if_neg (by simp)]
  simp only [do_while, s1]

theorem clean_three_example :
    _clean_mesh_line 2 [⟨0, 1⟩, ⟨1 / 20, 1⟩, ⟨1, 1⟩] (1 / 10) = .ok [⟨1 / 40, 1⟩, ⟨1, 1⟩] := by
  have b1 : scan_body (1 / 10) [⟨0, 1⟩, ⟨1 / 20, 1⟩, ⟨1, 1⟩] 0 1 true =
      .again [⟨1 / 40, 1⟩, ⟨1, 1⟩] 0 1 false := by
    norm_num [scan_body, set_insert, line.lt, abs_lt]
  have b2 : ∀ brk, scan_body (1 / 10) [⟨1 / 40, 1⟩, ⟨1, 1⟩] 0 1 brk =
      .again [⟨1 / 40, 1⟩, ⟨1, 1⟩] 1 2 brk := by
    intro brk
    norm_num [scan_body, abs_lt]
  have b3 : ∀ brk, scan_body (1 / 10) [⟨1 / 40, 1⟩, ⟨1, 1⟩] 1 2 brk =
      .done [⟨1 / 40, 1⟩, ⟨1, 1⟩] brk := by
    intro brk
    simp [scan_body]
  have s1 : scan (1 / 10) [⟨0, 1⟩, ⟨1 / 20, 1⟩, ⟨1, 1⟩] =
      .ok ([⟨1 / 40, 1⟩, ⟨1, 1⟩], false) := by
    unfold scan
    rw [if_pos (by simp), scan_loop_again b1, scan_loop_again (b2 false),
      scan_loop_done (b3 false)]
  have s2 : scan (1 / 10) [⟨1 / 40, 1⟩, ⟨1, 1⟩] = .ok ([⟨1 / 40, 1⟩, ⟨1, 1⟩], true) := by
    unfold scan
    rw [if_pos (by simp), scan_loop_again (b2 true), scan_loop_done (b3 true)]
  unfold _clean_mesh_line
  rw [if_neg (by simp)]
  simp only [do_while, s1, s2]
  simp

theorem C1_clean_min_gap_witness :
    (1 / 10 : ℚ) ≤ |(⟨1 / 40, 1⟩ : line).v - (⟨1, 1⟩ : line).v| :=
  (C1_clean_min_gap [⟨0, 1⟩, ⟨1 / 20, 1⟩, ⟨1, 1⟩] (1 / 10)
    (by norm_num [is_set, line.lt])).2 2 [⟨1 / 40, 1⟩, ⟨1, 1⟩] clean_three_example
    ⟨1 / 40, 1⟩ (by simp) ⟨1, 1⟩ (by simp) (by norm_num)

/-- C2: two lines of equal priority `p` at `a < b` with `b - a < min_gap` are
replaced by the single line `((a + b) / 2, p)`. -/
theorem C2_equal_priority_pair (fuel : Nat) (a b min_gap : ℚ) (p : Nat) (hab : a < b)
    (hg : b - a < min_gap) (hfuel : 2 ≤ fuel) :
    _clean_mesh_line fuel [⟨a, p⟩, ⟨b, p⟩] min_gap = .ok [⟨(a + b) / 2, p⟩] :=
  clean_equal_pair fuel a b min_gap p hab hg hfuel

theorem C2_equal_priority_pair_witness :
    _clean_mesh_line 2 [⟨0, 1⟩, ⟨1 / 20, 1⟩] (1 / 10) = .ok [⟨(0 + 1 / 20) / 2, 1⟩] :=
  C2_equal_priority_pair 2 0 (1 / 20) (1 / 10) 1 (by norm_num) (by norm_num) (by norm_num)

/-- C3: with the lower-valued line holding the higher priority, the pass
erases the second line, moves `it1` to `end()` and then increments `end()`;
with the priorities the other way round the higher-priority line is kept. -/
theorem C3_higher_priority_first_faults :
    _clean_mesh_line 2 [⟨0, 1⟩, ⟨1 / 20, 0⟩] (1 / 10) = .error .undefined_behaviour ∧
    _clean_mesh_line 2 [⟨0, 0⟩, ⟨1 / 20, 1⟩] (1 / 10) = .ok [⟨1 / 20, 1⟩] :=
  ⟨clean_pair_higher_first 2 0 (1 / 20) (1 / 10) 1 0 (by norm_num [abs_lt]) (by norm_num)
      (by norm_num),
    clean_pair_higher_second 2 0 (1 / 20) (1 / 10) 0 1 (by norm_num [abs_lt]) (by norm_num)
      (by norm_num)⟩

theorem clean_second_pair_faults (fuel : Nat) (hfuel : 1 ≤ fuel) :
    _clean_mesh_line fuel [⟨0, 0⟩, ⟨1, 1⟩, ⟨21 / 20, 0⟩] (1 / 10) =
      .error .undefined_behaviour := by
  obtain ⟨n, rfl⟩ : ∃ n, fuel = n + 1 := ⟨fuel - 1, by omega⟩
  have b1 : scan_body (1 / 10) [⟨0, 0⟩, ⟨1, 1⟩, ⟨21 / 20, 0⟩] 0 1 true =
      .again [⟨0, 0⟩, ⟨1, 1⟩, ⟨21 / 20, 0⟩] 1 2 true := by
    norm_num [scan_body, abs_lt]
  have b2 : scan_body (1 / 10) [⟨0, 0⟩, ⟨1, 1⟩, ⟨21 / 20, 0⟩] 1 2 true = .fault := by
    norm_num [scan_body, abs_lt]
  have s1 : scan (1 / 10) [⟨0, 0⟩, ⟨1, 1⟩, ⟨21 / 20, 0⟩] = .error .undefined_behaviour := by
    unfold scan
    rw [if_pos (by simp), scan_loop_again b1, scan_loop_fault b2]
  unfold _clean_mesh_line
  rw [if_neg (by simp)]
  simp only [do_while, s1]

/-- C4: the lines (0, priority 0), (1, priority 1), (21/20, priority 0) with
`min_gap = 1/10`: the first two are far apart, the last two are close and the
first of them has the higher priority, so `erase` of the last line returns
`end()` and the iterator is incremented past it.  The run is undefined for
every number of passes allowed: the call does not end with a result.  What
holds for every set: a pass that resolves a close pair (it leaves `brk`
cleared) ends with strictly fewer lines than it started with, and with `n`
passes allowed for a set of `n` lines the call either returns a set or stops
at such an undefined step; it never needs a further pass. -/
theorem C4_clean_faults_before_terminating :
    (∀ fuel, 1 ≤ fuel →
      _clean_mesh_line fuel [⟨0, 0⟩, ⟨1, 1⟩, ⟨21 / 20, 0⟩] (1 / 10) =
        .error .undefined_behaviour) ∧
    (∀ (l l2 : List line) (min_gap : ℚ),
      scan min_gap l = .ok (l2, false) → l2.length < l.length) ∧
    (∀ (l : List line) (min_gap : ℚ) (fuel : Nat), l.length ≤ fuel →
      (∃ l2, _clean_mesh_line fuel l min_gap = .ok l2) ∨
        _clean_mesh_line fuel l min_gap = .error .undefined_behaviour) := by
  refine ⟨clean_second_pair_faults, ?_, ?_⟩
  · intro l l2 min_gap h
    obtain ⟨h0, hloop⟩ := scan_ok h
    exact (scan_loop_shrinks h0 hloop).2.2 rfl
  · intro l min_gap fuel hf
    have hne : _clean_mesh_line fuel l min_gap ≠ .error .out_of_fuel := by
      unfold _clean_mesh_line
      split_ifs with hlen
      · intro h; cases h
      · exact do_while_fuel fuel l (by omega) hf
    cases hr : _clean_mesh_line fuel l min_gap with
    | ok l2 => exact Or.inl ⟨l2, rfl⟩
    | error e =>
      cases e with
      | undefined_behaviour => exact Or.inr rfl
      | out_of_fuel => exact absurd hr hne

/-! ### Claims about `_apply_mesh_line_range` -/

theorem range_loop_eq_inserts (prev : List line_range) (it : line_range) :
    ∀ (fuel : Nat) (v : ℚ) (m : List line),
      range_loop prev it fuel v m =
        (match range_inserts prev it fuel v with
          | .error e => .error e
          | .ok calls => .ok (insert_all m calls)) := by
  intro fuel
  induction fuel with
  | zero =>
    intro v m
    simp only [range_loop, range_inserts]
    split_ifs <;> rfl
  | succ n ih =>
    intro v m
    simp only [range_loop, range_inserts]
    split_ifs with h1 h2
    · exact ih _ _
    · rw [ih]
      cases range_inserts prev it n (v + it.gap) with
      | error e => rfl
      | ok calls => rfl
    · rfl

theorem continue_iff (prev : List line_range) (v : ℚ) :
    continue_ prev v = true ↔ ∃ r2 ∈ prev, r2.start ≤ v ∧ v < r2.end_ := by
  simp [continue_]

theorem mem_range_inserts (prev : List line_range) (it : line_range) :
    ∀ (fuel : Nat) (v : ℚ) (calls : List line), range_inserts prev it fuel v = .ok calls →
      ∀ x, x ∈ calls →
        ∃ k : Nat, x = ⟨v + k * it.gap, it.prio⟩ ∧ v + k * it.gap < it.end_ ∧
          continue_ prev (v + k * it.gap) = false := by
  intro fuel
  induction fuel with
  | zero =>
    intro v calls h x hx
    simp only [range_inserts] at h
    split_ifs at h
    cases h
    cases hx
  | succ n ih =>
    intro v calls h x hx
    simp only [range_inserts] at h
    have shift : ∀ k : Nat, v + it.gap + k * it.gap = v + ((k + 1 : Nat) : ℚ) * it.gap := by
      intro k; push_cast; ring
    split_ifs at h with h1 h2
    · obtain ⟨k, hk⟩ := ih _ _ h x hx
      refine ⟨k + 1, ?_⟩
      rw [← shift]; exact hk
    · cases hr : range_inserts prev it n (v + it.gap) with
      | error e => rw [hr] at h; cases h
      | ok c2 =>
        rw [hr] at h
        cases h
        rcases List.mem_cons.1 hx with rfl | hx2
        · exact ⟨0, by simp, by simpa using h1, by simpa using h2⟩
        · obtain ⟨k, hk⟩ := ih _ _ hr x hx2
          refine ⟨k + 1, ?_⟩
          rw [← shift]; exact hk
    · cases h
      cases hx

theorem range_inserts_mem (prev : List line_range) (it : line_range) (hgap : 0 < it.gap) :
    ∀ (fuel : Nat) (v : ℚ) (calls : List line), range_inserts prev it fuel v = .ok calls →
      ∀ k : Nat, v + k * it.gap < it.end_ → continue_ prev (v + k * it.gap) = false →
        (⟨v + k * it.gap, it.prio⟩ : line) ∈ calls := by
  intro fuel
  induction fuel with
  | zero =>
    intro v calls h k hk _
    simp only [range_inserts] at h
    have hv : v < it.end_ := by
      have : (0 : ℚ) ≤ k * it.gap := mul_nonneg (Nat.cast_nonneg k) (le_of_lt hgap)
      linarith
    rw [if_pos hv] at h
    cases h
  | succ n ih =>
    intro v calls h k hk hc
    simp only [range_inserts] at h
    have hv : v < it.end_ := by
      have : (0 : ℚ) ≤ k * it.gap := mul_nonneg (Nat.cast_nonneg k) (le_of_lt hgap)
      linarith
    rw [if_pos hv] at h
    have shift : ∀ j : Nat, v + it.gap + j * it.gap = v + ((j + 1 : Nat) : ℚ) * it.gap := by
      intro j; push_cast; ring
    cases k with
    | zero =>
      simp only [Nat.cast_zero, zero_mul, add_zero] at hc ⊢
      rw [hc] at h
      simp only [Bool.false_eq_true, if_false] at h
      cases hr : range_inserts prev it n (v + it.gap) with
      | error e => rw [hr] at h; cases h
      | ok c2 => rw [hr] at h; cases h; exact List.mem_cons_self _ _
    | succ j =>
      rw [← shift] at hk hc ⊢
      split_ifs at h with h2
      · exact ih _ _ h j hk hc
      · cases hr : range_inserts prev it n (v + it.gap) with
        | error e => rw [hr] at h; cases h
        | ok c2 =>
          rw [hr] at h; cases h
          exact List.mem_cons_of_mem _ (ih _ _ hr j hk hc)

theorem range_inserts_terminates (prev : List line_range) (it : line_range) :
    ∀ (fuel : Nat) (v : ℚ), it.end_ - v ≤ fuel * it.gap →
      ∃ calls, range_inserts prev it fuel v = .ok calls := by
  intro fuel
  induction fuel with
  | zero =>
    intro v hv
    simp only [Nat.cast_zero, zero_mul] at hv
    refine ⟨[], ?_⟩
    simp only [range_inserts]
    rw [if_neg (by linarith)]
  | succ n ih =>
    intro v hv
    have hv2 : it.end_ - (v + it.gap) ≤ n * it.gap := by
      push_cast at hv; linarith
    obtain ⟨c2, hc2⟩ := ih (v + it.gap) hv2
    simp only [range_inserts]
    split_ifs
    · exact ⟨c2, hc2⟩
    · rw [hc2]; exact ⟨_, rfl⟩
    · exact ⟨[], rfl⟩

theorem range_inserts_fuel (prev : List line_range) (it : line_range) (hgap : 0 < it.gap)
    (fuel : Nat) (hf : ⌈(it.end_ - it.start) / it.gap⌉₊ ≤ fuel) :
    ∃ calls, range_inserts prev it fuel it.start = .ok calls := by
  apply range_inserts_terminates
  have h1 : (it.end_ - it.start) / it.gap ≤ (⌈(it.end_ - it.start) / it.gap⌉₊ : ℚ) :=
    Nat.le_ceil _
  have h2 : ((⌈(it.end_ - it.start) / it.gap⌉₊ : Nat) : ℚ) ≤ (fuel : ℚ) := by
    exact_mod_cast hf
  have h3 : (it.end_ - it.start) / it.gap ≤ (fuel : ℚ) := le_trans h1 h2
  rwa [div_le_iff₀ hgap] at h3

theorem takeWhile_num_append (num suffix : List Char)
    (hnum : ∀ c ∈ num, is_num_char c = true)
    (hsuf : ∀ c, suffix.head? = some c → is_num_char c = false) :
    (num ++ suffix).takeWhile is_num_char = num := by
  induction num with
  | nil =>
    cases suffix with
    | nil => rfl
    | cons c t =>
      have := hsuf c rfl
      simp [List.takeWhile, this]
  | cons c t ih =>
    have h1 := hnum c (List.mem_cons_self _ _)
    rw [List.cons_append, List.takeWhile_cons, h1]
    simp only [if_true]
    rw [ih (fun d hd => hnum d (List.mem_cons_of_mem _ hd))]

/-- C7: `_string_to_float` of a numeric prefix `num` followed by a rest that
does not start with a numeric character is `atof num` times the multiplier of
the first character of the rest; the multipliers are those of the table, 1 for
any other or no character; and the four sample strings give 4700, 1e-8, 100
and 2.2e-6. -/
theorem C7_string_to_float :
    (∀ num suffix : List Char, (∀ c ∈ num, is_num_char c = true) →
      (∀ c, suffix.head? = some c → is_num_char c = false) →
      _string_to_float (String.mk (num ++ suffix)) = atof num * _suffix_to_value suffix) ∧
    (∀ rest, _suffix_to_value ('T' :: rest) = 10 ^ 12 ∧ _suffix_to_value ('G' :: rest) = 10 ^ 9 ∧
      _suffix_to_value ('M' :: rest) = 10 ^ 6 ∧ _suffix_to_value ('k' :: rest) = 10 ^ 3 ∧
      _suffix_to_value ('m' :: rest) = 1 / 10 ^ 3 ∧ _suffix_to_value ('u' :: rest) = 1 / 10 ^ 6 ∧
      _suffix_to_value ('n' :: rest) = 1 / 10 ^ 9 ∧ _suffix_to_value ('p' :: rest) = 1 / 10 ^ 12 ∧
      _suffix_to_value ('f' :: rest) = 1 / 10 ^ 15) ∧
    (∀ c rest, c ∉ ['T', 'G', 'M', 'k', 'm', 'u', 'n', 'p', 'f'] →
      _suffix_to_value (c :: rest) = 1) ∧
    _suffix_to_value [] = 1 ∧
    _string_to_float "4.7k" = 4700 ∧
    _string_to_float "10n" = 1 / 10 ^ 8 ∧
    _string_to_float "100" = 100 ∧
    _string_to_float "2.2u" = 22 / 10 ^ 7 := by
  refine ⟨?_, ?_, ?_, ?_, ?_, ?_, ?_, ?_⟩
  · intro num suffix hnum hsuf
    simp only [_string_to_float, String.toList]
    rw [takeWhile_num_append num suffix hnum hsuf, List.drop_left]
  · intro rest
    simp [_suffix_to_value]
  · intro c rest hc
    simp only [List.mem_cons, List.mem_singleton, List.not_mem_nil, or_false, not_or] at hc
    obtain ⟨h1, h2, h3, h4, h5, h6, h7, h8, h9⟩ := hc
    simp [_suffix_to_value, h1, h2, h3, h4, h5, h6, h7, h8, h9]
  · simp [_suffix_to_value]
  · simp [_string_to_float, is_num_char, atof, digits_to_nat, exponent_part, _suffix_to_value,
      skip_sign]
    norm_num
  · simp [_string_to_float, is_num_char, atof, digits_to_nat, exponent_part, _suffix_to_value,
      skip_sign]
    norm_num
  · simp [_string_to_float, is_num_char, atof, digits_to_nat, exponent_part, _suffix_to_value,
      skip_sign]
  · simp [_string_to_float, is_num_char, atof, digits_to_nat, exponent_part, _suffix_to_value,
      skip_sign]
    norm_num

/-! ### Rounding to binary32 and binary64 -/

theorem round_even_near (y : ℚ) : |(round_even y : ℚ) - y| ≤ 1 / 2 := by
  have h1 := Int.floor_le y
  have h2 := Int.lt_floor_add_one y
  unfold round_even
  split_ifs with ha hb hc
  · rw [abs_le]; constructor <;> linarith
  · push_cast; rw [abs_le]; constructor <;> linarith
  · rw [abs_le]; constructor <;> linarith
  · push_cast; rw [abs_le]; constructor <;> linarith

theorem round_even_of_near (y : ℚ) (n : ℤ) (h : |y - n| < 1 / 2) : round_even y = n := by
  rw [abs_lt] at h
  have h1 := Int.floor_le y
  have h2 := Int.lt_floor_add_one y
  have hf : ⌊y⌋ = n ∨ ⌊y⌋ = n - 1 := by
    have h3 : (⌊y⌋ : ℚ) < n + 1 := by linarith
    have h4 : ((n : ℚ) - 2) < ⌊y⌋ := by linarith
    have h5 : ⌊y⌋ < n + 1 := by exact_mod_cast h3
    have h6 : n - 2 < ⌊y⌋ := by exact_mod_cast h4
    omega
  unfold round_even
  rcases hf with hf | hf
  · rw [hf]
    rw [if_pos (by linarith)]
  · rw [hf]
    have h7 : ¬ (y - ((n - 1 : ℤ) : ℚ) < 1 / 2) := by push_cast; linarith
    have h8 : 1 / 2 < y - ((n - 1 : ℤ) : ℚ) := by push_cast; linarith
    rw [if_neg h7, if_pos h8]
    ring

theorem fl_eval (p : Nat) (x : ℚ) (e n : ℤ) (h1 : (2 : ℚ) ^ e ≤ |x|) (h2 : |x| < (2 : ℚ) ^ (e + 1))
    (hn : |x / 2 ^ (e + 1 - (p : ℤ)) - n| < 1 / 2) : fl p x = n * 2 ^ (e + 1 - (p : ℤ)) := by
  have hpos : 0 < |x| := lt_of_lt_of_le (by positivity) h1
  have hx : x ≠ 0 := abs_pos.1 hpos
  have hlog : Int.log 2 |x| = e := by
    have ha : e ≤ Int.log 2 |x| := (Int.zpow_le_iff_le_log (by norm_num) hpos).1 (by simpa using h1)
    have hb : Int.log 2 |x| < e + 1 := (Int.lt_zpow_iff_log_lt (by norm_num) hpos).1 (by simpa using h2)
    omega
  unfold fl
  rw [if_neg hx, hlog, round_even_of_near _ n hn]

theorem fl_eval_pos (p : Nat) (x : ℚ) (e n : ℤ) (h1 : (2 : ℚ) ^ e ≤ x) (h2 : x < (2 : ℚ) ^ (e + 1))
    (hn1 : (n : ℚ) - 1 / 2 < x / 2 ^ (e + 1 - (p : ℤ)))
    (hn2 : x / 2 ^ (e + 1 - (p : ℤ)) < (n : ℚ) + 1 / 2) :
    fl p x = n * 2 ^ (e + 1 - (p : ℤ)) := by
  have hpos : 0 < x := lt_of_lt_of_le (by positivity) h1
  refine fl_eval p x e n ?_ ?_ ?_
  · rw [abs_of_pos hpos]; exact h1
  · rw [abs_of_pos hpos]; exact h2
  · rw [abs_lt]; constructor <;> linarith

theorem fl_error (p : Nat) (x : ℚ) : |fl p x - x| ≤ |x| / 2 ^ p := by
  by_cases hx : x = 0
  · simp [fl, hx]
  · have hpos : 0 < |x| := abs_pos.2 hx
    have hlog : (2 : ℚ) ^ Int.log 2 |x| ≤ |x| := by
      simpa using Int.zpow_log_le_self (b := 2) (by norm_num) hpos
    unfold fl
    rw [if_neg hx]
    set e := Int.log 2 |x| with he
    have hq : (0 : ℚ) < 2 ^ (e + 1 - (p : ℤ)) := by positivity
    have hr := round_even_near (x / 2 ^ (e + 1 - (p : ℤ)))
    have hmul : (round_even (x / 2 ^ (e + 1 - (p : ℤ))) : ℚ) * 2 ^ (e + 1 - (p : ℤ)) - x =
        ((round_even (x / 2 ^ (e + 1 - (p : ℤ))) : ℚ) - x / 2 ^ (e + 1 - (p : ℤ))) *
          2 ^ (e + 1 - (p : ℤ)) := by
      field_simp
    rw [hmul, abs_mul, abs_of_pos hq]
    have hsplit : (2 : ℚ) ^ (e + 1 - (p : ℤ)) = 2 ^ e * 2 / 2 ^ p := by
      rw [zpow_sub₀ (by norm_num), zpow_add₀ (by norm_num), zpow_one, zpow_natCast]
    have hp : (0 : ℚ) < 2 ^ p := by positivity
    calc |(round_even (x / 2 ^ (e + 1 - (p : ℤ))) : ℚ) - x / 2 ^ (e + 1 - (p : ℤ))| *
          2 ^ (e + 1 - (p : ℤ))
        ≤ 1 / 2 * 2 ^ (e + 1 - (p : ℤ)) := by
          exact mul_le_mul_of_nonneg_right hr (le_of_lt hq)
      _ = 2 ^ e / 2 ^ p := by rw [hsplit]; field_simp
      _ ≤ |x| / 2 ^ p := by exact div_le_div_of_nonneg_right hlog (le_of_lt hp)

theorem round_even_tie_even (y : ℚ) (n : ℤ) (h : y = n + 1 / 2) (hn : n % 2 = 0) :
    round_even y = n := by
  have hf : ⌊y⌋ = n := by
    rw [Int.floor_eq_iff, h]
    constructor <;> linarith
  unfold round_even
  rw [hf, h]
  norm_num [hn]

theorem round_even_tie_odd (y : ℚ) (n : ℤ) (h : y = n + 1 / 2) (hn : n % 2 = 1) :
    round_even y = n + 1 := by
  have hf : ⌊y⌋ = n := by
    rw [Int.floor_eq_iff, h]
    constructor <;> linarith
  unfold round_even
  rw [hf, h]
  norm_num [hn]

theorem roundf_near (x : ℚ) : |(roundf x : ℚ) - x| ≤ 1 / 2 := by
  unfold roundf
  split_ifs with h
  · have h1 := Int.floor_le (x + 1 / 2)
    have h2 := Int.lt_floor_add_one (x + 1 / 2)
    rw [abs_le]
    constructor <;> linarith
  · have h1 := Int.floor_le (-x + 1 / 2)
    have h2 := Int.lt_floor_add_one (-x + 1 / 2)
    push_cast
    rw [abs_le]
    constructor <;> linarith

theorem f32_f64_error (z : ℚ) : |f32 (f64 z) - z| ≤ |z| * (1 / 2 ^ 24 + 1 / 2 ^ 52) := by
  have h1 : |f64 z - z| ≤ |z| / 2 ^ 53 := fl_error 53 z
  have h2 : |f32 (f64 z) - f64 z| ≤ |f64 z| / 2 ^ 24 := fl_error 24 (f64 z)
  have h3 : |f64 z| - |z| ≤ |f64 z - z| := abs_sub_abs_le_abs_sub _ _
  have h4 : |f32 (f64 z) - z| ≤ |f32 (f64 z) - f64 z| + |f64 z - z| := abs_sub_le _ _ _
  have h5 : 0 ≤ |z| := abs_nonneg z
  norm_num at h1 h2 ⊢
  linarith

theorem round_xy_form (v : ℚ) :
    ∃ k : ℤ, _round_xy v = f32 (f64 ((k : ℚ) / 10)) ∧ |(k : ℚ) - f32 (f64 (v * 10))| ≤ 1 / 2 :=
  ⟨roundf (f32 (f64 (v * 10))), rfl, roundf_near _⟩

theorem fl_eval_pos_tie_even (p : Nat) (x : ℚ) (e n : ℤ) (h1 : (2 : ℚ) ^ e ≤ x)
    (h2 : x < (2 : ℚ) ^ (e + 1)) (hy : x / 2 ^ (e + 1 - (p : ℤ)) = n + 1 / 2) (hn : n % 2 = 0) :
    fl p x = n * 2 ^ (e + 1 - (p : ℤ)) := by
  have hpos : 0 < x := lt_of_lt_of_le (by positivity) h1
  have hx : x ≠ 0 := ne_of_gt hpos
  have hlog : Int.log 2 |x| = e := by
    rw [abs_of_pos hpos]
    have ha : e ≤ Int.log 2 x := (Int.zpow_le_iff_le_log (by norm_num) hpos).1 (by simpa using h1)
    have hb : Int.log 2 x < e + 1 := (Int.lt_zpow_iff_log_lt (by norm_num) hpos).1 (by simpa using h2)
    omega
  unfold fl
  rw [if_neg hx, hlog, round_even_tie_even _ n hy hn]

theorem fl_eval_pos_tie_odd (p : Nat) (x : ℚ) (e n : ℤ) (h1 : (2 : ℚ) ^ e ≤ x)
    (h2 : x < (2 : ℚ) ^ (e + 1)) (hy : x / 2 ^ (e + 1 - (p : ℤ)) = n + 1 / 2) (hn : n % 2 = 1) :
    fl p x = ((n + 1 : ℤ) : ℚ) * 2 ^ (e + 1 - (p : ℤ)) := by
  have hpos : 0 < x := lt_of_lt_of_le (by positivity) h1
  have hx : x ≠ 0 := ne_of_gt hpos
  have hlog : Int.log 2 |x| = e := by
    rw [abs_of_pos hpos]
    have ha : e ≤ Int.log 2 x := (Int.zpow_le_iff_le_log (by norm_num) hpos).1 (by simpa using h1)
    have hb : Int.log 2 x < e + 1 := (Int.lt_zpow_iff_log_lt (by norm_num) hpos).1 (by simpa using h2)
    omega
  unfold fl
  rw [if_neg hx, hlog, round_even_tie_odd _ n hy hn]

theorem roundf_eval_pos (x : ℚ) (k : ℤ) (h0 : 0 ≤ x) (h1 : (k : ℚ) ≤ x + 1 / 2)
    (h2 : x + 1 / 2 < k + 1) : roundf x = k := by
  unfold roundf
  rw [if_pos h0, Int.floor_eq_iff]
  exact ⟨h1, h2⟩

theorem fl_zero (p : Nat) : fl p 0 = 0 := by
  simp [fl]

theorem round_xy_zero : _round_xy 0 = 0 := by
  have h : roundf 0 = 0 := roundf_eval_pos 0 0 (le_refl _) (by norm_num) (by norm_num)
  simp only [_round_xy, f32, f64, zero_mul, fl_zero, h, Int.cast_zero, zero_div]

theorem round_xy_apart (a b M : ℚ) (ha : |_round_xy a| ≤ M) (hb : |_round_xy b| ≤ M) :
    _round_xy a = _round_xy b ∨ 1 / 10 - M / 2 ^ 22 ≤ |_round_xy a - _round_xy b| := by
  obtain ⟨ka, hka, _⟩ := round_xy_form a
  obtain ⟨kb, hkb, _⟩ := round_xy_form b
  rw [hka] at ha
  rw [hkb] at hb
  rw [hka, hkb]
  by_cases h : ka = kb
  · left
    rw [h]
  · right
    have h1 : (1 : ℤ) ≤ |ka - kb| := Int.one_le_abs (sub_ne_zero.2 h)
    have h2 : (1 : ℚ) ≤ |(ka : ℚ) - (kb : ℚ)| := by exact_mod_cast h1
    have h3 : |(ka : ℚ) / 10 - (kb : ℚ) / 10| = |(ka : ℚ) - (kb : ℚ)| / 10 := by
      have e1 : (ka : ℚ) / 10 - (kb : ℚ) / 10 = ((ka : ℚ) - (kb : ℚ)) / 10 := by ring
      rw [e1, abs_div, abs_of_pos (by norm_num : (0 : ℚ) < 10)]
    have ea := f32_f64_error ((ka : ℚ) / 10)
    have eb := f32_f64_error ((kb : ℚ) / 10)
    have ta : |(ka : ℚ) / 10| ≤ |f32 (f64 ((ka : ℚ) / 10))| +
        |f32 (f64 ((ka : ℚ) / 10)) - (ka : ℚ) / 10| := by
      have := abs_sub_abs_le_abs_sub ((ka : ℚ) / 10) (f32 (f64 ((ka : ℚ) / 10)))
      rw [abs_sub_comm] at this
      linarith
    have tb : |(kb : ℚ) / 10| ≤ |f32 (f64 ((kb : ℚ) / 10))| +
        |f32 (f64 ((kb : ℚ) / 10)) - (kb : ℚ) / 10| := by
      have := abs_sub_abs_le_abs_sub ((kb : ℚ) / 10) (f32 (f64 ((kb : ℚ) / 10)))
      rw [abs_sub_comm] at this
      linarith
    have tri : |(ka : ℚ) / 10 - (kb : ℚ) / 10| ≤
        |(ka : ℚ) / 10 - f32 (f64 ((ka : ℚ) / 10))| +
        |f32 (f64 ((ka : ℚ) / 10)) - f32 (f64 ((kb : ℚ) / 10))| +
        |f32 (f64 ((kb : ℚ) / 10)) - (kb : ℚ) / 10| := by
      have t1 := abs_sub_le ((ka : ℚ) / 10) (f32 (f64 ((ka : ℚ) / 10))) ((kb : ℚ) / 10)
      have t2 := abs_sub_le (f32 (f64 ((ka : ℚ) / 10))) (f32 (f64 ((kb : ℚ) / 10)))
        ((kb : ℚ) / 10)
      linarith
    rw [abs_sub_comm ((ka : ℚ) / 10) (f32 (f64 ((ka : ℚ) / 10)))] at tri
    have na : 0 ≤ |(ka : ℚ) / 10| := abs_nonneg _
    have nb : 0 ≤ |(kb : ℚ) / 10| := abs_nonneg _
    rw [h3] at tri
    norm_num at ea eb ⊢
    linarith

theorem round_xy_045f : _round_xy (7549747 / 16777216) = 1 / 2 := by
  have h1 : f64 (7549747 / 16777216 * 10) = 37748735 / 8388608 := by
    unfold f64
    rw [fl_eval_pos 53 (7549747 / 16777216 * 10) (2) 5066549446574080 (by norm_num) (by norm_num) (by norm_num) (by norm_num)]
    norm_num
  have h2 : f32 (37748735 / 8388608) = 9 / 2 := by
    unfold f32
    rw [fl_eval_pos 24 (37748735 / 8388608) (2) 9437184 (by norm_num) (by norm_num) (by norm_num) (by norm_num)]
    norm_num
  have h3 : roundf (9 / 2) = 5 :=
    roundf_eval_pos _ 5 (by norm_num) (by norm_num) (by norm_num)
  have h4 : f64 (((5 : ℤ) : ℚ) / 10) = 1 / 2 := by
    unfold f64
    rw [fl_eval_pos 53 (((5 : ℤ) : ℚ) / 10) (-1) 4503599627370496 (by norm_num) (by norm_num) (by norm_num) (by norm_num)]
    norm_num
  have h5 : f32 (1 / 2) = 1 / 2 := by
    unfold f32
    rw [fl_eval_pos 24 (1 / 2) (-1) 8388608 (by norm_num) (by norm_num) (by norm_num) (by norm_num)]
    norm_num
  unfold _round_xy
  rw [h1, h2, h3, h4, h5]

theorem round_xy_01f : _round_xy (13421773 / 134217728) = 13421773 / 134217728 := by
  have h1 : f64 (13421773 / 134217728 * 10) = 67108865 / 67108864 := by
    unfold f64
    rw [fl_eval_pos 53 (13421773 / 134217728 * 10) (0) 4503599694479360 (by norm_num) (by norm_num) (by norm_num) (by norm_num)]
    norm_num
  have h2 : f32 (67108865 / 67108864) = 1 := by
    unfold f32
    rw [fl_eval_pos 24 (67108865 / 67108864) (0) 8388608 (by norm_num) (by norm_num) (by norm_num) (by norm_num)]
    norm_num
  have h3 : roundf (1) = 1 :=
    roundf_eval_pos _ 1 (by norm_num) (by norm_num) (by norm_num)
  have h4 : f64 (((1 : ℤ) : ℚ) / 10) = 3602879701896397 / 36028797018963968 := by
    unfold f64
    rw [fl_eval_pos 53 (((1 : ℤ) : ℚ) / 10) (-4) 7205759403792794 (by norm_num) (by norm_num) (by norm_num) (by norm_num)]
    norm_num
  have h5 : f32 (3602879701896397 / 36028797018963968) = 13421773 / 134217728 := by
    unfold f32
    rw [fl_eval_pos 24 (3602879701896397 / 36028797018963968) (-4) 13421773 (by norm_num) (by norm_num) (by norm_num) (by norm_num)]
    norm_num
  unfold _round_xy
  rw [h1, h2, h3, h4, h5]

theorem round_xy_12f : _round_xy (5033165 / 4194304) = 5033165 / 4194304 := by
  have h1 : f64 (5033165 / 4194304 * 10) = 25165825 / 2097152 := by
    unfold f64
    rw [fl_eval_pos 53 (5033165 / 4194304 * 10) (3) 6755399709491200
      (by norm_num) (by norm_num) (by norm_num) (by norm_num)]
    norm_num
  have h2 : f32 (25165825 / 2097152) = 12 := by
    unfold f32
    rw [fl_eval_pos_tie_even 24 (25165825 / 2097152) (3) 12582912
      (by norm_num) (by norm_num) (by norm_num) (by decide)]
    norm_num
  have h3 : roundf (12) = 12 :=
    roundf_eval_pos _ 12 (by norm_num) (by norm_num) (by norm_num)
  have h4 : f64 (((12 : ℤ) : ℚ) / 10) = 5404319552844595 / 4503599627370496 := by
    unfold f64
    rw [fl_eval_pos 53 (((12 : ℤ) : ℚ) / 10) (0) 5404319552844595
      (by norm_num) (by norm_num) (by norm_num) (by norm_num)]
    norm_num
  have h5 : f32 (5404319552844595 / 4503599627370496) = 5033165 / 4194304 := by
    unfold f32
    rw [fl_eval_pos 24 (5404319552844595 / 4503599627370496) (0) 10066330
      (by norm_num) (by norm_num) (by norm_num) (by norm_num)]
    norm_num
  unfold _round_xy
  rw [h1, h2, h3, h4, h5]

theorem round_xy_13f : _round_xy (5452595 / 4194304) = 5452595 / 4194304 := by
  have h1 : f64 (5452595 / 4194304 * 10) = 27262975 / 2097152 := by
    unfold f64
    rw [fl_eval_pos 53 (5452595 / 4194304 * 10) (3) 7318349126041600
      (by norm_num) (by norm_num) (by norm_num) (by norm_num)]
    norm_num
  have h2 : f32 (27262975 / 2097152) = 13 := by
    unfold f32
    rw [fl_eval_pos_tie_odd 24 (27262975 / 2097152) (3) 13631487
      (by norm_num) (by norm_num) (by norm_num) (by decide)]
    norm_num
  have h3 : roundf (13) = 13 :=
    roundf_eval_pos _ 13 (by norm_num) (by norm_num) (by norm_num)
  have h4 : f64 (((13 : ℤ) : ℚ) / 10) = 5854679515581645 / 4503599627370496 := by
    unfold f64
    rw [fl_eval_pos 53 (((13 : ℤ) : ℚ) / 10) (0) 5854679515581645
      (by norm_num) (by norm_num) (by norm_num) (by norm_num)]
    norm_num
  have h5 : f32 (5854679515581645 / 4503599627370496) = 5452595 / 4194304 := by
    unfold f32
    rw [fl_eval_pos 24 (5854679515581645 / 4503599627370496) (0) 10905190
      (by norm_num) (by norm_num) (by norm_num) (by norm_num)]
    norm_num
  unfold _round_xy
  rw [h1, h2, h3, h4, h5]

theorem round_xy_five : _round_xy (5) = 5 := by
  have h1 : f64 (5 * 10) = 50 := by
    unfold f64
    rw [fl_eval_pos 53 (5 * 10) (5) 7036874417766400 (by norm_num) (by norm_num) (by norm_num) (by norm_num)]
    norm_num
  have h2 : f32 (50) = 50 := by
    unfold f32
    rw [fl_eval_pos 24 (50) (5) 13107200 (by norm_num) (by norm_num) (by norm_num) (by norm_num)]
    norm_num
  have h3 : roundf (50) = 50 :=
    roundf_eval_pos _ 50 (by norm_num) (by norm_num) (by norm_num)
  have h4 : f64 (((50 : ℤ) : ℚ) / 10) = 5 := by
    unfold f64
    rw [fl_eval_pos 53 (((50 : ℤ) : ℚ) / 10) (2) 5629499534213120 (by norm_num) (by norm_num) (by norm_num) (by norm_num)]
    norm_num
  have h5 : f32 (5) = 5 := by
    unfold f32
    rw [fl_eval_pos 24 (5) (2) 10485760 (by norm_num) (by norm_num) (by norm_num) (by norm_num)]
    norm_num
  unfold _round_xy
  rw [h1, h2, h3, h4, h5]

theorem f32_tenth : f32 (1 / 10) = 13421773 / 134217728 := by
  unfold f32
  rw [fl_eval_pos 24 (1 / 10) (-4) 13421773 (by norm_num) (by norm_num) (by norm_num) (by norm_num)]
  norm_num

/-! ### Claims about ports and lumped elements -/

theorem add_lumped_port_ok (b : pcb) (s : gen_state) (fp1 n1 l1 fp2 n2 l2 : String)
    (dir : Nat) (R : ℚ) (excite gen_mesh : Bool) (f1 f2 : footprint) (pad1 pad2 : pad)
    (h1 : b.get_footprint fp1 = some f1) (h2 : b.get_footprint fp2 = some f2)
    (h3 : b.get_pad fp1 n1 = some pad1) (h4 : b.get_pad fp2 n2 = some pad2) :
    add_lumped_port b s fp1 n1 l1 fp2 n2 l2 dir R excite gen_mesh =
      { s with
        _excitations := s._excitations ++
          [{ start := (port_box dir gen_mesh (b.get_rotation_pos f1.at_ f1.at_angle pad1.at_)
                (b.get_rotation_pos f2.at_ f2.at_angle pad2.at_) pad1 pad2
                (b.get_layer_z_axis l1) (b.get_layer_z_axis l2)).1,
             end_ := (port_box dir gen_mesh (b.get_rotation_pos f1.at_ f1.at_angle pad1.at_)
                (b.get_rotation_pos f2.at_ f2.at_angle pad2.at_) pad1 pad2
                (b.get_layer_z_axis l1) (b.get_layer_z_axis l2)).2,
             dir := dir, R := R, excite := excite, gen_mesh := gen_mesh }] } := by
  simp only [add_lumped_port, h1, h2, h3, h4]

theorem add_lumped_port_fp_ok (b : pcb) (s : gen_state) (fp_name : String)
    (excite gen_mesh : Bool) (f : footprint) (pad1 pad2 : pad)
    (hfront : fp_name.toList.head? = some 'R' ∨ fp_name.toList.head? = some 'r')
    (h1 : b.get_footprint fp_name = some f) (h2 : f.pads = [pad1, pad2]) :
    add_lumped_port_fp b s fp_name excite gen_mesh =
      { s with
        _excitations := s._excitations ++
          [{ start := (port_box_single
                (infer_dir (b.get_rotation_pos f.at_ f.at_angle pad1.at_)
                  (b.get_rotation_pos f.at_ f.at_angle pad2.at_)) gen_mesh
                (b.get_rotation_pos f.at_ f.at_angle pad1.at_)
                (b.get_rotation_pos f.at_ f.at_angle pad2.at_) pad1 pad2
                (b.get_layer_z_axis f.layer)).1,
             end_ := (port_box_single
                (infer_dir (b.get_rotation_pos f.at_ f.at_angle pad1.at_)
                  (b.get_rotation_pos f.at_ f.at_angle pad2.at_)) gen_mesh
                (b.get_rotation_pos f.at_ f.at_angle pad1.at_)
                (b.get_rotation_pos f.at_ f.at_angle pad2.at_) pad1 pad2
                (b.get_layer_z_axis f.layer)).2,
             dir := infer_dir (b.get_rotation_pos f.at_ f.at_angle pad1.at_)
                  (b.get_rotation_pos f.at_ f.at_angle pad2.at_),
             R := _string_to_float f.value, excite := excite, gen_mesh := gen_mesh }] } := by
  have hc : ¬ (fp_name.toList.head? ≠ some 'R' ∧ fp_name.toList.head? ≠ some 'r') := by
    rintro ⟨ha, hb⟩
    rcases hfront with h | h
    · exact ha h
    · exact hb h
  simp only [add_lumped_port_fp, if_neg hc, h1, h2]

theorem add_lumped_element_ok (b : pcb) (s : gen_state) (fp1 n1 l1 fp2 n2 l2 : String)
    (dir type : Nat) (v : ℚ) (gen_mesh : Bool) (f1 f2 : footprint) (pad1 pad2 : pad)
    (h1 : b.get_footprint fp1 = some f1) (h2 : b.get_footprint fp2 = some f2)
    (h3 : b.get_pad fp1 n1 = some pad1) (h4 : b.get_pad fp2 n2 = some pad2) :
    add_lumped_element b s fp1 n1 l1 fp2 n2 l2 dir type v gen_mesh =
      { s with
        _lumped_elements := s._lumped_elements ++
          [{ name := "LE_" ++ fp1 ++ n1 ++ l1 ++ "_" ++ fp2 ++ n2 ++ l2,
             type := type, v := v, dir := dir,
             start := (element_box dir gen_mesh
                (b.get_rotation_pos f1.at_ f1.at_angle pad1.at_)
                (b.get_rotation_pos f2.at_ f2.at_angle pad2.at_) pad1 pad2
                (b.get_layer_z_axis l1) (b.get_layer_z_axis l2)).1,
             end_ := (element_box dir gen_mesh
                (b.get_rotation_pos f1.at_ f1.at_angle pad1.at_)
                (b.get_rotation_pos f2.at_ f2.at_angle pad2.at_) pad1 pad2
                (b.get_layer_z_axis l1) (b.get_layer_z_axis l2)).2,
             gen_mesh := gen_mesh }] } := by
  simp only [add_lumped_element, h1, h2, h3, h4]

/-- C9: a segment shorter than half its width (its `get_segment_len` for an
arc, the distance between its ends otherwise) leaves the output, both line
sets and the range accumulator as they were, so `_add_segment` gives the same
polygons and mesh with it as without it among the segments of its net. -/
theorem C9_degenerate_segment_skipped (env : segment_env) (s : segment)
    (hshort : if s.is_arc then env.get_segment_len s < s.width * (1 / 2)
      else env.distance s.end_ s.start < s.width * (1 / 2)) :
    (∀ info st, add_segment_body env info st s = st) ∧
    (∀ (net_id : Nat) (pre post : List segment),
      env.get_segments net_id = pre ++ s :: post →
      ∀ nets m, _add_segment env nets m =
        _add_segment
          { env with
            get_segments := fun n => if n = net_id then pre ++ post else env.get_segments n }
          nets m) := by
  have hbody : ∀ info st, add_segment_body env info st s = st := by
    intro info st
    unfold add_segment_body
    cases harc : s.is_arc with
    | true =>
      rw [harc] at hshort
      simp only [if_true] at hshort ⊢
      rw [if_pos hshort]
    | false =>
      rw [harc] at hshort
      simp only [Bool.false_eq_true, if_false] at hshort ⊢
      rw [if_pos hshort]
  refine ⟨hbody, ?_⟩
  intro net_id pre post hseg nets m
  unfold _add_segment
  congr 1
  funext acc net
  have hfold : ∀ st0, (env.get_segments net.1).foldl (add_segment_body env net.2) st0 =
      (if net.1 = net_id then pre ++ post else env.get_segments net.1).foldl
        (add_segment_body env net.2) st0 := by
    intro st0
    by_cases hn : net.1 = net_id
    · rw [if_pos hn, hn, hseg, List.foldl_append, List.foldl_append, List.foldl_cons, hbody]
    · rw [if_neg hn]
  simp only [add_segment_net, hfold]
  rfl

theorem C9_degenerate_segment_skipped_witness :
    add_segment_body
        ⟨fun _ => [], fun _ => "", fun _ => 0, fun _ => 0, fun _ => 0, fun _ _ => 0,
          fun _ => [], fun _ _ _ => ⟨0, 0⟩⟩
        ⟨true, false, 0, false, 0, 0⟩ ⟨[], [], [], 100000, -100000, 100000, -100000⟩
        ⟨⟨0, 0⟩, ⟨0, 0⟩, ⟨0, 0⟩, 1, "F.Cu", 1⟩ =
      ⟨[], [], [], 100000, -100000, 100000, -100000⟩ :=
  (C9_degenerate_segment_skipped
    ⟨fun _ => [], fun _ => "", fun _ => 0, fun _ => 0, fun _ => 0, fun _ _ => 0,
      fun _ => [], fun _ _ _ => ⟨0, 0⟩⟩
    ⟨⟨0, 0⟩, ⟨0, 0⟩, ⟨0, 0⟩, 1, "F.Cu", 1⟩ (by norm_num [segment.is_arc])).1
    ⟨true, false, 0, false, 0, 0⟩ ⟨[], [], [], 100000, -100000, 100000, -100000⟩

/-- C10: for a name starting with `R` or `r` whose footprint is found and has
exactly two pads, the single-footprint form of `add_lumped_port` appends one
excitation; its direction is X when `|x1 - x2| > |y1 - y2|` for the rotated
pad centres and Y otherwise, its resistance is `_string_to_float` of the
footprint value; with the rotated centres at (0,0) and (2,0) it is X. -/
theorem C10_single_footprint_port (b : pcb) (s : gen_state) (fp_name : String)
    (excite gen_mesh : Bool) (f : footprint) (pad1 pad2 : pad)
    (hfront : fp_name.toList.head? = some 'R' ∨ fp_name.toList.head? = some 'r')
    (hfp : b.get_footprint fp_name = some f) (hpads : f.pads = [pad1, pad2]) :
    ∃ ex, (add_lumped_port_fp b s fp_name excite gen_mesh)._excitations =
        s._excitations ++ [ex] ∧
      (add_lumped_port_fp b s fp_name excite gen_mesh)._lumped_elements = s._lumped_elements ∧
      ex.dir =
        (if |(b.get_rotation_pos f.at_ f.at_angle pad1.at_).x -
              (b.get_rotation_pos f.at_ f.at_angle pad2.at_).x| >
            |(b.get_rotation_pos f.at_ f.at_angle pad1.at_).y -
              (b.get_rotation_pos f.at_ f.at_angle pad2.at_).y|
          then DIR_X else DIR_Y) ∧
      ex.R = _string_to_float f.value ∧ ex.excite = excite ∧ ex.gen_mesh = gen_mesh ∧
      (b.get_rotation_pos f.at_ f.at_angle pad1.at_ = ⟨0, 0⟩ →
        b.get_rotation_pos f.at_ f.at_angle pad2.at_ = ⟨2, 0⟩ → ex.dir = DIR_X) := by
  rw [add_lumped_port_fp_ok b s fp_name excite gen_mesh f pad1 pad2 hfront hfp hpads]
  refine ⟨_, rfl, rfl, rfl, rfl, rfl, rfl, ?_⟩
  intro h1 h2
  simp only [h1, h2, infer_dir]
  norm_num

theorem C10_single_footprint_port_witness :
    ∃ ex, (add_lumped_port_fp
          ⟨fun _ => some ⟨"R1", "4.7k", "F.Cu", ⟨0, 0⟩, 0,
              [⟨"1", ⟨0, 0⟩, 1, 1⟩, ⟨"2", ⟨2, 0⟩, 1, 1⟩]⟩,
            fun _ _ => none, fun _ _ q => q, fun _ => 0⟩
          {} "R1" true true)._excitations = ([] : List excitation) ++ [ex] ∧
      ex.dir = DIR_X ∧ ex.R = _string_to_float "4.7k" := by
  obtain ⟨ex, h1, _, _, h4, _, _, h7⟩ :=
    C10_single_footprint_port
      ⟨fun _ => some ⟨"R1", "4.7k", "F.Cu", ⟨0, 0⟩, 0,
          [⟨"1", ⟨0, 0⟩, 1, 1⟩, ⟨"2", ⟨2, 0⟩, 1, 1⟩]⟩,
        fun _ _ => none, fun _ _ q => q, fun _ => 0⟩
      {} "R1" true true
      ⟨"R1", "4.7k", "F.Cu", ⟨0, 0⟩, 0, [⟨"1", ⟨0, 0⟩, 1, 1⟩, ⟨"2", ⟨2, 0⟩, 1, 1⟩]⟩
      ⟨"1", ⟨0, 0⟩, 1, 1⟩ ⟨"2", ⟨2, 0⟩, 1, 1⟩ (Or.inl (by decide)) rfl rfl
  exact ⟨ex, h1, h7 rfl rfl, h4⟩

/-! ### More on `set_insert` -/

theorem mem_set_insert_of_mem {l : List line} {z : line} (x : line) (h : z ∈ l) :
    z ∈ (set_insert l x).1 := by
  induction l with
  | nil => cases h
  | cons y ys ih =>
    simp only [set_insert]
    split_ifs
    · rcases List.mem_cons.1 h with rfl | h2
      · exact List.mem_cons_self _ _
      · exact List.mem_cons_of_mem _ (ih h2)
    · exact List.mem_cons_of_mem _ h
    · exact h

theorem set_insert_has_value (l : List line) (x : line) :
    ∃ z ∈ (set_insert l x).1, z.v = x.v := by
  induction l with
  | nil => exact ⟨x, by simp [set_insert], rfl⟩
  | cons y ys ih =>
    simp only [set_insert]
    split_ifs with h1 h2
    · obtain ⟨z, hz, hv⟩ := ih
      exact ⟨z, List.mem_cons_of_mem _ hz, hv⟩
    · exact ⟨x, List.mem_cons_self _ _, rfl⟩
    · refine ⟨y, List.mem_cons_self _ _, ?_⟩
      have h3 : ¬ y.v < x.v := h1
      have h4 : ¬ x.v < y.v := h2
      exact le_antisymm (not_lt.1 h4) (not_lt.1 h3)

theorem set_insert_empty_pair (a b : line) (h : a.v < b.v) :
    (set_insert (set_insert [] a).1 b).1 = [a, b] := by
  simp [set_insert, line.lt, h]

theorem foldl_insert_mem (f : pcb_point → ℚ) (prio : Nat) :
    ∀ (pts : List pcb_point) (m : List line) (l : line),
      l ∈ pts.foldl (fun m p => (set_insert m ⟨f p, prio⟩).1) m →
      l ∈ m ∨ ∃ p ∈ pts, l = ⟨f p, prio⟩ := by
  intro pts
  induction pts with
  | nil => intro m l h; exact Or.inl h
  | cons q qs ih =>
    intro m l h
    rw [List.foldl_cons] at h
    rcases ih _ l h with h1 | ⟨p, hp, hl⟩
    · rcases mem_set_insert h1 with rfl | h2
      · exact Or.inr ⟨q, List.mem_cons_self _ _, rfl⟩
      · exact Or.inl h2
    · exact Or.inr ⟨p, List.mem_cons_of_mem _ hp, hl⟩

theorem foldl_insert_keeps (f : pcb_point → ℚ) (prio : Nat) :
    ∀ (pts : List pcb_point) (m : List line) (l : line), l ∈ m →
      l ∈ pts.foldl (fun m p => (set_insert m ⟨f p, prio⟩).1) m := by
  intro pts
  induction pts with
  | nil => intro m l h; exact h
  | cons q qs ih =>
    intro m l h
    rw [List.foldl_cons]
    exact ih _ l (mem_set_insert_of_mem _ h)

theorem foldl_insert_has_value (f : pcb_point → ℚ) (prio : Nat) :
    ∀ (pts : List pcb_point) (m : List line) (p : pcb_point), p ∈ pts →
      ∃ l ∈ pts.foldl (fun m p => (set_insert m ⟨f p, prio⟩).1) m, l.v = f p := by
  intro pts
  induction pts with
  | nil => intro m p h; cases h
  | cons q qs ih =>
    intro m p h
    rw [List.foldl_cons]
    rcases List.mem_cons.1 h with rfl | h2
    · obtain ⟨z, hz, hv⟩ := set_insert_has_value m ⟨f p, prio⟩
      exact ⟨z, foldl_insert_keeps f prio qs _ z hz, hv⟩
    · exact ih _ p h2

/-! ### A pass over lines that are far apart -/

theorem scan_body_far {g : ℚ} {l : List line} {it1 : Nat} (brk : Bool)
    (h2 : it1 + 1 < l.length) (hfar : ¬ |l[it1 + 1].v - l[it1].v| < g) :
    scan_body g l it1 (it1 + 1) brk = .again l (it1 + 1) (it1 + 1 + 1) brk := by
  unfold scan_body
  rw [dif_pos h2, List.getElem?_eq_getElem (by omega)]
  simp only [hfar, if_false]

theorem scan_body_end {g : ℚ} {l : List line} {it1 it2 : Nat} (brk : Bool)
    (h2 : l.length ≤ it2) : scan_body g l it1 it2 brk = .done l brk := by
  unfold scan_body
  rw [dif_neg (by omega)]

theorem scan_loop_noop {g : ℚ} {l : List line} (hn : no_close_neighbours g l) (brk : Bool) :
    ∀ (k it1 : Nat), l.length - (it1 + 1) = k →
      scan_loop g l it1 (it1 + 1) brk = .ok (l, brk) := by
  intro k
  induction k with
  | zero =>
    intro it1 hk
    exact scan_loop_done (scan_body_end brk (by omega))
  | succ n ih =>
    intro it1 hk
    have h2 : it1 + 1 < l.length := by omega
    rw [scan_loop_again (scan_body_far brk h2 (hn it1 h2))]
    exact ih (it1 + 1) (by omega)

theorem clean_noop (fuel : Nat) (l : List line) (min_gap : ℚ) (hfuel : 1 ≤ fuel)
    (h : l.length < 2 ∨ no_close_neighbours min_gap l) :
    _clean_mesh_line fuel l min_gap = .ok l := by
  unfold _clean_mesh_line
  split_ifs with hlen
  · rfl
  · rcases h with h | h
    · exact absurd h hlen
    · obtain ⟨n, rfl⟩ : ∃ n, fuel = n + 1 := ⟨fuel - 1, by omega⟩
      have hs : scan min_gap l = .ok (l, true) := by
        unfold scan
        rw [if_pos (by omega)]
        exact scan_loop_noop h true _ 0 rfl
      simp only [do_while, hs, if_true]

/-! ### Claims about rejected and failed registrations -/

theorem add_lumped_port_fp_rejects (b : pcb) (s : gen_state) (fp_name : String)
    (excite gen_mesh : Bool)
    (h : (fp_name.toList.head? ≠ some 'R' ∧ fp_name.toList.head? ≠ some 'r') ∨
      b.get_footprint fp_name = none ∨
      ∃ f, b.get_footprint fp_name = some f ∧ f.pads.length ≠ 2) :
    add_lumped_port_fp b s fp_name excite gen_mesh = s := by
  unfold add_lumped_port_fp
  split_ifs with hfront
  · rfl
  · rcases h with h | h | ⟨f, hf, hp⟩
    · exact absurd h hfront
    · rw [h]
    · rw [hf]
      dsimp only
      split
      · next pad1 pad2 heq =>
        rw [heq] at hp
        exact absurd rfl hp
      · rfl

theorem add_lumped_element_fp_rejects (b : pcb) (s : gen_state) (fp_name : String)
    (gen_mesh : Bool)
    (h : fp_name.toList.head? ∉ [some 'R', some 'r', some 'L', some 'l', some 'C', some 'c'] ∨
      b.get_footprint fp_name = none ∨
      ∃ f, b.get_footprint fp_name = some f ∧ f.pads.length ≠ 2) :
    add_lumped_element_fp b s fp_name gen_mesh = s := by
  unfold add_lumped_element_fp
  dsimp only
  by_cases hfront : fp_name.toList.head? = some 'R' ∨ fp_name.toList.head? = some 'r' ∨
      fp_name.toList.head? = some 'L' ∨ fp_name.toList.head? = some 'l' ∨
      fp_name.toList.head? = some 'C' ∨ fp_name.toList.head? = some 'c'
  · rw [if_pos hfront]
    rcases h with h | h | ⟨f, hf, hp⟩
    · exact absurd (by simpa [List.mem_cons] using hfront) h
    · rw [h]
    · rw [hf]
      dsimp only
      split
      · next pad1 pad2 heq =>
        rw [heq] at hp
        exact absurd rfl hp
      · rfl
  · rw [if_neg hfront]

/-- C11: for a non-empty name the single-footprint forms of `add_lumped_port`
and `add_lumped_element` return the generator state as it was (so both lists
are unchanged) when the first letter is not supported, when the footprint is
not found, or when it does not have exactly two pads. -/
theorem C11_single_footprint_rejects :
    (∀ (b : pcb) (s : gen_state) (fp_name : String) (excite gen_mesh : Bool),
      fp_name ≠ "" →
      ((fp_name.toList.head? ≠ some 'R' ∧ fp_name.toList.head? ≠ some 'r') ∨
        b.get_footprint fp_name = none ∨
        ∃ f, b.get_footprint fp_name = some f ∧ f.pads.length ≠ 2) →
      add_lumped_port_fp b s fp_name excite gen_mesh = s) ∧
    (∀ (b : pcb) (s : gen_state) (fp_name : String) (gen_mesh : Bool),
      fp_name ≠ "" →
      (fp_name.toList.head? ∉
          [some 'R', some 'r', some 'L', some 'l', some 'C', some 'c'] ∨
        b.get_footprint fp_name = none ∨
        ∃ f, b.get_footprint fp_name = some f ∧ f.pads.length ≠ 2) →
      add_lumped_element_fp b s fp_name gen_mesh = s) :=
  ⟨fun b s fp_name excite gen_mesh _ h => add_lumped_port_fp_rejects b s fp_name excite gen_mesh h,
    fun b s fp_name gen_mesh _ h => add_lumped_element_fp_rejects b s fp_name gen_mesh h⟩

theorem C11_single_footprint_rejects_witness :
    add_lumped_port_fp ⟨fun _ => none, fun _ _ => none, fun _ _ q => q, fun _ => 0⟩ {} "X1"
        true true = {} ∧
      add_lumped_element_fp ⟨fun _ => none, fun _ _ => none, fun _ _ q => q, fun _ => 0⟩ {}
        "R7" true = {} :=
  ⟨C11_single_footprint_rejects.1 ⟨fun _ => none, fun _ _ => none, fun _ _ q => q, fun _ => 0⟩
      {} "X1" true true (by decide) (Or.inl ⟨by decide, by decide⟩),
    C11_single_footprint_rejects.2 ⟨fun _ => none, fun _ _ => none, fun _ _ q => q, fun _ => 0⟩
      {} "R7" true (by decide) (Or.inr (Or.inl rfl))⟩

theorem add_lumped_port_fails (b : pcb) (s : gen_state) (fp1 n1 l1 fp2 n2 l2 : String)
    (dir : Nat) (R : ℚ) (excite gen_mesh : Bool)
    (h : b.get_footprint fp1 = none ∨ b.get_footprint fp2 = none ∨
      b.get_pad fp1 n1 = none ∨ b.get_pad fp2 n2 = none) :
    add_lumped_port b s fp1 n1 l1 fp2 n2 l2 dir R excite gen_mesh = s := by
  unfold add_lumped_port
  cases h1 : b.get_footprint fp1 <;> cases h2 : b.get_footprint fp2 <;>
    cases h3 : b.get_pad fp1 n1 <;> cases h4 : b.get_pad fp2 n2 <;>
    first
      | rfl
      | (rw [h1, h2, h3, h4] at h; simp at h)

theorem add_lumped_element_fails (b : pcb) (s : gen_state) (fp1 n1 l1 fp2 n2 l2 : String)
    (dir type : Nat) (v : ℚ) (gen_mesh : Bool)
    (h : b.get_footprint fp1 = none ∨ b.get_footprint fp2 = none ∨
      b.get_pad fp1 n1 = none ∨ b.get_pad fp2 n2 = none) :
    add_lumped_element b s fp1 n1 l1 fp2 n2 l2 dir type v gen_mesh = s := by
  unfold add_lumped_element
  cases h1 : b.get_footprint fp1 <;> cases h2 : b.get_footprint fp2 <;>
    cases h3 : b.get_pad fp1 n1 <;> cases h4 : b.get_pad fp2 n2 <;>
    first
      | rfl
      | (rw [h1, h2, h3, h4] at h; simp at h)

/-- C12: in the two-pad forms of `add_excitation`, `add_lumped_port` and
`add_lumped_element` a failed footprint or pad lookup returns the generator
state as it was (both lists and the mesh), and four successful lookups append
exactly one entry at the end of the excitation list (of the element list for
`add_lumped_element`) and change nothing else. -/
theorem C12_two_pad_forms :
    (∀ (b : pcb) (s : gen_state) (fp1 n1 l1 fp2 n2 l2 : String) (dir type : Nat) (R v : ℚ)
      (excite gen_mesh : Bool),
      (b.get_footprint fp1 = none ∨ b.get_footprint fp2 = none ∨
        b.get_pad fp1 n1 = none ∨ b.get_pad fp2 n2 = none) →
      add_excitation b s fp1 n1 l1 fp2 n2 l2 dir R gen_mesh = s ∧
      add_lumped_port b s fp1 n1 l1 fp2 n2 l2 dir R excite gen_mesh = s ∧
      add_lumped_element b s fp1 n1 l1 fp2 n2 l2 dir type v gen_mesh = s) ∧
    (∀ (b : pcb) (s : gen_state) (fp1 n1 l1 fp2 n2 l2 : String) (dir type : Nat) (R v : ℚ)
      (excite gen_mesh : Bool) (f1 f2 : footprint) (pad1 pad2 : pad),
      b.get_footprint fp1 = some f1 → b.get_footprint fp2 = some f2 →
      b.get_pad fp1 n1 = some pad1 → b.get_pad fp2 n2 = some pad2 →
      (∃ ex, add_excitation b s fp1 n1 l1 fp2 n2 l2 dir R gen_mesh =
        { s with _excitations := s._excitations ++ [ex] }) ∧
      (∃ ex, add_lumped_port b s fp1 n1 l1 fp2 n2 l2 dir R excite gen_mesh =
        { s with _excitations := s._excitations ++ [ex] }) ∧
      (∃ el, add_lumped_element b s fp1 n1 l1 fp2 n2 l2 dir type v gen_mesh =
        { s with _lumped_elements := s._lumped_elements ++ [el] })) := by
  constructor
  · intro b s fp1 n1 l1 fp2 n2 l2 dir type R v excite gen_mesh h
    exact ⟨add_lumped_port_fails b s fp1 n1 l1 fp2 n2 l2 dir R true gen_mesh h,
      add_lumped_port_fails b s fp1 n1 l1 fp2 n2 l2 dir R excite gen_mesh h,
      add_lumped_element_fails b s fp1 n1 l1 fp2 n2 l2 dir type v gen_mesh h⟩
  · intro b s fp1 n1 l1 fp2 n2 l2 dir type R v excite gen_mesh f1 f2 pad1 pad2 h1 h2 h3 h4
    exact ⟨⟨_, add_lumped_port_ok b s fp1 n1 l1 fp2 n2 l2 dir R true gen_mesh f1 f2 pad1 pad2
        h1 h2 h3 h4⟩,
      ⟨_, add_lumped_port_ok b s fp1 n1 l1 fp2 n2 l2 dir R excite gen_mesh f1 f2 pad1 pad2
        h1 h2 h3 h4⟩,
      ⟨_, add_lumped_element_ok b s fp1 n1 l1 fp2 n2 l2 dir type v gen_mesh f1 f2 pad1 pad2
        h1 h2 h3 h4⟩⟩

theorem C12_two_pad_forms_witness :
    add_lumped_port ⟨fun _ => none, fun _ _ => none, fun _ _ q => q, fun _ => 0⟩ {}
        "R1" "1" "F.Cu" "R1" "2" "F.Cu" DIR_X 50 true true = {} ∧
      ∃ ex, add_lumped_port
        ⟨fun _ => some ⟨"R1", "50", "F.Cu", ⟨0, 0⟩, 0, []⟩,
          fun _ n => some ⟨n, ⟨0, 0⟩, 1, 1⟩, fun _ _ q => q, fun _ => 0⟩ {}
        "R1" "1" "F.Cu" "R1" "2" "F.Cu" DIR_X 50 true true =
          { ({} : gen_state) with _excitations := ({} : gen_state)._excitations ++ [ex] } :=
  ⟨(C12_two_pad_forms.1 ⟨fun _ => none, fun _ _ => none, fun _ _ q => q, fun _ => 0⟩ {}
      "R1" "1" "F.Cu" "R1" "2" "F.Cu" DIR_X TYPE_R 50 50 true true (Or.inl rfl)).2.1,
    (C12_two_pad_forms.2
      ⟨fun _ => some ⟨"R1", "50", "F.Cu", ⟨0, 0⟩, 0, []⟩,
        fun _ n => some ⟨n, ⟨0, 0⟩, 1, 1⟩, fun _ _ q => q, fun _ => 0⟩ {}
      "R1" "1" "F.Cu" "R1" "2" "F.Cu" DIR_X TYPE_R 50 50 true true
      ⟨"R1", "50", "F.Cu", ⟨0, 0⟩, 0, []⟩ ⟨"R1", "50", "F.Cu", ⟨0, 0⟩, 0, []⟩
      ⟨"1", ⟨0, 0⟩, 1, 1⟩ ⟨"2", ⟨0, 0⟩, 1, 1⟩ rfl rfl rfl rfl).2.1⟩

/-! ### Claims about the two-port report -/

theorem two_sparamer_nil_iff (exs : List excitation) :
    _add_plot_two_sparamer exs = [] ↔ exs.length ≠ 2 := by
  unfold _add_plot_two_sparamer
  match exs with
  | [] => simp
  | [_] => simp
  | [_, _] => simp
  | _ :: _ :: _ :: _ => simp

/-- C13: `_add_plot_two_sparamer` writes something exactly when two
excitations are registered; otherwise the report part of the two-port script
is what `_add_read_ui` and `_add_plot_feed_point_impedance` write for the
same list, and in every case these two sections are there unchanged around
it. -/
theorem C13_two_port_section_gate :
    (∀ exs : List excitation, _add_plot_two_sparamer exs ≠ [] ↔ exs.length = 2) ∧
    (∀ (exs : List excitation) (freq : List ℚ), exs.length ≠ 2 →
      two_port_report exs freq =
        ⟨692, []⟩ :: (_add_read_ui exs ++ _add_plot_feed_point_impedance exs freq ++
          [⟨698, []⟩, ⟨699, []⟩])) ∧
    (∀ (exs : List excitation) (freq : List ℚ),
      two_port_report exs freq =
        ⟨692, []⟩ :: (_add_read_ui exs ++ _add_plot_two_sparamer exs ++
          _add_plot_feed_point_impedance exs freq ++ [⟨698, []⟩, ⟨699, []⟩])) := by
  refine ⟨?_, ?_, fun _ _ => rfl⟩
  · intro exs
    rw [Ne, two_sparamer_nil_iff]
    exact not_not
  · intro exs freq h
    unfold two_port_report
    rw [(two_sparamer_nil_iff exs).2 h, List.append_nil]

theorem C13_two_port_section_gate_witness :
    _add_plot_two_sparamer [⟨⟨0, 0, 0⟩, ⟨1, 0, 0⟩, DIR_X, 50, true, true⟩] = [] ∧
      two_port_report [⟨⟨0, 0, 0⟩, ⟨1, 0, 0⟩, DIR_X, 50, true, true⟩] [1000000000] =
        ⟨692, []⟩ :: (_add_read_ui [⟨⟨0, 0, 0⟩, ⟨1, 0, 0⟩, DIR_X, 50, true, true⟩] ++
          _add_plot_feed_point_impedance [⟨⟨0, 0, 0⟩, ⟨1, 0, 0⟩, DIR_X, 50, true, true⟩]
            [1000000000] ++ [⟨698, []⟩, ⟨699, []⟩]) :=
  ⟨rfl, C13_two_port_section_gate.2.1 [⟨⟨0, 0, 0⟩, ⟨1, 0, 0⟩, DIR_X, 50, true, true⟩]
    [1000000000] (by decide)⟩

/-! ### Claims about `_gen_mesh_z` -/

theorem z_lines_core_board (t : ℚ) (ht : 0 < t) :
    z_lines (core_board t) unit_wave_config = [⟨0, 0⟩, ⟨t, 0⟩] := by
  simp [z_lines, z_layer_step, core_board, unit_wave_config, set_insert, line.lt, ht]

theorem clean_core_board (t : ℚ) (ht : 1 / 10 ≤ t) :
    _clean_mesh_line 1 (z_lines (core_board t) unit_wave_config)
      unit_wave_config._mesh_z_min_gap = .ok [⟨0, 0⟩, ⟨t, 0⟩] := by
  rw [z_lines_core_board t (by linarith)]
  refine clean_noop 1 _ _ le_rfl (Or.inr ?_)
  intro j hj
  have hj0 : j = 0 := by
    simp only [List.length_cons, List.length_nil] at hj
    omega
  subst hj0
  simp only [unit_wave_config, List.getElem_cons_succ, List.getElem_cons_zero, sub_zero]
  rw [abs_of_pos (by linarith)]
  linarith

theorem gen_mesh_z_ok (e : pcb_edges) (env : layer_env) (cfg : mesh_config) (fuel : Nat)
    (m : mesh) (z : List line)
    (hclean : _clean_mesh_line fuel (z_lines env cfg) cfg._mesh_z_min_gap = .ok z) :
    _gen_mesh_z e env cfg fuel m = .ok ({ m with z := z },
      [⟨741, []⟩] ++ z.map (fun l => ⟨744, [.f l.v]⟩) ++
        [⟨746, []⟩, ⟨748, [.f (if cfg._ignore_cu_thickness then
          env.get_min_thickness env.DIELECTRIC else env.get_cu_min_thickness)]⟩, ⟨749, []⟩] ++
        z_widen e cfg m.z ++
        [⟨765, [.f cfg._lambda_mesh_ratio]⟩, ⟨766, []⟩, ⟨768, []⟩]) := by
  unfold _gen_mesh_z
  simp only [hclean]

/-- C14, counterexample: two boards of a single dielectric layer, 8/5 and
16/5 thick, with no z line registered before `_gen_mesh_z` runs and a
wavelength of 1.  The margin written by statement 761 is 32 for the first and
64 for the second board: it is `max(wavelength, 20 x board thickness)` in both
cases, not one flat value. -/
theorem C14_counterexample :
    _gen_mesh_z (core_edges (8 / 5)) (core_board (8 / 5)) unit_wave_config 1 {} =
      .ok ({ z := [⟨0, 0⟩, ⟨8 / 5, 0⟩] },
        [⟨741, []⟩, ⟨744, [.f 0]⟩, ⟨744, [.f (8 / 5)]⟩, ⟨746, []⟩, ⟨748, [.f (7 / 200)]⟩,
          ⟨749, []⟩, ⟨761, [.f 32]⟩, ⟨762, []⟩, ⟨765, [.f 20]⟩, ⟨766, []⟩, ⟨768, []⟩]) ∧
    _gen_mesh_z (core_edges (16 / 5)) (core_board (16 / 5)) unit_wave_config 1 {} =
      .ok ({ z := [⟨0, 0⟩, ⟨16 / 5, 0⟩] },
        [⟨741, []⟩, ⟨744, [.f 0]⟩, ⟨744, [.f (16 / 5)]⟩, ⟨746, []⟩, ⟨748, [.f (7 / 200)]⟩,
          ⟨749, []⟩, ⟨761, [.f 64]⟩, ⟨762, []⟩, ⟨765, [.f 20]⟩, ⟨766, []⟩, ⟨768, []⟩]) ∧
    max (C0 / (unit_wave_config._f0 + unit_wave_config._fc) * 1000)
      ((core_edges (8 / 5)).get_board_thickness * 20) = 32 ∧
    max (C0 / (unit_wave_config._f0 + unit_wave_config._fc) * 1000)
      ((core_edges (16 / 5)).get_board_thickness * 20) = 64 := by
  refine ⟨?_, ?_, ?_, ?_⟩
  · rw [gen_mesh_z_ok _ _ _ _ _ _ (clean_core_board (8 / 5) (by norm_num))]
    norm_num [z_widen, C0, unit_wave_config, core_edges, core_board]
  · rw [gen_mesh_z_ok _ _ _ _ _ _ (clean_core_board (16 / 5) (by norm_num))]
    norm_num [z_widen, C0, unit_wave_config, core_edges, core_board]
  · norm_num [C0, unit_wave_config, core_edges]
  · norm_num [C0, unit_wave_config, core_edges]

/-- C14, amended: whenever the clean pass over the layer boundaries returns,
`_gen_mesh_z` returns and writes the widening statements between the first
smoothing and the second.  With at most one line in `_mesh.z` on entry these
are `margin = max(C0 / (f0 + fc) * 1e3, 20 x board thickness)` and the widening
by `-margin, margin`; with two or more they are the single statement that
widens to `min(-margin, lowest line on entry)` and
`max(margin, highest line on entry)`, with the same margin. -/
theorem C14_z_margin_formula (e : pcb_edges) (env : layer_env) (cfg : mesh_config)
    (fuel : Nat) (m : mesh) (z : List line)
    (hclean : _clean_mesh_line fuel (z_lines env cfg) cfg._mesh_z_min_gap = .ok z) :
    (∃ pre post, _gen_mesh_z e env cfg fuel m =
        .ok ({ m with z := z }, pre ++ z_widen e cfg m.z ++ post) ∧
      (∀ s ∈ pre ++ post, s.cpp_line ≠ 757 ∧ s.cpp_line ≠ 761 ∧ s.cpp_line ≠ 762)) ∧
    (m.z.length ≤ 1 →
      z_widen e cfg m.z =
        [⟨761, [.f (max (C0 / (cfg._f0 + cfg._fc) * 1000) (e.get_board_thickness * 20))]⟩,
          ⟨762, []⟩]) ∧
    (∀ a b rest, m.z = a :: b :: rest →
      z_widen e cfg m.z =
        [⟨757, [.f (min (-(max (C0 / (cfg._f0 + cfg._fc) * 1000)
            (e.get_board_thickness * 20))) a.v),
          .f (max (max (C0 / (cfg._f0 + cfg._fc) * 1000) (e.get_board_thickness * 20))
            ((b :: rest).getLast (List.cons_ne_nil b rest)).v)]⟩]) := by
  refine ⟨⟨_, _, gen_mesh_z_ok e env cfg fuel m z hclean, ?_⟩, ?_, ?_⟩
  · intro s hs
    simp only [List.mem_append, List.mem_map, List.mem_cons, List.mem_singleton,
      List.not_mem_nil, or_false] at hs
    rcases hs with ((rfl | ⟨l, _, rfl⟩) | rfl | rfl | rfl) | rfl | rfl | rfl <;> simp
  · intro hlen
    unfold z_widen
    match hm : m.z with
    | [] => rfl
    | [_] => rfl
    | _ :: _ :: _ => rw [hm] at hlen; simp at hlen
  · intro a b rest hm
    rw [hm]
    simp only [z_widen, List.getLast_eq_getLastD]

theorem C14_z_margin_formula_witness :
    _clean_mesh_line 1 (z_lines (core_board (8 / 5)) unit_wave_config)
        unit_wave_config._mesh_z_min_gap = .ok [⟨0, 0⟩, ⟨8 / 5, 0⟩] ∧
      z_widen (core_edges (8 / 5)) unit_wave_config ({} : mesh).z =
        [⟨761, [.f (max (C0 / (unit_wave_config._f0 + unit_wave_config._fc) * 1000)
          ((core_edges (8 / 5)).get_board_thickness * 20))]⟩, ⟨762, []⟩] :=
  ⟨clean_core_board (8 / 5) (by norm_num),
    (C14_z_margin_formula (core_edges (8 / 5)) (core_board (8 / 5)) unit_wave_config 1 {}
      [⟨0, 0⟩, ⟨8 / 5, 0⟩] (clean_core_board (8 / 5) (by norm_num))).2.1 (Nat.zero_le 1)⟩

/-! ### Claims about `_add_nf2ff_box`, first part -/

/-- C15: with no near-to-far-field footprint set, `_add_nf2ff_box` makes no
`fprintf` call and returns the mesh (all three line sets) as it was, whatever
the excitation list holds. -/
theorem C15_nf2ff_inert (b : pcb) (e : pcb_edges) (cfg : nf2ff_config)
    (_excitations : List excitation) (mesh_prio : Nat) (m : mesh)
    (h : cfg._nf2ff_fp = "") :
    _add_nf2ff_box b e cfg _excitations mesh_prio m = (m, []) := by
  unfold _add_nf2ff_box
  rw [if_pos h]

theorem C15_nf2ff_inert_witness :
    _add_nf2ff_box ⟨fun _ => none, fun _ _ => none, fun _ _ q => q, fun _ => 0⟩
        ⟨0, 100, 0, 50, 8 / 5⟩ ⟨"", true, 20, 2400000000⟩
        [⟨⟨1, 2, 0⟩, ⟨3, 2, 0⟩, 0, 50, true, true⟩] 99 {} =
      ({}, []) :=
  C15_nf2ff_inert ⟨fun _ => none, fun _ _ => none, fun _ _ q => q, fun _ => 0⟩
    ⟨0, 100, 0, 50, 8 / 5⟩ ⟨"", true, 20, 2400000000⟩
    [⟨⟨1, 2, 0⟩, ⟨3, 2, 0⟩, 0, 50, true, true⟩] 99 {} rfl

/-! ### Claims about `_clean_mesh_line`, continued -/

/-- C16: `_clean_mesh_line` returns the set as it is when it holds fewer than
two lines, and after one pass when no two neighbouring lines are closer than
`min_gap`. -/
theorem C16_clean_noop (fuel : Nat) (l : List line) (min_gap : ℚ) (hfuel : 1 ≤ fuel)
    (h : l.length < 2 ∨ no_close_neighbours min_gap l) :
    _clean_mesh_line fuel l min_gap = .ok l :=
  clean_noop fuel l min_gap hfuel h

theorem C16_clean_noop_witness :
    _clean_mesh_line 1 [⟨0, 1⟩, ⟨1, 0⟩, ⟨2, 1⟩] (1 / 10) = .ok [⟨0, 1⟩, ⟨1, 0⟩, ⟨2, 1⟩] :=
  C16_clean_noop 1 [⟨0, 1⟩, ⟨1, 0⟩, ⟨2, 1⟩] (1 / 10) (le_refl _)
    (Or.inr (by
      intro j hj
      have hj2 : j = 0 ∨ j = 1 := by
        simp only [List.length_cons, List.length_nil] at hj
        omega
      rcases hj2 with rfl | rfl <;> norm_num [abs_lt]))

/-! ### Claims about straight segments -/

theorem add_segment_body_straight (env : segment_env) (info : mesh_info) (st : segment_state)
    (s : segment) (hstraight : s.is_arc = false)
    (hlong : ¬ env.distance s.end_ s.start < s.width * (1 / 2)) :
    (add_segment_body env info st s).out =
        st.out ++ [⟨env.get_net_name s.net, cap_points env s,
          env.get_layer_z_axis s.layer_name, env.get_layer_thickness s.layer_name⟩] ∧
      (add_segment_body env info st s).mesh_x =
        (if info.gen_mesh && !info.use_uniform_grid then
          (cap_points env s).foldl (fun m p => (set_insert m ⟨p.x, info.mesh_prio⟩).1) st.mesh_x
        else st.mesh_x) ∧
      (add_segment_body env info st s).mesh_y =
        (if info.gen_mesh && !info.use_uniform_grid then
          (cap_points env s).foldl (fun m p => (set_insert m ⟨p.y, info.mesh_prio⟩).1) st.mesh_y
        else st.mesh_y) := by
  unfold add_segment_body
  simp only [hstraight, Bool.false_eq_true, if_false, if_neg hlong]
  cases (info.gen_mesh && !info.use_uniform_grid) with
  | true => simp only [if_true, and_self]
  | false => simp only [Bool.false_eq_true, if_false, and_self]

/-- C17 fails as stated: the polygon written for a straight segment from (0,0)
to (10,0) of width 1 has ten points, not eight. -/
theorem C17_counterexample :
    (add_segment_body
        ⟨fun _ => [], fun _ => "GND", fun _ => 0, fun _ => 0, fun _ => 10, fun _ _ => 10,
          fun _ => [], fun _ at_end i => ⟨i, if at_end then 1 else 0⟩⟩
        ⟨true, false, 0, false, 0, 0⟩ ⟨[], [], [], 100000, -100000, 100000, -100000⟩
        ⟨⟨0, 0⟩, ⟨0, 0⟩, ⟨10, 0⟩, 1, "F.Cu", 1⟩).out.map (fun poly => poly.points.length) =
      [10] := by
  have h1 := (add_segment_body_straight
    ⟨fun _ => [], fun _ => "GND", fun _ => 0, fun _ => 0, fun _ => 10, fun _ _ => 10,
      fun _ => [], fun _ at_end i => ⟨i, if at_end then 1 else 0⟩⟩
    ⟨true, false, 0, false, 0, 0⟩ ⟨[], [], [], 100000, -100000, 100000, -100000⟩
    ⟨⟨0, 0⟩, ⟨0, 0⟩, ⟨10, 0⟩, 1, "F.Cu", 1⟩ (by simp [segment.is_arc]) (by norm_num)).1
  rw [h1]
  simp [cap_points]

/-- C17 as amended: for a straight segment that is not skipped, `_add_segment`
writes one polygon of ten points, five per end cap (`i = 0 .. 4`), and when the
net has `gen_mesh` set without a uniform grid each of these points is handed to
`insert` for `_mesh.x` and for `_mesh.y` at the net priority: a line with its
x (y) value is in the set afterwards, and every line that was not in the set
before has the net priority and the x (y) value of one of the ten points. -/
theorem C17_straight_segment_polygon (env : segment_env) (info : mesh_info)
    (st : segment_state) (s : segment) (hstraight : s.is_arc = false)
    (hlong : ¬ env.distance s.end_ s.start < s.width * (1 / 2)) :
    ∃ poly : lin_poly,
      (add_segment_body env info st s).out = st.out ++ [poly] ∧
      poly.points = (List.range 5).map (env.cap_point s false) ++
        (List.range 5).map (env.cap_point s true) ∧
      poly.points.length = 10 ∧
      (info.gen_mesh = true → info.use_uniform_grid = false →
        (∀ p ∈ poly.points,
          (∃ l ∈ (add_segment_body env info st s).mesh_x, l.v = p.x) ∧
          (∃ l ∈ (add_segment_body env info st s).mesh_y, l.v = p.y)) ∧
        (∀ l ∈ (add_segment_body env info st s).mesh_x,
          l ∈ st.mesh_x ∨ (l.prio = info.mesh_prio ∧ ∃ p ∈ poly.points, l.v = p.x)) ∧
        (∀ l ∈ (add_segment_body env info st s).mesh_y,
          l ∈ st.mesh_y ∨ (l.prio = info.mesh_prio ∧ ∃ p ∈ poly.points, l.v = p.y))) := by
  obtain ⟨hout, hx, hy⟩ := add_segment_body_straight env info st s hstraight hlong
  refine ⟨_, hout, rfl, by simp [cap_points], ?_⟩
  intro hg hu
  rw [hx, hy]
  simp only [hg, hu, Bool.not_false, Bool.and_self, if_true]
  refine ⟨fun p hp => ⟨foldl_insert_has_value (fun q => q.x) _ _ _ p hp,
    foldl_insert_has_value (fun q => q.y) _ _ _ p hp⟩, ?_, ?_⟩
  · intro l hl
    rcases foldl_insert_mem (fun q => q.x) _ _ _ l hl with h | ⟨p, hp, rfl⟩
    · exact Or.inl h
    · exact Or.inr ⟨rfl, p, hp, rfl⟩
  · intro l hl
    rcases foldl_insert_mem (fun q => q.y) _ _ _ l hl with h | ⟨p, hp, rfl⟩
    · exact Or.inl h
    · exact Or.inr ⟨rfl, p, hp, rfl⟩

theorem C17_straight_segment_polygon_witness :
    ∃ poly : lin_poly,
      (add_segment_body
          ⟨fun _ => [], fun _ => "GND", fun _ => 0, fun _ => 0, fun _ => 10, fun _ _ => 10,
            fun _ => [], fun _ at_end i => ⟨i, if at_end then 1 else 0⟩⟩
          ⟨true, false, 0, false, 0, 0⟩ ⟨[], [], [], 100000, -100000, 100000, -100000⟩
          ⟨⟨0, 0⟩, ⟨0, 0⟩, ⟨10, 0⟩, 1, "F.Cu", 1⟩).out = [] ++ [poly] ∧
      poly.points.length = 10 := by
  obtain ⟨poly, h1, _, h3, _⟩ :=
    C17_straight_segment_polygon
      ⟨fun _ => [], fun _ => "GND", fun _ => 0, fun _ => 0, fun _ => 10, fun _ _ => 10,
        fun _ => [], fun _ at_end i => ⟨i, if at_end then 1 else 0⟩⟩
      ⟨true, false, 0, false, 0, 0⟩ ⟨[], [], [], 100000, -100000, 100000, -100000⟩
      ⟨⟨0, 0⟩, ⟨0, 0⟩, ⟨10, 0⟩, 1, "F.Cu", 1⟩ (by simp [segment.is_arc]) (by norm_num)
  exact ⟨poly, h1, h3⟩

/-! ### Claims about `_add_gr` -/

/-- C18: an unfilled polygon is written all the same (the `GR_POLY` branch
does not test `fill_type`), its points go into the accumulator and, with
`gen_mesh`, into the line sets; lines, arcs, texts and unfilled rectangles and
circles change nothing; solid rectangles and circles are written. -/
theorem C18_unfilled_polygon_is_written :
    _add_gr ⟨fun _ => 0, fun _ => 1, fun _ _ q => q, fun _ _ _ _ => 1⟩
        ⟨"F.Cu", GR_POLY, FILL_NONE, [⟨0, 0⟩, ⟨1, 0⟩, ⟨1, 1⟩], ⟨0, 0⟩, ⟨0, 0⟩⟩ ⟨0, 0⟩ 0 "U1" 5
        true ⟨[], [], [], ⟨10000, -10000, 10000, -10000⟩⟩ =
      ⟨[.poly ⟨"U1", [⟨0, 0⟩, ⟨1, 0⟩, ⟨1, 1⟩], 0, 1⟩], [⟨0, 5⟩, ⟨1, 5⟩], [⟨0, 5⟩, ⟨1, 5⟩],
        ⟨0, 1, 0, 1⟩⟩ ∧
    (∀ (env : gr_env) (g : gr) (at_ : pcb_point) (angle : ℚ) (name : String)
        (mesh_prio : Nat) (gen_mesh : Bool) (st : gr_state),
      (g.gr_type = GR_LINE ∨ g.gr_type = GR_ARC ∨ g.gr_type = GR_TEXT ∨
        ((g.gr_type = GR_RECT ∨ g.gr_type = GR_CIRCLE) ∧ g.fill_type ≠ FILL_SOLID)) →
      _add_gr env g at_ angle name mesh_prio gen_mesh st = st) ∧
    (∀ (env : gr_env) (g : gr) (at_ : pcb_point) (angle : ℚ) (name : String)
        (mesh_prio : Nat) (gen_mesh : Bool) (st : gr_state),
      (g.gr_type = GR_POLY ∨
        ((g.gr_type = GR_RECT ∨ g.gr_type = GR_CIRCLE) ∧ g.fill_type = FILL_SOLID)) →
      ∃ p, (_add_gr env g at_ angle name mesh_prio gen_mesh st).out = st.out ++ [p]) := by
  refine ⟨?_, ?_, ?_⟩
  · norm_num [_add_gr, gr_points, GR_POLY, set_insert, line.lt, range_det.det]
  · intro env g at_ angle name mesh_prio gen_mesh st h
    unfold _add_gr
    rcases h with h | h | h | ⟨h | h, hf⟩
    · simp [h, GR_POLY, GR_RECT, GR_LINE]
    · simp [h, GR_POLY, GR_RECT, GR_LINE, GR_CIRCLE, GR_ARC]
    · simp [h, GR_POLY, GR_RECT, GR_LINE, GR_CIRCLE, GR_TEXT]
    · simp [h, hf, GR_POLY, GR_RECT]
    · simp [h, hf, GR_POLY, GR_RECT, GR_LINE, GR_CIRCLE]
  · intro env g at_ angle name mesh_prio gen_mesh st h
    rcases h with h | ⟨h | h, hf⟩
    · exact ⟨.poly ⟨name, g.pts.map (env.get_rotation_pos at_ angle),
        env.get_layer_z_axis g.layer_name, env.get_layer_thickness g.layer_name⟩,
        by simp [_add_gr, h, gr_points]⟩
    · exact ⟨.poly ⟨name,
        [env.get_rotation_pos at_ angle ⟨g.start.x, g.start.y⟩,
          env.get_rotation_pos at_ angle ⟨g.end_.x, g.start.y⟩,
          env.get_rotation_pos at_ angle ⟨g.end_.x, g.end_.y⟩,
          env.get_rotation_pos at_ angle ⟨g.start.x, g.end_.y⟩],
        env.get_layer_z_axis g.layer_name, env.get_layer_thickness g.layer_name⟩,
        by simp [_add_gr, h, hf, gr_points, GR_POLY, GR_RECT]⟩
    · exact ⟨.cylinder name
        ⟨(env.get_rotation_pos at_ angle g.start).x, (env.get_rotation_pos at_ angle g.start).y,
          env.get_layer_z_axis g.layer_name⟩
        ⟨(env.get_rotation_pos at_ angle g.start).x, (env.get_rotation_pos at_ angle g.start).y,
          env.get_layer_z_axis g.layer_name + env.get_layer_thickness g.layer_name⟩
        (env.calc_dist (env.get_rotation_pos at_ angle g.start).x
          (env.get_rotation_pos at_ angle g.start).y (env.get_rotation_pos at_ angle g.end_).x
          (env.get_rotation_pos at_ angle g.end_).y),
        by simp [_add_gr, h, hf, gr_points, GR_POLY, GR_RECT, GR_LINE, GR_CIRCLE]⟩

/-! ### Claims about `_add_nf2ff_box`, second part -/

/-- C19 fails as stated: with the footprint at (10, 20), the board from 0 to
100 in x, `lambda = 10` and `ratio = 2`, the box is emitted with centre 10 and
half-extent 95 in x, so its x faces are -85 and 105, but the x lines inserted
are -90 and 110 (and likewise -20 and 60 against the y faces -15 and 55, -10
and 10 against the z faces -5 and 5). -/
theorem C19_counterexample :
    _add_nf2ff_box
        ⟨fun _ => some ⟨"ANT1", "", "F.Cu", ⟨10, 20⟩, 0, []⟩, fun _ _ => none,
          fun _ _ q => q, fun _ => 0⟩
        ⟨0, 100, 0, 50, 8 / 5⟩ ⟨"ANT1", true, 20, 29979245800⟩ [] 99 {} =
      ({ x := [⟨-90, 99⟩, ⟨110, 99⟩], y := [⟨-20, 99⟩, ⟨60, 99⟩], z := [⟨-10, 99⟩, ⟨10, 99⟩] },
        [⟨1517, [.f 29979245800]⟩, ⟨1518, [.f 10, .f 20, .f 0]⟩,
          ⟨1519, [.f 95, .f 35, .f 5]⟩, ⟨1520, []⟩, ⟨1521, []⟩, ⟨1522, []⟩, ⟨1525, []⟩,
          ⟨1526, []⟩]) := by
  have hne : ("ANT1" : String) ≠ "" := by decide
  norm_num [_add_nf2ff_box, C0, set_insert, line.lt, abs_of_nonneg, abs_of_neg, hne]

/-- C19 as amended: with a near-to-far-field footprint set, the box is emitted
with centre `(cx, cy, cz)` and half-extents `(xm, ym, zm)`, and the six lines
handed to `insert`, two per axis at the given priority, lie `lambda / ratio`
outside its faces: `c - m - lambda / ratio` and `c + m + lambda / ratio` on
each axis, with `lambda = C0 / _far_field_freq * 1000` and `ratio` the mesh
ratio, divided by 10 under PML. -/
theorem C19_nf2ff_lines_outside_faces (b : pcb) (e : pcb_edges) (cfg : nf2ff_config)
    (_excitations : List excitation) (mesh_prio : Nat) (m : mesh)
    (h : cfg._nf2ff_fp ≠ "") :
    ∃ cx cy cz xm ym zm : ℚ,
      (_add_nf2ff_box b e cfg _excitations mesh_prio m).2 =
        [⟨1517, [.f cfg._far_field_freq]⟩, ⟨1518, [.f cx, .f cy, .f cz]⟩,
          ⟨1519, [.f xm, .f ym, .f zm]⟩, ⟨1520, []⟩, ⟨1521, []⟩, ⟨1522, []⟩, ⟨1525, []⟩,
          ⟨1526, []⟩] ∧
      (_add_nf2ff_box b e cfg _excitations mesh_prio m).1.x =
        (set_insert (set_insert m.x
          ⟨cx - xm - C0 / cfg._far_field_freq * 1000 /
            (if cfg.pml then cfg._lambda_mesh_ratio / 10 else cfg._lambda_mesh_ratio),
            mesh_prio⟩).1
          ⟨cx + xm + C0 / cfg._far_field_freq * 1000 /
            (if cfg.pml then cfg._lambda_mesh_ratio / 10 else cfg._lambda_mesh_ratio),
            mesh_prio⟩).1 ∧
      (_add_nf2ff_box b e cfg _excitations mesh_prio m).1.y =
        (set_insert (set_insert m.y
          ⟨cy - ym - C0 / cfg._far_field_freq * 1000 /
            (if cfg.pml then cfg._lambda_mesh_ratio / 10 else cfg._lambda_mesh_ratio),
            mesh_prio⟩).1
          ⟨cy + ym + C0 / cfg._far_field_freq * 1000 /
            (if cfg.pml then cfg._lambda_mesh_ratio / 10 else cfg._lambda_mesh_ratio),
            mesh_prio⟩).1 ∧
      (_add_nf2ff_box b e cfg _excitations mesh_prio m).1.z =
        (set_insert (set_insert m.z
          ⟨cz - zm - C0 / cfg._far_field_freq * 1000 /
            (if cfg.pml then cfg._lambda_mesh_ratio / 10 else cfg._lambda_mesh_ratio),
            mesh_prio⟩).1
          ⟨cz + zm + C0 / cfg._far_field_freq * 1000 /
            (if cfg.pml then cfg._lambda_mesh_ratio / 10 else cfg._lambda_mesh_ratio),
            mesh_prio⟩).1 := by
  unfold _add_nf2ff_box
  rw [if_neg h]
  exact ⟨_, _, _, _, _, _, rfl, rfl, rfl, rfl⟩

theorem C19_nf2ff_lines_outside_faces_witness :
    ∃ cx cy cz xm ym zm : ℚ,
      (_add_nf2ff_box
        ⟨fun _ => some ⟨"ANT1", "", "F.Cu", ⟨10, 20⟩, 0, []⟩, fun _ _ => none,
          fun _ _ q => q, fun _ => 0⟩
        ⟨0, 100, 0, 50, 8 / 5⟩ ⟨"ANT1", true, 20, 29979245800⟩ [] 99 {}).2 =
        [⟨1517, [.f 29979245800]⟩, ⟨1518, [.f cx, .f cy, .f cz]⟩,
          ⟨1519, [.f xm, .f ym, .f zm]⟩, ⟨1520, []⟩, ⟨1521, []⟩, ⟨1522, []⟩, ⟨1525, []⟩,
          ⟨1526, []⟩] := by
  obtain ⟨cx, cy, cz, xm, ym, zm, h1, _⟩ :=
    C19_nf2ff_lines_outside_faces
      ⟨fun _ => some ⟨"ANT1", "", "F.Cu", ⟨10, 20⟩, 0, []⟩, fun _ _ => none,
        fun _ _ q => q, fun _ => 0⟩
      ⟨0, 100, 0, 50, 8 / 5⟩ ⟨"ANT1", true, 20, 29979245800⟩ [] 99 {} (by decide)
  exact ⟨cx, cy, cz, xm, ym, zm, h1⟩

/-! ### Claims about `gen_mesh` -/

theorem mem_extend_axis {l : List line} {z : line} (lo hi : ℚ) (h : z ∈ l) :
    z ∈ extend_axis lo hi l := by
  unfold extend_axis
  have h1 : z ∈ (match l.head? with
      | some b => if b.v > lo then (set_insert l ⟨lo, b.prio⟩).1 else l
      | none => l) := by
    split
    · split_ifs
      · exact mem_set_insert_of_mem _ h
      · exact h
    · exact h
  revert h1
  generalize (match l.head? with
      | some b => if b.v > lo then (set_insert l ⟨lo, b.prio⟩).1 else l
      | none => l) = l1
  intro h1
  dsimp only
  split
  · split_ifs
    · exact mem_set_insert_of_mem _ h1
    · exact h1
  · exact h1

theorem z_layer_fold_prio (env : layer_env) (cfg : mesh_config) :
    ∀ (ls : List layer) (acc : List line × String), (∀ l ∈ acc.1, l.prio = 0) →
      ∀ l ∈ (ls.foldl (z_layer_step env cfg) acc).1, l.prio = 0 := by
  intro ls
  induction ls with
  | nil => intro acc h; exact h
  | cons a rest ih =>
    intro acc h
    rw [List.foldl_cons]
    apply ih
    unfold z_layer_step
    split_ifs
    · exact h
    · exact h
    · intro l hl
      rcases mem_set_insert hl with rfl | hl2
      · rfl
      · exact h l hl2

theorem z_lines_prio (env : layer_env) (cfg : mesh_config) :
    ∀ l ∈ z_lines env cfg, l.prio = 0 := by
  intro l hl
  unfold z_lines at hl
  rcases mem_set_insert hl with rfl | hl2
  · rfl
  · exact z_layer_fold_prio env cfg _ _ (fun _ h => absurd h (List.not_mem_nil _)) l hl2

theorem gen_mesh_ok {e : pcb_edges} {env : layer_env} {cfg : mesh_config} {fuel : Nat}
    {func_name : String} {m m3 : mesh} {out : List fprintf}
    (h : gen_mesh e env cfg fuel func_name m = .ok (m3, out)) :
    ∃ x y z, _apply_mesh_line_range fuel m.x m.x_range = .ok x ∧
      _apply_mesh_line_range fuel m.y m.y_range = .ok y ∧
      _apply_mesh_line_range fuel m.z m.z_range = .ok z ∧
      _clean_mesh_line fuel (x_lines e cfg x) cfg._mesh_x_min_gap = .ok m3.x ∧
      _clean_mesh_line fuel (y_lines e cfg y) cfg._mesh_y_min_gap = .ok m3.y ∧
      _clean_mesh_line fuel (z_lines env cfg) cfg._mesh_z_min_gap = .ok m3.z := by
  unfold gen_mesh _apply_mesh_line_range_mesh at h
  cases hx : _apply_mesh_line_range fuel m.x m.x_range with
  | error f => simp [hx] at h
  | ok x =>
    cases hy : _apply_mesh_line_range fuel m.y m.y_range with
    | error f => simp [hx, hy] at h
    | ok y =>
      cases hz : _apply_mesh_line_range fuel m.z m.z_range with
      | error f => simp [hx, hy, hz] at h
      | ok z =>
        simp only [hx, hy, hz] at h
        unfold _gen_mesh_z at h
        cases hcz : _clean_mesh_line fuel (z_lines env cfg) cfg._mesh_z_min_gap with
        | error f => simp [hcz] at h
        | ok z2 =>
          simp only [hcz] at h
          unfold _gen_mesh_xy at h
          cases hcx : _clean_mesh_line fuel (x_lines e cfg x) cfg._mesh_x_min_gap with
          | error f => simp [hcx] at h
          | ok x2 =>
            cases hcy : _clean_mesh_line fuel (y_lines e cfg y) cfg._mesh_y_min_gap with
            | error f => simp [hcx, hcy] at h
            | ok y2 =>
              have hcx2 := hcx
              have hcy2 := hcy
              simp only [hcx2, hcy2, Except.ok.injEq, Prod.mk.injEq] at h
              obtain ⟨rfl, _⟩ := h
              exact ⟨x, y, z, rfl, rfl, rfl, hcx, hcy, rfl⟩

theorem overlay_mesh_x :
    _apply_mesh_line_range 1 overlay_mesh.x overlay_mesh.x_range = .ok [⟨0, 3⟩] := by
  norm_num [overlay_mesh, _apply_mesh_line_range, apply_loop, range_loop, continue_, set_insert]

theorem overlay_mesh_y :
    _apply_mesh_line_range 1 overlay_mesh.y overlay_mesh.y_range = .ok [] := by
  simp [overlay_mesh, _apply_mesh_line_range, apply_loop]

theorem overlay_mesh_z :
    _apply_mesh_line_range 1 overlay_mesh.z overlay_mesh.z_range = .ok [⟨5, 3⟩] := by
  norm_num [overlay_mesh, _apply_mesh_line_range, apply_loop, range_loop, continue_, set_insert]

theorem overlay_mesh_x_lines :
    x_lines (core_edges (8 / 5)) unit_wave_config [⟨0, 3⟩] =
      [⟨-1 / 2, 3⟩, ⟨0, 3⟩, ⟨201 / 2, 3⟩] := by
  norm_num [x_lines, extend_axis, set_insert, line.lt, C0, unit_wave_config, core_edges]

theorem overlay_mesh_x_clean :
    _clean_mesh_line 1 (x_lines (core_edges (8 / 5)) unit_wave_config [⟨0, 3⟩])
      unit_wave_config._mesh_x_min_gap = .ok [⟨-1 / 2, 3⟩, ⟨0, 3⟩, ⟨201 / 2, 3⟩] := by
  rw [overlay_mesh_x_lines]
  refine clean_noop 1 _ _ le_rfl (Or.inr ?_)
  intro j hj
  have hj2 : j = 0 ∨ j = 1 := by
    simp only [List.length_cons, List.length_nil] at hj
    omega
  rcases hj2 with rfl | rfl <;> norm_num [abs_lt, unit_wave_config]

theorem overlay_mesh_y_clean :
    _clean_mesh_line 1 (y_lines (core_edges (8 / 5)) unit_wave_config [])
      unit_wave_config._mesh_y_min_gap = .ok [] := by
  have h : y_lines (core_edges (8 / 5)) unit_wave_config [] = [] := by
    simp [y_lines, extend_axis]
  rw [h]
  exact clean_noop 1 _ _ le_rfl (Or.inl (by simp))

theorem gen_mesh_overlay_mesh :
    gen_mesh (core_edges (8 / 5)) (core_board (8 / 5)) unit_wave_config 1 "mesh" overlay_mesh =
      .ok overlay_mesh_result := by
  unfold gen_mesh _apply_mesh_line_range_mesh
  simp only [overlay_mesh_x, overlay_mesh_y, overlay_mesh_z]
  rw [gen_mesh_z_ok _ _ _ _ _ _ (clean_core_board (8 / 5) (by norm_num))]
  unfold _gen_mesh_xy
  simp only [overlay_mesh_x_clean, overlay_mesh_y_clean]
  norm_num [z_widen, C0, unit_wave_config, core_edges, core_board, overlay_mesh,
    overlay_mesh_result]

/-- C20, counterexample: a pending z range that yields the line 5 on a board
whose only layer spans `[0, 8/5]`.  The overlay puts the line 5 into
`_mesh.z`, but the set that `_gen_mesh_z` hands to `_clean_mesh_line` is
`{0, 8/5}`: the line 5 is not in it, nor in the z lines `gen_mesh` leaves
behind. -/
theorem C20_counterexample :
    _apply_mesh_line_range 1 overlay_mesh.z overlay_mesh.z_range = .ok [⟨5, 3⟩] ∧
    z_lines (core_board (8 / 5)) unit_wave_config = [⟨0, 0⟩, ⟨8 / 5, 0⟩] ∧
    (⟨5, 3⟩ : line) ∉ z_lines (core_board (8 / 5)) unit_wave_config ∧
    (gen_mesh (core_edges (8 / 5)) (core_board (8 / 5)) unit_wave_config 1 "mesh"
      overlay_mesh).map (fun r => r.1.z) = .ok [⟨0, 0⟩, ⟨8 / 5, 0⟩] := by
  refine ⟨overlay_mesh_z, z_lines_core_board _ (by norm_num), ?_, ?_⟩
  · rw [z_lines_core_board _ (by norm_num)]
    simp
  · rw [gen_mesh_overlay_mesh]
    rfl

/-- C20, amended: when `gen_mesh` returns, the three overlays have returned;
every line of `_mesh.x` after the overlay is in the set handed to the x call
of `_clean_mesh_line`, whose result is the final `_mesh.x`, and likewise for
y.  The set handed to the z call is built from the layer stack alone, every
line in it has priority 0, and its cleaned form is the final `_mesh.z`: the
lines the overlay put into `_mesh.z` are not part of it. -/
theorem C20_overlay_lines_in_clean_xy (e : pcb_edges) (env : layer_env) (cfg : mesh_config)
    (fuel : Nat) (func_name : String) (m m3 : mesh) (out : List fprintf)
    (h : gen_mesh e env cfg fuel func_name m = .ok (m3, out)) :
    ∃ x y z, _apply_mesh_line_range fuel m.x m.x_range = .ok x ∧
      _apply_mesh_line_range fuel m.y m.y_range = .ok y ∧
      _apply_mesh_line_range fuel m.z m.z_range = .ok z ∧
      (∀ l ∈ x, l ∈ x_lines e cfg x) ∧
      _clean_mesh_line fuel (x_lines e cfg x) cfg._mesh_x_min_gap = .ok m3.x ∧
      (∀ l ∈ y, l ∈ y_lines e cfg y) ∧
      _clean_mesh_line fuel (y_lines e cfg y) cfg._mesh_y_min_gap = .ok m3.y ∧
      (∀ l ∈ z_lines env cfg, l.prio = 0) ∧
      _clean_mesh_line fuel (z_lines env cfg) cfg._mesh_z_min_gap = .ok m3.z := by
  obtain ⟨x, y, z, hx, hy, hz, hcx, hcy, hcz⟩ := gen_mesh_ok h
  exact ⟨x, y, z, hx, hy, hz, fun l hl => mem_extend_axis _ _ hl, hcx,
    fun l hl => mem_extend_axis _ _ hl, hcy, z_lines_prio env cfg, hcz⟩

theorem C20_overlay_lines_in_clean_xy_witness :
    gen_mesh (core_edges (8 / 5)) (core_board (8 / 5)) unit_wave_config 1 "mesh" overlay_mesh =
        .ok (overlay_mesh_result.1, overlay_mesh_result.2) ∧
      ∃ x, _apply_mesh_line_range 1 overlay_mesh.x overlay_mesh.x_range = .ok x ∧
        (⟨0, 3⟩ : line) ∈ x_lines (core_edges (8 / 5)) unit_wave_config x := by
  refine ⟨gen_mesh_overlay_mesh, ?_⟩
  obtain ⟨x, y, z, hx, _, _, hmem, _⟩ :=
    C20_overlay_lines_in_clean_xy (core_edges (8 / 5)) (core_board (8 / 5)) unit_wave_config 1
      "mesh" overlay_mesh overlay_mesh_result.1 overlay_mesh_result.2 gen_mesh_overlay_mesh
  refine ⟨x, hx, hmem _ ?_⟩
  have h := overlay_mesh_x
  rw [hx] at h
  cases h
  exact List.mem_singleton.2 rfl

/-! ### Claims about the widening of the z axis -/

theorem z_widen_eq_values (e : pcb_edges) (cfg : mesh_config) (mesh_z : List line) :
    z_widen e cfg mesh_z =
      match mesh_z with
      | _ :: _ :: _ =>
        [⟨757, [.f (z_widen_values e cfg mesh_z).1, .f (z_widen_values e cfg mesh_z).2]⟩]
      | _ => [⟨761, [.f (z_widen_values e cfg mesh_z).2]⟩, ⟨762, []⟩] := by
  match mesh_z with
  | [] => rfl
  | [_] => rfl
  | _ :: _ :: _ => rfl

/-- C21, counterexample: on the board of one layer spanning `[0, 8/5]`, with
wavelength 1 and no z line registered beforehand, the margin is 32, the z
lines are 0 and 8/5 and the two values added are -32 and 32: the upper one is
below `8/5 + 32`.  With the lines -40 and 50 registered beforehand the values
added are -40 and 50, and -40 is above `-40 - 32`. -/
theorem C21_counterexample :
    (_gen_mesh_z (core_edges (8 / 5)) (core_board (8 / 5)) unit_wave_config 1 {}).map
        (fun r => r.1.z) = .ok [⟨0, 0⟩, ⟨8 / 5, 0⟩] ∧
    max (C0 / (unit_wave_config._f0 + unit_wave_config._fc) * 1000)
      ((core_edges (8 / 5)).get_board_thickness * 20) = 32 ∧
    z_widen_values (core_edges (8 / 5)) unit_wave_config [] = (-32, 32) ∧
    (z_widen_values (core_edges (8 / 5)) unit_wave_config []).2 < 8 / 5 + 32 ∧
    z_widen_values (core_edges (8 / 5)) unit_wave_config [⟨-40, 1⟩, ⟨50, 1⟩] = (-40, 50) ∧
    (z_widen_values (core_edges (8 / 5)) unit_wave_config [⟨-40, 1⟩, ⟨50, 1⟩]).1 > -40 - 32 := by
  refine ⟨?_, ?_, ?_, ?_, ?_, ?_⟩
  · rw [gen_mesh_z_ok _ _ _ _ _ _ (clean_core_board (8 / 5) (by norm_num))]
    rfl
  all_goals norm_num [z_widen_values, C0, unit_wave_config, core_edges]

/-- C21, amended: with `margin = max(C0 / (f0 + fc) * 1000, 20 x board
thickness)`, the two values that `_gen_mesh_z` adds when widening the z axis
are at most `-margin` and at least `margin`, as positions on the z axis (not
as distances from the extreme lines).  With at most one line in `_mesh.z` on
entry they are `-margin` and `margin`; with two or more they are
`min(-margin, lowest line on entry)` and `max(margin, highest line on entry)`,
so they also enclose those lines. -/
theorem C21_z_widening_reaches_margin (e : pcb_edges) (cfg : mesh_config)
    (mesh_z : List line) :
    (z_widen_values e cfg mesh_z).1 ≤
        -(max (C0 / (cfg._f0 + cfg._fc) * 1000) (e.get_board_thickness * 20)) ∧
    max (C0 / (cfg._f0 + cfg._fc) * 1000) (e.get_board_thickness * 20) ≤
        (z_widen_values e cfg mesh_z).2 ∧
    (mesh_z.length ≤ 1 →
      z_widen_values e cfg mesh_z =
        (-(max (C0 / (cfg._f0 + cfg._fc) * 1000) (e.get_board_thickness * 20)),
          max (C0 / (cfg._f0 + cfg._fc) * 1000) (e.get_board_thickness * 20)) ∧
      z_widen e cfg mesh_z =
        [⟨761, [.f (z_widen_values e cfg mesh_z).2]⟩, ⟨762, []⟩]) ∧
    (∀ a b rest, mesh_z = a :: b :: rest →
      z_widen_values e cfg mesh_z =
        (min (-(max (C0 / (cfg._f0 + cfg._fc) * 1000) (e.get_board_thickness * 20))) a.v,
          max (max (C0 / (cfg._f0 + cfg._fc) * 1000) (e.get_board_thickness * 20))
            ((b :: rest).getLast (List.cons_ne_nil b rest)).v) ∧
      z_widen e cfg mesh_z =
        [⟨757, [.f (z_widen_values e cfg mesh_z).1, .f (z_widen_values e cfg mesh_z).2]⟩]) := by
  refine ⟨?_, ?_, ?_, ?_⟩
  · match mesh_z with
    | [] => exact le_refl _
    | [_] => exact le_refl _
    | _ :: _ :: _ => exact min_le_left _ _
  · match mesh_z with
    | [] => exact le_refl _
    | [_] => exact le_refl _
    | _ :: _ :: _ => exact le_max_left _ _
  · intro hlen
    match mesh_z, hlen with
    | [], _ => exact ⟨rfl, rfl⟩
    | [_], _ => exact ⟨rfl, rfl⟩
    | _ :: _ :: _, hlen => simp at hlen
  · intro a b rest hm
    subst hm
    refine ⟨?_, rfl⟩
    simp only [z_widen_values, List.getLast_eq_getLastD]

theorem C21_z_widening_reaches_margin_witness :
    z_widen_values (core_edges (8 / 5)) unit_wave_config ([] : List line) =
      (-(max (C0 / (unit_wave_config._f0 + unit_wave_config._fc) * 1000)
          ((core_edges (8 / 5)).get_board_thickness * 20)),
        max (C0 / (unit_wave_config._f0 + unit_wave_config._fc) * 1000)
          ((core_edges (8 / 5)).get_board_thickness * 20)) :=
  ((C21_z_widening_reaches_margin (core_edges (8 / 5)) unit_wave_config []).2.2.1
    (Nat.zero_le 1)).1

/-! ### Claims about `_gen_mesh_xy` -/

theorem x_lines_eq_clearance (e : pcb_edges) (cfg : mesh_config) (x : List line) :
    x_lines e cfg x =
      extend_axis (e.get_edge_left - xy_clearance cfg) (e.get_edge_right + xy_clearance cfg) x :=
  rfl

theorem y_lines_eq_clearance (e : pcb_edges) (cfg : mesh_config) (y : List line) :
    y_lines e cfg y =
      extend_axis (e.get_edge_top - xy_clearance cfg) (e.get_edge_bottom + xy_clearance cfg) y :=
  rfl

/-- C22: `_gen_mesh_xy` extends the x axis to `left - d` and `right + d` and
the y axis to `top - d` and `bottom + d`, where for `f0 + fc > 0` and a
positive density ratio the distance `d = lambda / ratio` is positive and under
PML is exactly 5/2 times what it is otherwise (the ratio is divided by 10
instead of by 4). -/
theorem C22_pml_clearance (e : pcb_edges) (cfg : mesh_config)
    (hf : 0 < cfg._f0 + cfg._fc) (hr : 0 < cfg._lambda_mesh_ratio) :
    (∀ x, x_lines e cfg x =
      extend_axis (e.get_edge_left - xy_clearance cfg) (e.get_edge_right + xy_clearance cfg) x) ∧
    (∀ y, y_lines e cfg y =
      extend_axis (e.get_edge_top - xy_clearance cfg) (e.get_edge_bottom + xy_clearance cfg) y) ∧
    0 < xy_clearance { cfg with pml := false } ∧
    xy_clearance { cfg with pml := true } = 5 / 2 * xy_clearance { cfg with pml := false } ∧
    xy_clearance { cfg with pml := true } =
      C0 / (cfg._f0 + cfg._fc) * 1000 / (cfg._lambda_mesh_ratio / 10) ∧
    xy_clearance { cfg with pml := false } =
      C0 / (cfg._f0 + cfg._fc) * 1000 / (cfg._lambda_mesh_ratio / 4) := by
  refine ⟨fun _ => rfl, fun _ => rfl, ?_, ?_, ?_, ?_⟩
  · simp only [xy_clearance, Bool.false_eq_true, if_false]
    have hc : (0 : ℚ) < C0 := by norm_num [C0]
    positivity
  · simp only [xy_clearance, Bool.false_eq_true, if_false, if_true]
    have h1 : cfg._lambda_mesh_ratio ≠ 0 := ne_of_gt hr
    have h2 : cfg._f0 + cfg._fc ≠ 0 := ne_of_gt hf
    field_simp
    ring
  · simp only [xy_clearance, if_true]
  · simp only [xy_clearance, Bool.false_eq_true, if_false]

theorem C22_pml_clearance_witness :
    0 < unit_wave_config._f0 + unit_wave_config._fc ∧
      0 < unit_wave_config._lambda_mesh_ratio ∧
      xy_clearance { unit_wave_config with pml := true } =
        5 / 2 * xy_clearance { unit_wave_config with pml := false } :=
  ⟨by norm_num [unit_wave_config], by norm_num [unit_wave_config],
    (C22_pml_clearance (core_edges (8 / 5)) unit_wave_config (by norm_num [unit_wave_config])
      (by norm_num [unit_wave_config])).2.2.2.1⟩

theorem set_insert_front (x y : line) (ys : List line) (h : x.v < y.v) :
    (set_insert (y :: ys) x).1 = x :: y :: ys := by
  have h1 : ¬ line.lt y x := fun h2 => lt_asymm h h2
  have h2 : line.lt x y := h
  simp only [set_insert, if_neg h1, if_pos h2]

theorem set_insert_back (x : line) : ∀ (l : List line), (∀ y ∈ l, y.v < x.v) →
    (set_insert l x).1 = l ++ [x] := by
  intro l
  induction l with
  | nil => intro _; rfl
  | cons y ys ih =>
    intro h
    have h1 : line.lt y x := h y (List.mem_cons_self _ _)
    simp only [set_insert, if_pos h1, List.cons_append]
    rw [ih (fun z hz => h z (List.mem_cons_of_mem _ hz))]

theorem is_set_le_getLast {l : List line} (hs : is_set l) {r : line}
    (hr : l.getLast? = some r) : ∀ y ∈ l, y.v ≤ r.v := by
  intro y hy
  obtain ⟨i, hi, rfl⟩ := List.getElem_of_mem hy
  have hne : l ≠ [] := by
    intro h
    rw [h] at hi
    cases hi
  rw [List.getLast?_eq_getLast _ hne, List.getLast_eq_getElem] at hr
  cases hr
  exact is_set_getElem_le hs (by omega) _

theorem extend_axis_eq (lo hi : ℚ) (l : List line) (hs : is_set l) :
    extend_axis lo hi l =
      (match l.head? with
        | some b => if lo < b.v then [⟨lo, b.prio⟩] else []
        | none => []) ++ l ++
      (match l.getLast? with
        | some r => if r.v < hi then [⟨hi, r.prio⟩] else []
        | none => []) := by
  match l, hs with
  | [], _ => rfl
  | b :: t, hs =>
    obtain ⟨r, hr⟩ : ∃ r, (b :: t).getLast? = some r :=
      ⟨(b :: t).getLast (List.cons_ne_nil _ _), List.getLast?_eq_getLast _ _⟩
    have hle := is_set_le_getLast hs hr
    unfold extend_axis
    simp only [List.head?_cons, gt_iff_lt]
    by_cases hlo : lo < b.v
    · simp only [if_pos hlo, set_insert_front ⟨lo, b.prio⟩ b t hlo]
      have hr2 : (({ v := lo, prio := b.prio } : line) :: b :: t).getLast? = some r := by
        rw [List.getLast?_cons_cons]
        exact hr
      rw [hr2, hr]
      by_cases hhi : r.v < hi
      · simp only [if_pos hhi]
        rw [set_insert_back]
        · simp
        · intro y hy
          rcases List.mem_cons.1 hy with rfl | hy2
          · exact lt_of_lt_of_le hlo (lt_of_le_of_lt (hle b (List.mem_cons_self _ _)) hhi |>.le)
          · exact lt_of_le_of_lt (hle y hy2) hhi
      · simp only [if_neg hhi]
        simp
    · simp only [if_neg hlo]
      rw [hr]
      by_cases hhi : r.v < hi
      · simp only [if_pos hhi]
        rw [set_insert_back]
        · simp
        · intro y hy
          exact lt_of_le_of_lt (hle y hy) hhi
      · simp only [if_neg hhi]
        simp

/-- C23: the extension step of `_gen_mesh_xy` on one axis returns the set it
was given with at most one line put before it and at most one after it: a
line at the lower position, with the priority of the first line, exactly when
the set is not empty and its first line lies strictly above that position;
a line at the upper position, with the priority of the last line, exactly
when the set is not empty and its last line lies strictly below that
position.  The lines of the set stay as they are, in place.  For x the
positions are `left - lambda / ratio` and `right + lambda / ratio`, for y
`top - lambda / ratio` and `bottom + lambda / ratio`. -/
theorem C23_extension_step (e : pcb_edges) (cfg : mesh_config) (lo hi : ℚ) (l : List line)
    (hs : is_set l) :
    extend_axis lo hi l =
      (match l.head? with
        | some b => if lo < b.v then [⟨lo, b.prio⟩] else []
        | none => []) ++ l ++
      (match l.getLast? with
        | some r => if r.v < hi then [⟨hi, r.prio⟩] else []
        | none => []) ∧
    x_lines e cfg l =
      extend_axis (e.get_edge_left - xy_clearance cfg) (e.get_edge_right + xy_clearance cfg) l ∧
    y_lines e cfg l =
      extend_axis (e.get_edge_top - xy_clearance cfg) (e.get_edge_bottom + xy_clearance cfg) l :=
  ⟨extend_axis_eq lo hi l hs, rfl, rfl⟩

theorem C23_extension_step_witness :
    is_set [⟨0, 3⟩, ⟨200, 1⟩] ∧
      extend_axis (-1 / 2) (201 / 2) [⟨0, 3⟩, ⟨200, 1⟩] =
        [⟨-1 / 2, 3⟩] ++ [⟨0, 3⟩, ⟨200, 1⟩] ++ [] := by
  have hs : is_set [⟨0, 3⟩, ⟨200, 1⟩] := by
    simp [is_set, line.lt]
  refine ⟨hs, ?_⟩
  have h := (C23_extension_step (core_edges (8 / 5)) unit_wave_config (-1 / 2) (201 / 2)
    [⟨0, 3⟩, ⟨200, 1⟩] hs).1
  rw [h]
  norm_num

theorem extend_axis_extents (lo hi : ℚ) (l : List line) (hs : is_set l) (hne : l ≠ []) :
    ∃ b r, (extend_axis lo hi l).head? = some b ∧ (extend_axis lo hi l).getLast? = some r ∧
      b.v ≤ lo ∧ hi ≤ r.v := by
  rw [extend_axis_eq lo hi l hs]
  match l, hne with
  | b :: t, _ =>
    obtain ⟨r, hr⟩ : ∃ r, (b :: t).getLast? = some r :=
      ⟨(b :: t).getLast (List.cons_ne_nil _ _), List.getLast?_eq_getLast _ _⟩
    rw [hr]
    simp only [List.head?_cons]
    by_cases hlo : lo < b.v
    · by_cases hhi : r.v < hi
      · simp only [if_pos hlo, if_pos hhi]
        exact ⟨_, ⟨hi, r.prio⟩, rfl, List.getLast?_concat _, le_refl _, le_refl _⟩
      · simp only [if_pos hlo, if_neg hhi, List.append_nil]
        refine ⟨_, r, rfl, ?_, le_refl _, not_lt.1 hhi⟩
        rw [List.singleton_append, List.getLast?_cons_cons]
        exact hr
    · by_cases hhi : r.v < hi
      · simp only [if_neg hlo, if_pos hhi, List.nil_append]
        exact ⟨b, ⟨hi, r.prio⟩, rfl, List.getLast?_concat _, not_lt.1 hlo, le_refl _⟩
      · simp only [if_neg hlo, if_neg hhi, List.nil_append, List.append_nil]
        exact ⟨b, r, rfl, hr, not_lt.1 hlo, not_lt.1 hhi⟩

theorem gen_mesh_xy_ok (e : pcb_edges) (cfg : mesh_config) (fuel : Nat) (m : mesh)
    (x y : List line)
    (hx : _clean_mesh_line fuel (x_lines e cfg m.x) cfg._mesh_x_min_gap = .ok x)
    (hy : _clean_mesh_line fuel (y_lines e cfg m.y) cfg._mesh_y_min_gap = .ok y) :
    _gen_mesh_xy e cfg fuel m = .ok ({ m with x := x, y := y },
      [⟨814, []⟩] ++ x.map (fun l => ⟨817, [.f l.v]⟩) ++ [⟨819, []⟩, ⟨821, []⟩] ++
        y.map (fun l => ⟨824, [.f l.v]⟩) ++
        [⟨826, []⟩, ⟨829, [.f cfg._lambda_mesh_ratio]⟩, ⟨830, []⟩, ⟨831, []⟩]) := by
  unfold _gen_mesh_xy
  simp only [hx, hy]

theorem near_edge_x_lines :
    x_lines (core_edges (8 / 5)) unit_wave_config near_edge_mesh.x =
      [⟨-1 / 2, 3⟩, ⟨-9 / 20, 3⟩, ⟨201 / 2, 3⟩] := by
  norm_num [x_lines, extend_axis, set_insert, line.lt, C0, unit_wave_config, core_edges,
    near_edge_mesh]

theorem near_edge_x_clean :
    _clean_mesh_line 2 [⟨-1 / 2, 3⟩, ⟨-9 / 20, 3⟩, ⟨201 / 2, 3⟩] (1 / 10) =
      .ok [⟨-19 / 40, 3⟩, ⟨201 / 2, 3⟩] := by
  have b1 : scan_body (1 / 10) [⟨-1 / 2, 3⟩, ⟨-9 / 20, 3⟩, ⟨201 / 2, 3⟩] 0 1 true =
      .again [⟨-19 / 40, 3⟩, ⟨201 / 2, 3⟩] 0 1 false := by
    norm_num [scan_body, set_insert, line.lt, abs_lt]
  have b2 : ∀ brk, scan_body (1 / 10) [⟨-19 / 40, 3⟩, ⟨201 / 2, 3⟩] 0 1 brk =
      .again [⟨-19 / 40, 3⟩, ⟨201 / 2, 3⟩] 1 2 brk := by
    intro brk
    norm_num [scan_body, abs_lt]
  have b3 : ∀ brk, scan_body (1 / 10) [⟨-19 / 40, 3⟩, ⟨201 / 2, 3⟩] 1 2 brk =
      .done [⟨-19 / 40, 3⟩, ⟨201 / 2, 3⟩] brk := by
    intro brk
    simp [scan_body]
  have s1 : scan (1 / 10) [⟨-1 / 2, 3⟩, ⟨-9 / 20, 3⟩, ⟨201 / 2, 3⟩] =
      .ok ([⟨-19 / 40, 3⟩, ⟨201 / 2, 3⟩], false) := by
    unfold scan
    rw [if_pos (by simp), scan_loop_again b1, scan_loop_again (b2 false),
      scan_loop_done (b3 false)]
  have s2 : scan (1 / 10) [⟨-19 / 40, 3⟩, ⟨201 / 2, 3⟩] =
      .ok ([⟨-19 / 40, 3⟩, ⟨201 / 2, 3⟩], true) := by
    unfold scan
    rw [if_pos (by simp), scan_loop_again (b2 true), scan_loop_done (b3 true)]
  unfold _clean_mesh_line
  rw [if_neg (by simp)]
  simp only [do_while, s1, s2]
  simp

/-- C24, counterexample: board from 0 to 100 in x, `lambda / ratio = 1/2`,
x minimum gap 1/10, and the single x line -9/20 of priority 3 on entry.  The
extension puts lines at -1/2 and 201/2; the clean pass then merges -1/2 with
-9/20 (equal priority, 1/20 apart) into -19/40, so the emitted x array is
-19/40, 201/2 and its smallest value is above `left - lambda / ratio = -1/2`. -/
theorem C24_counterexample :
    _gen_mesh_xy (core_edges (8 / 5)) unit_wave_config 2 near_edge_mesh =
      .ok ({ x := [⟨-19 / 40, 3⟩, ⟨201 / 2, 3⟩] },
        [⟨814, []⟩, ⟨817, [.f (-19 / 40)]⟩, ⟨817, [.f (201 / 2)]⟩, ⟨819, []⟩, ⟨821, []⟩,
          ⟨826, []⟩, ⟨829, [.f 20]⟩, ⟨830, []⟩, ⟨831, []⟩]) ∧
    (core_edges (8 / 5)).get_edge_left - xy_clearance unit_wave_config = -1 / 2 ∧
    (-1 / 2 : ℚ) < -19 / 40 := by
  refine ⟨?_, ?_, by norm_num⟩
  · have hx : _clean_mesh_line 2
        (x_lines (core_edges (8 / 5)) unit_wave_config near_edge_mesh.x)
        unit_wave_config._mesh_x_min_gap = .ok [⟨-19 / 40, 3⟩, ⟨201 / 2, 3⟩] := by
      rw [near_edge_x_lines]
      exact near_edge_x_clean
    have hy : _clean_mesh_line 2
        (y_lines (core_edges (8 / 5)) unit_wave_config near_edge_mesh.y)
        unit_wave_config._mesh_y_min_gap = .ok [] := by
      have h : y_lines (core_edges (8 / 5)) unit_wave_config near_edge_mesh.y = [] := by
        simp [y_lines, extend_axis, near_edge_mesh]
      rw [h]
      exact clean_noop 2 _ _ (by norm_num) (Or.inl (by simp))
    rw [gen_mesh_xy_ok _ _ _ _ _ _ hx hy]
    norm_num [near_edge_mesh, unit_wave_config]
  · norm_num [xy_clearance, C0, unit_wave_config, core_edges]

/-- C24, amended: whenever the x (respectively y) set is not empty on entry
to `_gen_mesh_xy`, the set handed to `_clean_mesh_line` for that axis has
smallest value at most `left - lambda / ratio` and largest value at least
`right + lambda / ratio` (respectively `top - lambda / ratio` and
`bottom + lambda / ratio`); and when in neither of the two sets handed over two
neighbouring lines are closer than the minimum gap of the axis, `_gen_mesh_xy`
returns and emits exactly these two sets. -/
theorem C24_extents_before_clean (e : pcb_edges) (cfg : mesh_config) (fuel : Nat) (m : mesh)
    (hsx : is_set m.x) (hsy : is_set m.y) :
    (m.x ≠ [] → ∃ b r, (x_lines e cfg m.x).head? = some b ∧
      (x_lines e cfg m.x).getLast? = some r ∧
      b.v ≤ e.get_edge_left - xy_clearance cfg ∧ e.get_edge_right + xy_clearance cfg ≤ r.v) ∧
    (m.y ≠ [] → ∃ b r, (y_lines e cfg m.y).head? = some b ∧
      (y_lines e cfg m.y).getLast? = some r ∧
      b.v ≤ e.get_edge_top - xy_clearance cfg ∧ e.get_edge_bottom + xy_clearance cfg ≤ r.v) ∧
    (1 ≤ fuel → no_close_neighbours cfg._mesh_x_min_gap (x_lines e cfg m.x) →
      no_close_neighbours cfg._mesh_y_min_gap (y_lines e cfg m.y) →
      _gen_mesh_xy e cfg fuel m =
        .ok ({ m with x := x_lines e cfg m.x, y := y_lines e cfg m.y },
          [⟨814, []⟩] ++ (x_lines e cfg m.x).map (fun l => ⟨817, [.f l.v]⟩) ++
            [⟨819, []⟩, ⟨821, []⟩] ++ (y_lines e cfg m.y).map (fun l => ⟨824, [.f l.v]⟩) ++
            [⟨826, []⟩, ⟨829, [.f cfg._lambda_mesh_ratio]⟩, ⟨830, []⟩, ⟨831, []⟩])) := by
  refine ⟨fun hne => extend_axis_extents _ _ _ hsx hne,
    fun hne => extend_axis_extents _ _ _ hsy hne, ?_⟩
  intro hfuel hx hy
  exact gen_mesh_xy_ok e cfg fuel m _ _ (clean_noop fuel _ _ hfuel (Or.inr hx))
    (clean_noop fuel _ _ hfuel (Or.inr hy))

theorem C24_extents_before_clean_witness :
    is_set near_edge_mesh.x ∧ is_set near_edge_mesh.y ∧ near_edge_mesh.x ≠ [] ∧
      ∃ b r, (x_lines (core_edges (8 / 5)) unit_wave_config near_edge_mesh.x).head? = some b ∧
        (x_lines (core_edges (8 / 5)) unit_wave_config near_edge_mesh.x).getLast? = some r ∧
        b.v ≤ (core_edges (8 / 5)).get_edge_left - xy_clearance unit_wave_config ∧
        (core_edges (8 / 5)).get_edge_right + xy_clearance unit_wave_config ≤ r.v := by
  have hsx : is_set near_edge_mesh.x := by simp [is_set, near_edge_mesh]
  have hsy : is_set near_edge_mesh.y := by simp [is_set, near_edge_mesh]
  have hne : near_edge_mesh.x ≠ [] := by simp [near_edge_mesh]
  exact ⟨hsx, hsy, hne,
    (C24_extents_before_clean (core_edges (8 / 5)) unit_wave_config 1 near_edge_mesh
      hsx hsy).1 hne⟩

/-! ### Claims about ports against elements -/

theorem element_box_eq_port_box (dir : Nat) (gen_mesh : Bool) (p1 p2 : pcb_point)
    (pad1 pad2 : pad) (z1 z2 : ℚ) (h : dir ≠ DIR_Y ∨ gen_mesh = true ∨ p1.x = p2.x) :
    element_box dir gen_mesh p1 p2 pad1 pad2 z1 z2 = port_box dir gen_mesh p1 p2 pad1 pad2 z1 z2 := by
  unfold element_box port_box
  by_cases hx : dir = DIR_X
  · simp only [if_pos hx]
  · simp only [if_neg hx]
    by_cases hy : dir = DIR_Y
    · rcases h with h | h | h
      · exact absurd hy h
      · simp only [if_pos hy, h, if_true]
      · simp only [if_pos hy, h]
    · simp only [if_neg hy]

/-- C25: in direction Y without the mesh flag the two-pad form of
`add_lumped_port` ends the box at `p2.x + size` while the two-pad form of
`add_lumped_element` ends it at `p1.x + size`: for pads at (0, 0) and (2, 5) of
size 1 the port runs from (-1/2, 0, 0) to (5/2, 5, 0), the element from
(-1/2, 0, 0) to (1/2, 5, 0).  In every other case (direction X or Z, the mesh
flag set, or both pads at the same x) the two forms compute the same start and
end. -/
theorem C25_port_element_end_x_differs :
    (add_lumped_port two_pad_board {} "R1" "1" "F.Cu" "R1" "2" "F.Cu" DIR_Y 50 true
        false)._excitations.map (fun ex => (ex.start, ex.end_)) =
      [(⟨-1 / 2, 0, 0⟩, ⟨5 / 2, 5, 0⟩)] ∧
    (add_lumped_element two_pad_board {} "R1" "1" "F.Cu" "R1" "2" "F.Cu" DIR_Y TYPE_R 50
        false)._lumped_elements.map (fun el => (el.start, el.end_)) =
      [(⟨-1 / 2, 0, 0⟩, ⟨1 / 2, 5, 0⟩)] ∧
    (∀ (dir : Nat) (gen_mesh : Bool) (p1 p2 : pcb_point) (pad1 pad2 : pad) (z1 z2 : ℚ),
      (dir ≠ DIR_Y ∨ gen_mesh = true ∨ p1.x = p2.x) →
      element_box dir gen_mesh p1 p2 pad1 pad2 z1 z2 =
        port_box dir gen_mesh p1 p2 pad1 pad2 z1 z2) := by
  refine ⟨?_, ?_, fun dir gen_mesh p1 p2 pad1 pad2 z1 z2 h =>
    element_box_eq_port_box dir gen_mesh p1 p2 pad1 pad2 z1 z2 h⟩
  · have hne : ("2" : String) ≠ "1" := by decide
    norm_num [add_lumped_port, two_pad_board, port_box, DIR_X, DIR_Y, round_xy_zero,
      round_xy_five, hne]
  · have hne : ("2" : String) ≠ "1" := by decide
    norm_num [add_lumped_element, two_pad_board, element_box, DIR_X, DIR_Y, round_xy_zero,
      round_xy_five, hne]

/-! ### Claims about port numbers -/

theorem excitation_loop_getElem? : ∀ (exs : List excitation) (n k : Nat) (h : k < exs.length),
    (excitation_loop exs n)[k]? = some (excitation_statement (n + k) exs[k]) := by
  intro exs
  induction exs with
  | nil => intro n k h; cases h
  | cons ex rest ih =>
    intro n k h
    cases k with
    | zero => simp [excitation_loop]
    | succ j =>
      simp only [excitation_loop, List.getElem?_cons_succ, List.getElem_cons_succ]
      rw [ih (n + 1) j (by simpa using h)]
      congr 2
      omega

/-- C26: the k-th registered excitation is written by `_add_excitation` with
port number k, and `_add_read_ui` reads the records of port k into `U<k>` and
`I<k>`; but `_add_plot_feed_point_impedance` counts only the excited ports
(`continue` skips the `idx++`), so for a passive port followed by an excited
one the fragment written for the excited port, which is port 1, reads `U0`
and `I0`. -/
theorem C26_feed_point_index_skips_passive :
    (∀ (exs : List excitation) (k : Nat) (h : k < exs.length),
      (_add_excitation_fprintf exs)[k]? = some (excitation_statement k exs[k])) ∧
    _add_excitation_fprintf passive_then_excited =
      [⟨1403, [.u 0, .f 50, .f 0, .f 0, .f 0, .f 1, .f 0, .f 0, .u 1, .u 0, .u 0, .s "false"]⟩,
        ⟨1403, [.u 1, .f 50, .f 5, .f 0, .f 0, .f 6, .f 0, .f 0, .u 1, .u 0, .u 0, .s "true"]⟩,
        ⟨1421, []⟩, ⟨1422, []⟩] ∧
    _add_read_ui passive_then_excited =
      [⟨1532, []⟩, ⟨1535, [.u 0, .u 0]⟩, ⟨1536, [.u 0, .u 0]⟩, ⟨1537, []⟩,
        ⟨1535, [.u 1, .u 1]⟩, ⟨1536, [.u 1, .u 1]⟩, ⟨1537, []⟩] ∧
    _add_plot_feed_point_impedance passive_then_excited [] =
      [⟨1551, []⟩, ⟨1552, []⟩, ⟨1553, [.u 0, .u 0]⟩, ⟨1554, []⟩, ⟨1555, []⟩, ⟨1556, []⟩,
        ⟨1557, []⟩, ⟨1558, []⟩, ⟨1559, []⟩, ⟨1560, []⟩, ⟨1561, []⟩, ⟨1562, [.u 0]⟩,
        ⟨1564, []⟩, ⟨1565, []⟩, ⟨1566, []⟩, ⟨1574, []⟩, ⟨1575, []⟩] := by
  refine ⟨?_, ?_, ?_, ?_⟩
  · intro exs k h
    unfold _add_excitation_fprintf
    have hlen : ∀ (l : List excitation) (n : Nat), (excitation_loop l n).length = l.length := by
      intro l
      induction l with
      | nil => intro n; rfl
      | cons a t ih => intro n; simp [excitation_loop, ih]
    rw [List.getElem?_append_left (by rw [hlen]; exact h), excitation_loop_getElem? exs 0 k h,
      Nat.zero_add]
  · simp [_add_excitation_fprintf, excitation_loop, excitation_statement, passive_then_excited,
      DIR_X, DIR_Y, DIR_Z]
  · decide
  · simp [_add_plot_feed_point_impedance, feed_point_loop, passive_then_excited]

/-! ### Claims about snapped coordinates -/

/-- C27, counterexample: the binary32 numbers next to 1.2 and 1.3 are snapped
to themselves; they are 209715 / 2097152, less than 1/10 (and less than the
binary32 number next to 0.1, the default minimum gap), apart, and
`_clean_mesh_line` with that gap replaces the two lines of equal priority by
the one line at 5/4. -/
theorem C27_counterexample :
    _round_xy (5033165 / 4194304) = 5033165 / 4194304 ∧
    _round_xy (5452595 / 4194304) = 5452595 / 4194304 ∧
    _round_xy (5033165 / 4194304) ≠ _round_xy (5452595 / 4194304) ∧
    |_round_xy (5033165 / 4194304) - _round_xy (5452595 / 4194304)| < 1 / 10 ∧
    f32 (1 / 10) = 13421773 / 134217728 ∧
    _clean_mesh_line 2
        [⟨_round_xy (5033165 / 4194304), 1⟩, ⟨_round_xy (5452595 / 4194304), 1⟩]
        (f32 (1 / 10)) = .ok [⟨5 / 4, 1⟩] := by
  refine ⟨round_xy_12f, round_xy_13f, ?_, ?_, f32_tenth, ?_⟩
  · rw [round_xy_12f, round_xy_13f]
    norm_num
  · rw [round_xy_12f, round_xy_13f]
    norm_num [abs_lt]
  · rw [round_xy_12f, round_xy_13f, f32_tenth,
      clean_equal_pair 2 (5033165 / 4194304) (5452595 / 4194304) (13421773 / 134217728) 1
        (by norm_num) (by norm_num) (le_refl _)]
    norm_num

/-- C27, amended: two results of `_round_xy` of magnitude at most `M` are
equal or at least `1/10 - M / 2^22` apart (they are the binary32 numbers next
to multiples of 1/10, not the multiples themselves), and `_clean_mesh_line`
with `min_gap <= 1/10 - M / 2^22` returns unchanged, after one pass, every
set all of whose values are results of `_round_xy` of magnitude at most
`M`. -/
theorem C27_snapped_lines_survive_clean :
    (∀ a b M : ℚ, |_round_xy a| ≤ M → |_round_xy b| ≤ M →
      _round_xy a = _round_xy b ∨ 1 / 10 - M / 2 ^ 22 ≤ |_round_xy a - _round_xy b|) ∧
    (∀ (fuel : Nat) (l : List line) (min_gap M : ℚ), 1 ≤ fuel →
      min_gap ≤ 1 / 10 - M / 2 ^ 22 → is_set l →
      (∀ x ∈ l, (∃ a, x.v = _round_xy a) ∧ |x.v| ≤ M) →
      _clean_mesh_line fuel l min_gap = .ok l) := by
  refine ⟨round_xy_apart, ?_⟩
  intro fuel l min_gap M hfuel hgap hs hsnap
  refine clean_noop fuel l min_gap hfuel (Or.inr ?_)
  intro j hj
  obtain ⟨⟨a, ha⟩, hMa⟩ := hsnap l[j] (List.getElem_mem _)
  obtain ⟨⟨b, hb⟩, hMb⟩ := hsnap l[j + 1] (List.getElem_mem _)
  have hlt : l[j].v < l[j + 1].v :=
    List.pairwise_iff_getElem.1 hs j (j + 1) (by omega) hj (by omega)
  rw [ha, hb] at hlt ⊢
  rw [ha] at hMa
  rw [hb] at hMb
  rcases round_xy_apart b a M hMb hMa with h | h
  · rw [h] at hlt
    exact absurd hlt (lt_irrefl _)
  · exact not_lt.2 (le_trans hgap h)

theorem C27_snapped_lines_survive_clean_witness :
    is_set [⟨0, 1⟩, ⟨13421773 / 134217728, 1⟩, ⟨1 / 2, 1⟩] ∧
      _clean_mesh_line 1 [⟨0, 1⟩, ⟨13421773 / 134217728, 1⟩, ⟨1 / 2, 1⟩] (9 / 100) =
        .ok [⟨0, 1⟩, ⟨13421773 / 134217728, 1⟩, ⟨1 / 2, 1⟩] := by
  have hs : is_set [⟨0, 1⟩, ⟨13421773 / 134217728, 1⟩, ⟨1 / 2, 1⟩] := by
    norm_num [is_set, line.lt]
  refine ⟨hs, C27_snapped_lines_survive_clean.2 1 _ (9 / 100) 1 (le_refl _) (by norm_num) hs ?_⟩
  intro x hx
  simp only [List.mem_cons, List.mem_singleton, List.not_mem_nil, or_false] at hx
  rcases hx with rfl | rfl | rfl
  · exact ⟨⟨0, round_xy_zero.symm⟩, by norm_num⟩
  · exact ⟨⟨13421773 / 134217728, round_xy_01f.symm⟩, by norm_num [abs_le]⟩
  · exact ⟨⟨7549747 / 16777216, round_xy_045f.symm⟩, by norm_num [abs_le]⟩

/-! ### Claims about the line of highest priority -/

theorem mem_eraseIdx_of_ne {l : List line} {x : line} {k : Nat} (hk : k < l.length)
    (hx : x ∈ l) (hne : x ≠ l[k]) : x ∈ l.eraseIdx k := by
  obtain ⟨i, hi, rfl⟩ := List.getElem_of_mem hx
  rw [List.mem_eraseIdx_iff_getElem]
  refine ⟨i, hi, ?_, rfl⟩
  intro hik
  subst hik
  exact hne rfl

theorem is_set_getElem_ne {l : List line} (hs : is_set l) {i j : Nat} (hi : i < l.length)
    (hj : j < l.length) (hij : i < j) : l[i] ≠ l[j] := by
  intro h
  have hlt : l[i].v < l[j].v := List.pairwise_iff_getElem.1 hs i j hi hj hij
  rw [h] at hlt
  exact lt_irrefl _ hlt

/-- The state kept by one pass while a line `x` of strictly highest priority
is in the set. -/
theorem scan_body_keeps_top {g : ℚ} {l l2 : List line} {it1 it2 a b : Nat} {brk c : Bool}
    {x : line} (hs : is_set l) (h12 : it2 = it1 + 1) (hx : x ∈ l)
    (hmax : ∀ y ∈ l, y ≠ x → y.prio < x.prio)
    (h : scan_body g l it1 it2 brk = .again l2 a b c) :
    b = a + 1 ∧ x ∈ l2 ∧ ∀ y ∈ l2, y ≠ x → y.prio < x.prio := by
  obtain ⟨h2, h1, hcase⟩ := scan_body_again h
  subst h12
  have hne12 : l[it1] ≠ l[it1 + 1] := is_set_getElem_ne hs h1 h2 (by omega)
  have hm1 : l[it1] ∈ l := List.getElem_mem _
  have hm2 : l[it1 + 1] ∈ l := List.getElem_mem _
  rcases hcase with ⟨_, rfl, rfl, rfl, _⟩ |
    ⟨_, _, hb, _, ⟨hp, h3, rfl⟩ | ⟨hp, rfl, _⟩ | ⟨hp, rfl, _⟩⟩
  · exact ⟨rfl, hx, hmax⟩
  · have hx1 : x ≠ l[it1] := by
      intro hx1
      have := hmax _ hm2 (by rw [hx1]; exact fun h => hne12 h.symm)
      rw [hx1] at this
      omega
    have hx2 : x ≠ l[it1 + 1] := by
      intro hx2
      have := hmax _ hm1 (by rw [hx2]; exact hne12)
      rw [hx2] at this
      omega
    have he1 : x ∈ l.eraseIdx it1 := mem_eraseIdx_of_ne h1 hx hx1
    have hlen1 : it1 < (l.eraseIdx it1).length := by
      rw [length_eraseIdx_of_lt l it1 h1]
      omega
    have hget : (l.eraseIdx it1)[it1] = l[it1 + 1] :=
      List.getElem_eraseIdx_of_ge l it1 it1 hlen1 (le_refl _)
    have he2 : x ∈ (l.eraseIdx it1).eraseIdx it1 :=
      mem_eraseIdx_of_ne hlen1 he1 (by rw [hget]; exact hx2)
    refine ⟨hb, mem_set_insert_of_mem _ he2, ?_⟩
    intro y hy hyx
    rcases mem_set_insert hy with rfl | hy2
    · exact hmax l[it1] hm1 (fun h => hx1 h.symm)
    · exact hmax y (List.mem_of_mem_eraseIdx (List.mem_of_mem_eraseIdx hy2)) hyx
  · have hx2 : x ≠ l[it1 + 1] := by
      intro hx2
      have := hmax _ hm1 (by rw [hx2]; exact hne12)
      rw [hx2] at this
      omega
    exact ⟨hb, mem_eraseIdx_of_ne h2 hx hx2,
      fun y hy hyx => hmax y (List.mem_of_mem_eraseIdx hy) hyx⟩
  · have hx1 : x ≠ l[it1] := by
      intro hx1
      have := hmax _ hm2 (by rw [hx1]; exact fun h => hne12 h.symm)
      rw [hx1] at this
      omega
    exact ⟨hb, mem_eraseIdx_of_ne h1 hx hx1,
      fun y hy hyx => hmax y (List.mem_of_mem_eraseIdx hy) hyx⟩

theorem scan_loop_keeps_top {g : ℚ} {l l2 : List line} {c : Bool} {x : line}
    (hs : is_set l) (hx : x ∈ l) (hmax : ∀ y ∈ l, y ≠ x → y.prio < x.prio)
    (h : scan_loop g l 0 1 true = .ok (l2, c)) :
    is_set l2 ∧ x ∈ l2 ∧ ∀ y ∈ l2, y ≠ x → y.prio < x.prio :=
  scan_loop_rule g
    (fun l it1 it2 _ => is_set l ∧ it2 = it1 + 1 ∧ x ∈ l ∧ ∀ y ∈ l, y ≠ x → y.prio < x.prio)
    (fun l _ => is_set l ∧ x ∈ l ∧ ∀ y ∈ l, y ≠ x → y.prio < x.prio)
    (fun _ _ _ _ _ _ _ _ hinv hb =>
      have hk := scan_body_keeps_top hinv.1 hinv.2.1 hinv.2.2.1 hinv.2.2.2 hb
      ⟨scan_body_is_set hinv.1 hb, hk.1, hk.2.1, hk.2.2⟩)
    (fun _ _ _ _ _ _ hinv hb => by
      rw [(scan_body_done hb).2.1]
      exact ⟨hinv.1, hinv.2.2.1, hinv.2.2.2⟩)
    l 0 1 true ⟨hs, rfl, hx, hmax⟩ l2 c h

theorem do_while_keeps_top {g : ℚ} {x : line} : ∀ (fuel : Nat) (l l2 : List line),
    is_set l → x ∈ l → (∀ y ∈ l, y ≠ x → y.prio < x.prio) →
    do_while g fuel l = .ok l2 → x ∈ l2 := by
  intro fuel
  induction fuel with
  | zero => intro l l2 _ _ _ h; cases h
  | succ n ih =>
    intro l l2 hs hx hmax h
    simp only [do_while] at h
    cases hsc : scan g l with
    | error e => rw [hsc] at h; cases h
    | ok r =>
      obtain ⟨l3, brk⟩ := r
      rw [hsc] at h
      obtain ⟨_, hloop⟩ := scan_ok hsc
      obtain ⟨hs3, hx3, hmax3⟩ := scan_loop_keeps_top hs hx hmax hloop
      cases brk with
      | true =>
        simp only [if_true] at h
        cases h
        exact hx3
      | false =>
        simp only [Bool.false_eq_true, if_false] at h
        exact ih l3 l2 hs3 hx3 hmax3 h

theorem clean_top_then_last_faults (fuel : Nat) (hfuel : 1 ≤ fuel) :
    _clean_mesh_line fuel [⟨0, 0⟩, ⟨1 / 20, 5⟩, ⟨2 / 25, 0⟩] (1 / 10) =
      .error .undefined_behaviour := by
  obtain ⟨n, rfl⟩ : ∃ n, fuel = n + 1 := ⟨fuel - 1, by omega⟩
  have b1 : scan_body (1 / 10) [⟨0, 0⟩, ⟨1 / 20, 5⟩, ⟨2 / 25, 0⟩] 0 1 true =
      .again [⟨1 / 20, 5⟩, ⟨2 / 25, 0⟩] 0 1 false := by
    norm_num [scan_body, abs_lt]
  have s1 : scan (1 / 10) [⟨0, 0⟩, ⟨1 / 20, 5⟩, ⟨2 / 25, 0⟩] = .error .undefined_behaviour := by
    unfold scan
    rw [if_pos (by simp), scan_loop_again b1,
      scan_loop_fault (pair_drop_second_step (1 / 20) (2 / 25) (1 / 10) 5 0
        (by norm_num [abs_lt]) (by norm_num) false)]
  unfold _clean_mesh_line
  rw [if_neg (by simp)]
  simp only [do_while, s1]

/-- C28: the line (1/20, priority 5) lies between (0, priority 0) and (2/25,
priority 0), both within `min_gap = 1/10` of it.  The first line is dropped,
then `erase` of the last line returns `end()` and the iterator is incremented
past it: the run is undefined, the line of highest priority is not
guaranteed to survive.  Whenever `_clean_mesh_line` does return, a line of
strictly highest priority is still in the set, with its value and priority. -/
theorem C28_top_priority_before_last_faults :
    (∀ fuel, 1 ≤ fuel →
      _clean_mesh_line fuel [⟨0, 0⟩, ⟨1 / 20, 5⟩, ⟨2 / 25, 0⟩] (1 / 10) =
        .error .undefined_behaviour) ∧
    (∀ (fuel : Nat) (l l2 : List line) (min_gap : ℚ) (x : line), is_set l → x ∈ l →
      (∀ y ∈ l, y ≠ x → y.prio < x.prio) → _clean_mesh_line fuel l min_gap = .ok l2 →
      x ∈ l2) := by
  refine ⟨clean_top_then_last_faults, ?_⟩
  intro fuel l l2 min_gap x hs hx hmax h
  unfold _clean_mesh_line at h
  split_ifs at h with hlen
  · cases h
    exact hx
  · exact do_while_keeps_top fuel l l2 hs hx hmax h

/-! ### Claims about the cost of the range overlay -/

theorem ceil_step (x : ℚ) (n : Nat) (hx : 0 < x) (h : n ≤ ⌈x - 1⌉₊) : n + 1 ≤ ⌈x⌉₊ := by
  cases n with
  | zero => exact Nat.ceil_pos.2 hx
  | succ k =>
    have h1 : (k : ℚ) < x - 1 := Nat.lt_ceil.1 (by omega)
    apply Nat.lt_ceil.2
    push_cast
    linarith

theorem apply_loop_terminates (fuel : Nat) : ∀ (rest prev : List line_range) (m : List line),
    (∀ r ∈ rest, 0 < r.gap) → (∀ r ∈ rest, ⌈(r.end_ - r.start) / r.gap⌉₊ ≤ fuel) →
    ∃ res, apply_loop fuel prev rest m = .ok res := by
  intro rest
  induction rest with
  | nil => intro prev m _ _; exact ⟨m, rfl⟩
  | cons it rest ih =>
    intro prev m hgap hfuel
    obtain ⟨calls, hc⟩ := range_inserts_fuel prev it (hgap it (List.mem_cons_self _ _)) fuel
      (hfuel it (List.mem_cons_self _ _))
    simp only [apply_loop, range_loop_eq_inserts, hc]
    exact ih _ _ (fun r hr => hgap r (List.mem_cons_of_mem _ hr))
      (fun r hr => hfuel r (List.mem_cons_of_mem _ hr))

theorem mem_range_insert_self : ∀ (l : List line_range) (r : line_range),
    r ∈ range_insert l r := by
  intro l r
  induction l with
  | nil => simp [range_insert]
  | cons q qs ih =>
    simp only [range_insert]
    split_ifs
    · exact List.mem_cons_self _ _
    · exact List.mem_cons_of_mem _ ih

theorem range_loop_f32_eq_inserts (prev : List line_range) (it : line_range) :
    ∀ (fuel : Nat) (v : ℚ) (m : List line),
      range_loop_f32 prev it fuel v m =
        (match range_inserts_f32 prev it fuel v with
          | .error e => .error e
          | .ok calls => .ok (insert_all m calls)) := by
  intro fuel
  induction fuel with
  | zero =>
    intro v m
    simp only [range_loop_f32, range_inserts_f32]
    split_ifs <;> rfl
  | succ n ih =>
    intro v m
    simp only [range_loop_f32, range_inserts_f32]
    split_ifs with h1 h2
    · exact ih _ _
    · rw [ih]
      cases range_inserts_f32 prev it n (f32 (v + it.gap)) with
      | error e => rfl
      | ok calls => rfl
    · rfl

theorem range_inserts_f32_step (prev : List line_range) (it : line_range) (n : Nat)
    (v v2 : ℚ) (calls : List line) (h1 : v < it.end_) (h2 : continue_ prev v = false)
    (h3 : f32 (v + it.gap) = v2) (h4 : range_inserts_f32 prev it n v2 = .ok calls) :
    range_inserts_f32 prev it (n + 1) v = .ok (⟨v, it.prio⟩ :: calls) := by
  simp only [range_inserts_f32, if_pos h1, h2, h3, h4]
  simp

theorem range_inserts_f32_stall (prev : List line_range) (it : line_range) (v : ℚ)
    (hv : v < it.end_) (hs : f32 (v + it.gap) = v) :
    ∀ fuel : Nat, range_inserts_f32 prev it fuel v = .error .out_of_fuel := by
  intro fuel
  induction fuel with
  | zero =>
    simp only [range_inserts_f32]
    rw [if_pos hv]
  | succ n ih =>
    simp only [range_inserts_f32, if_pos hv, hs, ih]
    split_ifs <;> rfl

theorem range_inserts_f32_ok (prev : List line_range) (it : line_range) (δ : ℚ) (hδ : 0 < δ)
    (hadv : ∀ v, it.start ≤ v → v < it.end_ → v + δ ≤ f32 (v + it.gap)) :
    ∀ (fuel : Nat) (v : ℚ), it.start ≤ v → it.end_ - v ≤ fuel * δ →
      ∃ calls, range_inserts_f32 prev it fuel v = .ok calls ∧
        calls.length ≤ ⌈(it.end_ - v) / δ⌉₊ ∧
        (it.end_ ≤ v → calls = []) ∧
        ∀ x ∈ calls, it.start ≤ x.v ∧ x.v < it.end_ ∧ x.prio = it.prio ∧
          continue_ prev x.v = false := by
  intro fuel
  induction fuel with
  | zero =>
    intro v _ hv
    simp only [Nat.cast_zero, zero_mul] at hv
    refine ⟨[], ?_, by simp, fun _ => rfl, fun x hx => absurd hx (List.not_mem_nil _)⟩
    simp only [range_inserts_f32]
    rw [if_neg (by linarith)]
  | succ n ih =>
    intro v hlo hv
    by_cases hlt : v < it.end_
    · have hstep := hadv v hlo hlt
      have hlo2 : it.start ≤ f32 (v + it.gap) := by linarith
      have hv2 : it.end_ - f32 (v + it.gap) ≤ n * δ := by
        push_cast at hv; linarith
      obtain ⟨c2, hc2, hlen, _, hmem⟩ := ih (f32 (v + it.gap)) hlo2 hv2
      have hx : 0 < (it.end_ - v) / δ := div_pos (by linarith) hδ
      have hle : (it.end_ - f32 (v + it.gap)) / δ ≤ (it.end_ - v) / δ - 1 := by
        rw [div_le_iff₀ hδ, sub_mul, div_mul_cancel₀ _ (ne_of_gt hδ)]
        linarith
      have hlen2 : c2.length + 1 ≤ ⌈(it.end_ - v) / δ⌉₊ :=
        ceil_step _ _ hx (le_trans hlen (Nat.ceil_mono hle))
      simp only [range_inserts_f32, if_pos hlt]
      cases hc : continue_ prev v with
      | true =>
        simp only [if_true]
        exact ⟨c2, hc2, by omega, fun h => absurd hlt (not_lt.2 h), hmem⟩
      | false =>
        simp only [Bool.false_eq_true, if_false, hc2]
        refine ⟨_, rfl, by simpa using hlen2, fun h => absurd hlt (not_lt.2 h), ?_⟩
        intro x hx
        rcases List.mem_cons.1 hx with rfl | hx2
        · exact ⟨hlo, hlt, rfl, hc⟩
        · exact hmem x hx2
    · refine ⟨[], ?_, by simp, fun _ => rfl, fun x hx => absurd hx (List.not_mem_nil _)⟩
      simp only [range_inserts_f32]
      rw [if_neg hlt]

theorem range_inserts_f32_fuel (prev : List line_range) (it : line_range) (δ : ℚ) (hδ : 0 < δ)
    (hadv : ∀ v, it.start ≤ v → v < it.end_ → v + δ ≤ f32 (v + it.gap))
    (fuel : Nat) (hf : ⌈(it.end_ - it.start) / δ⌉₊ ≤ fuel) :
    ∃ calls, range_inserts_f32 prev it fuel it.start = .ok calls ∧
      calls.length ≤ ⌈(it.end_ - it.start) / δ⌉₊ ∧
      (it.end_ ≤ it.start → calls = []) ∧
      ∀ x ∈ calls, it.start ≤ x.v ∧ x.v < it.end_ ∧ x.prio = it.prio ∧
        continue_ prev x.v = false := by
  apply range_inserts_f32_ok prev it δ hδ hadv fuel it.start (le_refl _)
  have h1 : (it.end_ - it.start) / δ ≤ (⌈(it.end_ - it.start) / δ⌉₊ : ℚ) := Nat.le_ceil _
  have h2 : ((⌈(it.end_ - it.start) / δ⌉₊ : Nat) : ℚ) ≤ (fuel : ℚ) := by exact_mod_cast hf
  have h3 : (it.end_ - it.start) / δ ≤ (fuel : ℚ) := le_trans h1 h2
  rwa [div_le_iff₀ hδ] at h3

theorem apply_loop_f32_terminates (fuel : Nat) (δ : line_range → ℚ) :
    ∀ (rest prev : List line_range) (m : List line),
    (∀ r ∈ rest, 0 < δ r ∧
      ∀ v, r.start ≤ v → v < r.end_ → v + δ r ≤ f32 (v + r.gap)) →
    (∀ r ∈ rest, ⌈(r.end_ - r.start) / δ r⌉₊ ≤ fuel) →
    ∃ res, apply_loop_f32 fuel prev rest m = .ok res := by
  intro rest
  induction rest with
  | nil => intro prev m _ _; exact ⟨m, rfl⟩
  | cons it rest ih =>
    intro prev m hadv hfuel
    obtain ⟨calls, hc, _⟩ := range_inserts_f32_fuel prev it (δ it)
      (hadv it (List.mem_cons_self _ _)).1 (hadv it (List.mem_cons_self _ _)).2 fuel
      (hfuel it (List.mem_cons_self _ _))
    simp only [apply_loop_f32, range_loop_f32_eq_inserts, hc]
    exact ih _ _ (fun r hr => hadv r (List.mem_cons_of_mem _ hr))
      (fun r hr => hfuel r (List.mem_cons_of_mem _ hr))

theorem apply_loop_f32_append (fuel : Nat) : ∀ (a b prev : List line_range) (m : List line),
    apply_loop_f32 fuel prev (a ++ b) m =
      (match apply_loop_f32 fuel prev a m with
        | .error e => .error e
        | .ok m2 => apply_loop_f32 fuel (prev ++ a) b m2) := by
  intro a
  induction a with
  | nil => intro b prev m; simp [apply_loop_f32]
  | cons it a ih =>
    intro b prev m
    simp only [List.cons_append, apply_loop_f32]
    cases range_loop_f32 prev it fuel it.start m with
    | error e => rfl
    | ok m2 =>
      have h := ih b (prev ++ [it]) m2
      rw [List.append_assoc, List.singleton_append] at h
      exact h

theorem f32_advance (r : line_range) (hgap : 0 < r.gap) (hs : |r.start| ≤ 2 ^ 22 * r.gap)
    (he : |r.end_| ≤ 2 ^ 22 * r.gap) (v : ℚ) (hlo : r.start ≤ v) (hhi : v < r.end_) :
    v + r.gap / 2 ≤ f32 (v + r.gap) := by
  have hv : |v| ≤ 2 ^ 22 * r.gap := by
    rw [abs_le] at hs he ⊢
    constructor <;> linarith [hs.1, he.2]
  have hx : |v + r.gap| ≤ (2 ^ 22 + 1) * r.gap := by
    have := abs_add v r.gap
    rw [abs_of_pos hgap] at this
    linarith
  have herr := fl_error 24 (v + r.gap)
  have h2 : |v + r.gap| / 2 ^ 24 ≤ r.gap / 2 := by
    rw [div_le_iff₀ (by positivity)]
    have : (2 ^ 22 + 1 : ℚ) * r.gap ≤ r.gap / 2 * 2 ^ 24 := by
      have e : r.gap / 2 * 2 ^ 24 = 2 ^ 23 * r.gap := by ring
      rw [e]
      have : (2 ^ 22 + 1 : ℚ) ≤ 2 ^ 23 := by norm_num
      exact mul_le_mul_of_nonneg_right this (le_of_lt hgap)
    linarith
  have h3 := (abs_le.1 (le_trans herr h2)).1
  unfold f32
  linarith

theorem f32_stall : f32 (16777216 + 1 / 2) = 16777216 := by
  unfold f32
  rw [fl_eval_pos 24 (16777216 + 1 / 2) 24 8388608 (by norm_num) (by norm_num)
    (by norm_num) (by norm_num)]
  norm_num

theorem f32_step_0 : f32 (0 + 5033165 / 16777216) = 5033165 / 16777216 := by
  unfold f32
  rw [fl_eval_pos 24 (0 + 5033165 / 16777216) (-2) 10066330
    (by norm_num) (by norm_num) (by norm_num) (by norm_num)]
  norm_num

theorem f32_step_1 : f32 (5033165 / 16777216 + 5033165 / 16777216) = 5033165 / 8388608 := by
  unfold f32
  rw [fl_eval_pos 24 (5033165 / 16777216 + 5033165 / 16777216) (-1) 10066330
    (by norm_num) (by norm_num) (by norm_num) (by norm_num)]
  norm_num

theorem f32_step_2 : f32 (5033165 / 8388608 + 5033165 / 16777216) = 15099495 / 16777216 := by
  unfold f32
  rw [fl_eval_pos 24 (5033165 / 8388608 + 5033165 / 16777216) (-1) 15099495
    (by norm_num) (by norm_num) (by norm_num) (by norm_num)]
  norm_num

theorem f32_step_3 : f32 (15099495 / 16777216 + 5033165 / 16777216) = 5033165 / 4194304 := by
  unfold f32
  rw [fl_eval_pos 24 (15099495 / 16777216 + 5033165 / 16777216) (0) 10066330
    (by norm_num) (by norm_num) (by norm_num) (by norm_num)]
  norm_num

theorem f32_step_4 : f32 (5033165 / 4194304 + 5033165 / 16777216) = 3 / 2 := by
  unfold f32
  rw [fl_eval_pos_tie_even 24 (5033165 / 4194304 + 5033165 / 16777216) (0) 12582912
    (by norm_num) (by norm_num) (by norm_num) (by decide)]
  norm_num

theorem f32_step_5 : f32 (3 / 2 + 5033165 / 16777216) = 7549747 / 4194304 := by
  unfold f32
  rw [fl_eval_pos_tie_even 24 (3 / 2 + 5033165 / 16777216) (0) 15099494
    (by norm_num) (by norm_num) (by norm_num) (by decide)]
  norm_num

theorem f32_step_6 : f32 (7549747 / 4194304 + 5033165 / 16777216) = 4404019 / 2097152 := by
  unfold f32
  rw [fl_eval_pos 24 (7549747 / 4194304 + 5033165 / 16777216) (1) 8808038
    (by norm_num) (by norm_num) (by norm_num) (by norm_num)]
  norm_num

theorem f32_step_7 : f32 (4404019 / 2097152 + 5033165 / 16777216) = 10066329 / 4194304 := by
  unfold f32
  rw [fl_eval_pos 24 (4404019 / 2097152 + 5033165 / 16777216) (1) 10066329
    (by norm_num) (by norm_num) (by norm_num) (by norm_num)]
  norm_num

theorem f32_step_8 : f32 (10066329 / 4194304 + 5033165 / 16777216) = 2831155 / 1048576 := by
  unfold f32
  rw [fl_eval_pos 24 (10066329 / 4194304 + 5033165 / 16777216) (1) 11324620
    (by norm_num) (by norm_num) (by norm_num) (by norm_num)]
  norm_num

theorem f32_step_9 : f32 (2831155 / 1048576 + 5033165 / 16777216) = 12582911 / 4194304 := by
  unfold f32
  rw [fl_eval_pos 24 (2831155 / 1048576 + 5033165 / 16777216) (1) 12582911
    (by norm_num) (by norm_num) (by norm_num) (by norm_num)]
  norm_num

theorem f32_step_10 : f32 (12582911 / 4194304 + 5033165 / 16777216) = 6920601 / 2097152 := by
  unfold f32
  rw [fl_eval_pos 24 (12582911 / 4194304 + 5033165 / 16777216) (1) 13841202
    (by norm_num) (by norm_num) (by norm_num) (by norm_num)]
  norm_num

theorem overshoot_inserts :
    range_inserts_f32 [] ⟨0, 3, 5033165 / 16777216, 0⟩ 11 0 =
      .ok [⟨0, 0⟩, ⟨5033165 / 16777216, 0⟩, ⟨5033165 / 8388608, 0⟩, ⟨15099495 / 16777216, 0⟩,
        ⟨5033165 / 4194304, 0⟩, ⟨3 / 2, 0⟩, ⟨7549747 / 4194304, 0⟩, ⟨4404019 / 2097152, 0⟩,
        ⟨10066329 / 4194304, 0⟩, ⟨2831155 / 1048576, 0⟩, ⟨12582911 / 4194304, 0⟩] := by
  have e11 : range_inserts_f32 [] ⟨0, 3, 5033165 / 16777216, 0⟩ 0 (6920601 / 2097152) = .ok [] := by
    simp only [range_inserts_f32]
    rw [if_neg (by norm_num)]
  have e10 := range_inserts_f32_step [] ⟨0, 3, 5033165 / 16777216, 0⟩ 0 (12582911 / 4194304) _ _
    (by norm_num) rfl f32_step_10 e11
  have e9 := range_inserts_f32_step [] ⟨0, 3, 5033165 / 16777216, 0⟩ 1 (2831155 / 1048576) _ _
    (by norm_num) rfl f32_step_9 e10
  have e8 := range_inserts_f32_step [] ⟨0, 3, 5033165 / 16777216, 0⟩ 2 (10066329 / 4194304) _ _
    (by norm_num) rfl f32_step_8 e9
  have e7 := range_inserts_f32_step [] ⟨0, 3, 5033165 / 16777216, 0⟩ 3 (4404019 / 2097152) _ _
    (by norm_num) rfl f32_step_7 e8
  have e6 := range_inserts_f32_step [] ⟨0, 3, 5033165 / 16777216, 0⟩ 4 (7549747 / 4194304) _ _
    (by norm_num) rfl f32_step_6 e7
  have e5 := range_inserts_f32_step [] ⟨0, 3, 5033165 / 16777216, 0⟩ 5 (3 / 2) _ _
    (by norm_num) rfl f32_step_5 e6
  have e4 := range_inserts_f32_step [] ⟨0, 3, 5033165 / 16777216, 0⟩ 6 (5033165 / 4194304) _ _
    (by norm_num) rfl f32_step_4 e5
  have e3 := range_inserts_f32_step [] ⟨0, 3, 5033165 / 16777216, 0⟩ 7 (15099495 / 16777216) _ _
    (by norm_num) rfl f32_step_3 e4
  have e2 := range_inserts_f32_step [] ⟨0, 3, 5033165 / 16777216, 0⟩ 8 (5033165 / 8388608) _ _
    (by norm_num) rfl f32_step_2 e3
  have e1 := range_inserts_f32_step [] ⟨0, 3, 5033165 / 16777216, 0⟩ 9 (5033165 / 16777216) _ _
    (by norm_num) rfl f32_step_1 e2
  have e0 := range_inserts_f32_step [] ⟨0, 3, 5033165 / 16777216, 0⟩ 10 (0) _ _
    (by norm_num) rfl f32_step_0 e1
  exact e0

theorem stall_never_ends (fuel : Nat) :
    _apply_mesh_line_range_f32 fuel [] [⟨16777216, 16777220, 1 / 2, 0⟩] =
      .error .out_of_fuel := by
  simp only [_apply_mesh_line_range_f32, apply_loop_f32, range_loop_f32_eq_inserts]
  rw [range_inserts_f32_stall [] ⟨16777216, 16777220, 1 / 2, 0⟩ 16777216 (by norm_num)
    f32_stall fuel]

/-- C29, counterexample: with the sum `v + gap` rounded to binary32, the range
from 2^24 to 2^24 + 4 with gap 1/2 > 0 is stuck at its first value, since
2^24 + 1/2 rounds to 2^24; and the range from 0 to 3 whose gap is the binary32
number next to 0.3 inserts 11 lines, one more than
`ceil((end - start) / gap) = 10` (the tenth sum is 12582911 / 4194304, just
below 3). -/
theorem C29_counterexample :
    f32 (16777216 + 1 / 2) = 16777216 ∧
    _apply_mesh_line_range_f32 1000 [] [⟨16777216, 16777220, 1 / 2, 0⟩] =
      .error .out_of_fuel ∧
    _apply_mesh_line_range_f32 11 [] [⟨0, 3, 5033165 / 16777216, 0⟩] =
      .ok [⟨0, 0⟩, ⟨5033165 / 16777216, 0⟩, ⟨5033165 / 8388608, 0⟩, ⟨15099495 / 16777216, 0⟩,
        ⟨5033165 / 4194304, 0⟩, ⟨3 / 2, 0⟩, ⟨7549747 / 4194304, 0⟩, ⟨4404019 / 2097152, 0⟩,
        ⟨10066329 / 4194304, 0⟩, ⟨2831155 / 1048576, 0⟩, ⟨12582911 / 4194304, 0⟩] ∧
    ⌈((3 : ℚ) - 0) / (5033165 / 16777216)⌉₊ = 10 := by
  refine ⟨f32_stall, ?_, ?_, ?_⟩
  · exact stall_never_ends 1000
  · simp only [_apply_mesh_line_range_f32, apply_loop_f32, range_loop_f32_eq_inserts,
      overshoot_inserts]
    norm_num [insert_all, set_insert, line.lt]
  · rw [Nat.ceil_eq_iff (by norm_num)]
    norm_num

/-- C29, amended: with the sum `v + gap` rounded to binary32,
`_apply_mesh_line_range` returns for every collection of ranges in which the
loop variable of every range `r` advances by at least some `d r > 0` at
every step from `[start, end)`, as soon as each range may run its loop
`ceil((end - start) / d r)` times; the lines a range hands to `insert` are
then at most that many, all with values in `[start, end)`, and none when
`start >= end`.  A positive gap with `|start|` and `|end|` at most
`2^22 * gap` advances by at least `gap / 2`.  A positive gap alone is not
enough: a range with `start < end` whose first sum `start + gap` rounds back
to `start` never leaves its loop, and `add_mesh_range` queues whatever gap it
is given. -/
theorem C29_range_overlay_terminates :
    (∀ (fuel : Nat) (mesh_line : List line) (pre post : List line_range) (it : line_range)
      (d : line_range → ℚ),
      (∀ r ∈ pre ++ it :: post, 0 < d r ∧
        ∀ v, r.start ≤ v → v < r.end_ → v + d r ≤ f32 (v + r.gap)) →
      (∀ r ∈ pre ++ it :: post, ⌈(r.end_ - r.start) / d r⌉₊ ≤ fuel) →
      ∃ m1 calls res,
        _apply_mesh_line_range_f32 fuel mesh_line pre = .ok m1 ∧
        range_inserts_f32 pre it fuel it.start = .ok calls ∧
        _apply_mesh_line_range_f32 fuel mesh_line (pre ++ [it]) = .ok (insert_all m1 calls) ∧
        _apply_mesh_line_range_f32 fuel mesh_line (pre ++ it :: post) = .ok res ∧
        calls.length ≤ ⌈(it.end_ - it.start) / d it⌉₊ ∧
        (∀ c ∈ calls, it.start ≤ c.v ∧ c.v < it.end_) ∧
        (it.end_ ≤ it.start → calls = [])) ∧
    (∀ r : line_range, 0 < r.gap → |r.start| ≤ 2 ^ 22 * r.gap → |r.end_| ≤ 2 ^ 22 * r.gap →
      ∀ v, r.start ≤ v → v < r.end_ → v + r.gap / 2 ≤ f32 (v + r.gap)) ∧
    (∀ (fuel : Nat) (mesh_line : List line) (it : line_range) (post : List line_range),
      it.start < it.end_ → f32 (it.start + it.gap) = it.start →
      _apply_mesh_line_range_f32 fuel mesh_line (it :: post) = .error .out_of_fuel) ∧
    (∀ (d : mesh_dir) (m : mesh) (start end_ gap : ℚ) (prio : Nat),
      (⟨start, end_, gap, prio⟩ : line_range) ∈
        (add_mesh_range d m start end_ gap d.DIR_X prio).x_range) := by
  refine ⟨?_, f32_advance, ?_, ?_⟩
  · intro fuel mesh_line pre post it d hadv hfuel
    have hit : it ∈ pre ++ it :: post := List.mem_append_right _ (List.mem_cons_self _ _)
    obtain ⟨m1, hm1⟩ := apply_loop_f32_terminates fuel d pre [] mesh_line
      (fun r hr => hadv r (List.mem_append_left _ hr))
      (fun r hr => hfuel r (List.mem_append_left _ hr))
    obtain ⟨calls, hc, hlen, hempty, hmem⟩ := range_inserts_f32_fuel pre it (d it)
      (hadv it hit).1 (hadv it hit).2 fuel (hfuel it hit)
    obtain ⟨res, hres⟩ := apply_loop_f32_terminates fuel d (pre ++ it :: post) [] mesh_line
      hadv hfuel
    refine ⟨m1, calls, res, hm1, hc, ?_, hres, hlen,
      fun c hcm => ⟨(hmem c hcm).1, (hmem c hcm).2.1⟩, hempty⟩
    unfold _apply_mesh_line_range_f32
    rw [apply_loop_f32_append, hm1]
    simp only [List.nil_append, apply_loop_f32, range_loop_f32_eq_inserts, hc]
  · intro fuel mesh_line it post hlt hs
    simp only [_apply_mesh_line_range_f32, apply_loop_f32, range_loop_f32_eq_inserts,
      range_inserts_f32_stall [] it it.start hlt hs fuel]
  · intro d m start end_ gap prio
    simp only [add_mesh_range, if_true]
    exact mem_range_insert_self _ _

theorem C29_range_overlay_terminates_witness :
    ∃ res, _apply_mesh_line_range_f32 4 [] [⟨0, 1, 1 / 2, 3⟩] = .ok res := by
  obtain ⟨_, _, res, _, _, _, h, _⟩ :=
    C29_range_overlay_terminates.1 4 [] [] [] ⟨0, 1, 1 / 2, 3⟩ (fun r => r.gap / 2)
      (by
        intro r hr
        simp only [List.nil_append, List.mem_singleton] at hr
        subst hr
        exact ⟨by norm_num,
          f32_advance ⟨0, 1, 1 / 2, 3⟩ (by norm_num) (by norm_num) (by norm_num [abs_le])⟩)
      (by
        intro r hr
        simp only [List.nil_append, List.mem_singleton] at hr
        subst hr
        have : ⌈((1 : ℚ) - 0) / (1 / 2 / 2)⌉₊ = 4 := by
          rw [Nat.ceil_eq_iff (by norm_num)]; norm_num
        simp only [this]
        exact le_refl _)
  exact ⟨res, h⟩

/-! ### Claims about the extent of the near-to-far-field box -/

/-- C30: with a near-to-far-field footprint set, a positive far-field
frequency and a positive mesh ratio, the box written by `_add_nf2ff_box` has
centre `(cx, cy, cz)` and half-extents `(xm, ym, zm)` with
`cx - xm <= left`, `right <= cx + xm`, `cy - ym <= top`, `bottom <= cy + ym`,
and `xm`, `ym` at least half the far-field wavelength
`C0 / _far_field_freq * 1000`. -/
theorem C30_nf2ff_box_contains_board (b : pcb) (e : pcb_edges) (cfg : nf2ff_config)
    (_excitations : List excitation) (mesh_prio : Nat) (m : mesh)
    (hfp : cfg._nf2ff_fp ≠ "") (hfreq : 0 < cfg._far_field_freq)
    (hratio : 0 < cfg._lambda_mesh_ratio) :
    ∃ cx cy cz xm ym zm : ℚ,
      (_add_nf2ff_box b e cfg _excitations mesh_prio m).2 =
        [⟨1517, [.f cfg._far_field_freq]⟩, ⟨1518, [.f cx, .f cy, .f cz]⟩,
          ⟨1519, [.f xm, .f ym, .f zm]⟩, ⟨1520, []⟩, ⟨1521, []⟩, ⟨1522, []⟩, ⟨1525, []⟩,
          ⟨1526, []⟩] ∧
      cx - xm ≤ e.get_edge_left ∧ e.get_edge_right ≤ cx + xm ∧
      cy - ym ≤ e.get_edge_top ∧ e.get_edge_bottom ≤ cy + ym ∧
      C0 / cfg._far_field_freq * 1000 / 2 ≤ xm ∧ C0 / cfg._far_field_freq * 1000 / 2 ≤ ym := by
  have hc : (0 : ℚ) < C0 := by norm_num [C0]
  have hl : 0 < C0 / cfg._far_field_freq * 1000 := by positivity
  have hr : 0 < (if cfg.pml then cfg._lambda_mesh_ratio / 10 else cfg._lambda_mesh_ratio) := by
    split_ifs
    · positivity
    · exact hratio
  have hd : 0 ≤ C0 / cfg._far_field_freq * 1000 /
      (if cfg.pml then cfg._lambda_mesh_ratio / 10 else cfg._lambda_mesh_ratio) :=
    le_of_lt (div_pos hl hr)
  have key : ∀ c edge d lam : ℚ, 0 ≤ d → ∀ other : ℚ,
      c - max (max (|c - edge| + d) (|c - other| + d)) lam ≤ edge ∧
      other ≤ c + max (max (|c - edge| + d) (|c - other| + d)) lam := by
    intro c edge d lam hd0 other
    have h1 : |c - edge| + d ≤ max (max (|c - edge| + d) (|c - other| + d)) lam :=
      le_trans (le_max_left _ _) (le_max_left _ _)
    have h2 : |c - other| + d ≤ max (max (|c - edge| + d) (|c - other| + d)) lam :=
      le_trans (le_max_right _ _) (le_max_left _ _)
    have h3 : c - edge ≤ |c - edge| := le_abs_self _
    have h4 : other - c ≤ |c - other| := by
      rw [abs_sub_comm]
      exact le_abs_self _
    constructor <;> linarith
  unfold _add_nf2ff_box
  rw [if_neg hfp]
  refine ⟨_, _, _, _, _, _, rfl, ?_, ?_, ?_, ?_, le_max_right _ _, le_max_right _ _⟩
  · exact (key _ _ _ _ hd _).1
  · exact (key _ _ _ _ hd _).2
  · exact (key _ _ _ _ hd _).1
  · exact (key _ _ _ _ hd _).2

theorem C30_nf2ff_box_contains_board_witness :
    ∃ cx cy cz xm ym zm : ℚ,
      (_add_nf2ff_box
        ⟨fun _ => some ⟨"ANT1", "", "F.Cu", ⟨10, 20⟩, 0, []⟩, fun _ _ => none,
          fun _ _ q => q, fun _ => 0⟩
        ⟨0, 100, 0, 50, 8 / 5⟩ ⟨"ANT1", true, 20, 29979245800⟩ [] 99 {}).2 =
        [⟨1517, [.f 29979245800]⟩, ⟨1518, [.f cx, .f cy, .f cz]⟩,
          ⟨1519, [.f xm, .f ym, .f zm]⟩, ⟨1520, []⟩, ⟨1521, []⟩, ⟨1522, []⟩, ⟨1525, []⟩,
          ⟨1526, []⟩] ∧
      cx - xm ≤ 0 ∧ 100 ≤ cx + xm ∧ cy - ym ≤ 0 ∧ 50 ≤ cy + ym := by
  obtain ⟨cx, cy, cz, xm, ym, zm, h1, h2, h3, h4, h5, _⟩ :=
    C30_nf2ff_box_contains_board
      ⟨fun _ => some ⟨"ANT1", "", "F.Cu", ⟨10, 20⟩, 0, []⟩, fun _ _ => none,
        fun _ _ q => q, fun _ => 0⟩
      ⟨0, 100, 0, 50, 8 / 5⟩ ⟨"ANT1", true, 20, 29979245800⟩ [] 99 {} (by decide)
      (by norm_num) (by norm_num)
  exact ⟨cx, cy, cz, xm, ym, zm, h1, h2, h3, h4, h5⟩

/-! ### Claims about the precedence of earlier ranges -/

theorem apply_loop_append (fuel : Nat) : ∀ (a b prev : List line_range) (m : List line),
    apply_loop fuel prev (a ++ b) m =
      (match apply_loop fuel prev a m with
        | .error e => .error e
        | .ok m2 => apply_loop fuel (prev ++ a) b m2) := by
  intro a
  induction a with
  | nil => intro b prev m; simp [apply_loop]
  | cons it a ih =>
    intro b prev m
    simp only [List.cons_append, apply_loop]
    cases range_loop prev it fuel it.start m with
    | error e => rfl
    | ok m2 =>
      have h := ih b (prev ++ [it]) m2
      rw [List.append_assoc, List.singleton_append] at h
      exact h

theorem mem_range_inserts_f32 (prev : List line_range) (it : line_range) :
    ∀ (fuel : Nat) (v : ℚ) (calls : List line), range_inserts_f32 prev it fuel v = .ok calls →
      ∀ x, x ∈ calls →
        ∃ k : Nat, x = ⟨loop_value_f32 it k v, it.prio⟩ ∧ loop_value_f32 it k v < it.end_ ∧
          continue_ prev (loop_value_f32 it k v) = false := by
  intro fuel
  induction fuel with
  | zero =>
    intro v calls h x hx
    simp only [range_inserts_f32] at h
    split_ifs at h
    cases h
    cases hx
  | succ n ih =>
    intro v calls h x hx
    simp only [range_inserts_f32] at h
    split_ifs at h with h1 h2
    · obtain ⟨k, hk⟩ := ih _ _ h x hx
      exact ⟨k + 1, hk⟩
    · cases hr : range_inserts_f32 prev it n (f32 (v + it.gap)) with
      | error e => rw [hr] at h; cases h
      | ok c2 =>
        rw [hr] at h
        cases h
        rcases List.mem_cons.1 hx with rfl | hx2
        · exact ⟨0, rfl, h1, by simpa using h2⟩
        · obtain ⟨k, hk⟩ := ih _ _ hr x hx2
          exact ⟨k + 1, hk⟩
    · cases h
      cases hx

theorem range_inserts_f32_mem (prev : List line_range) (it : line_range) :
    ∀ (fuel : Nat) (v : ℚ) (calls : List line), range_inserts_f32 prev it fuel v = .ok calls →
      ∀ k : Nat, (∀ j ≤ k, loop_value_f32 it j v < it.end_) →
        continue_ prev (loop_value_f32 it k v) = false →
        (⟨loop_value_f32 it k v, it.prio⟩ : line) ∈ calls := by
  intro fuel
  induction fuel with
  | zero =>
    intro v calls h k hk _
    have hv : v < it.end_ := hk 0 (Nat.zero_le _)
    simp only [range_inserts_f32] at h
    rw [if_pos hv] at h
    cases h
  | succ n ih =>
    intro v calls h k hk hc
    have hv : v < it.end_ := hk 0 (Nat.zero_le _)
    simp only [range_inserts_f32] at h
    rw [if_pos hv] at h
    cases k with
    | zero =>
      simp only [loop_value_f32] at hc ⊢
      rw [hc] at h
      simp only [Bool.false_eq_true, if_false] at h
      cases hr : range_inserts_f32 prev it n (f32 (v + it.gap)) with
      | error e => rw [hr] at h; cases h
      | ok c2 => rw [hr] at h; cases h; exact List.mem_cons_self _ _
    | succ j =>
      have hk2 : ∀ i ≤ j, loop_value_f32 it i (f32 (v + it.gap)) < it.end_ :=
        fun i hi => hk (i + 1) (by omega)
      split_ifs at h with h2
      · exact ih _ _ h j hk2 hc
      · cases hr : range_inserts_f32 prev it n (f32 (v + it.gap)) with
        | error e => rw [hr] at h; cases h
        | ok c2 =>
          rw [hr] at h; cases h
          exact List.mem_cons_of_mem _ (ih _ _ hr j hk2 hc)

/-- C5: in a collection `pre ++ it :: post`, `_apply_mesh_line_range` applied
to the ranges before `it` gives a set `m1`; applied to the ranges up to `it`
it gives `m1` with the lines `calls` inserted in order, the lines the loop of
`it` hands to `insert`, and the later ranges are then applied to that set with
`pre ++ [it]` as the ranges passed.  With
exact sums and positive gaps, every line in `calls` is a sample
`start + k * gap` below `end` with the priority of `it`, and such a sample is
in `calls` exactly when no range of `pre`, the ranges ordered before `it`,
has `start <= v < end`; so `it` contributes no line inside the interval of an
earlier range.  With the sums rounded to binary32 the same holds of the
values the loop variable takes, whenever the loops advance by some
`d r > 0`. -/
theorem C5_range_precedence :
    (∀ (fuel : Nat) (mesh_line : List line) (pre post : List line_range) (it : line_range),
      (∀ r ∈ pre ++ [it], 0 < r.gap) →
      (∀ r ∈ pre ++ [it], ⌈(r.end_ - r.start) / r.gap⌉₊ ≤ fuel) →
      ∃ m1 calls,
        _apply_mesh_line_range fuel mesh_line pre = .ok m1 ∧
        range_inserts pre it fuel it.start = .ok calls ∧
        _apply_mesh_line_range fuel mesh_line (pre ++ [it]) = .ok (insert_all m1 calls) ∧
        _apply_mesh_line_range fuel mesh_line (pre ++ it :: post) =
          apply_loop fuel (pre ++ [it]) post (insert_all m1 calls) ∧
        (∀ x ∈ calls, ∃ k : Nat,
          x = ⟨it.start + k * it.gap, it.prio⟩ ∧ it.start + k * it.gap < it.end_) ∧
        (∀ k : Nat, it.start + k * it.gap < it.end_ →
          ((⟨it.start + k * it.gap, it.prio⟩ : line) ∈ calls ↔
            ¬ ∃ r2 ∈ pre, r2.start ≤ it.start + k * it.gap ∧
              it.start + k * it.gap < r2.end_)) ∧
        (∀ x ∈ calls, ∀ r2 ∈ pre, ¬ (r2.start ≤ x.v ∧ x.v < r2.end_))) ∧
    (∀ (fuel : Nat) (mesh_line : List line) (pre post : List line_range) (it : line_range)
      (d : line_range → ℚ),
      (∀ r ∈ pre ++ [it], 0 < d r ∧
        ∀ v, r.start ≤ v → v < r.end_ → v + d r ≤ f32 (v + r.gap)) →
      (∀ r ∈ pre ++ [it], ⌈(r.end_ - r.start) / d r⌉₊ ≤ fuel) →
      ∃ m1 calls,
        _apply_mesh_line_range_f32 fuel mesh_line pre = .ok m1 ∧
        range_inserts_f32 pre it fuel it.start = .ok calls ∧
        _apply_mesh_line_range_f32 fuel mesh_line (pre ++ [it]) = .ok (insert_all m1 calls) ∧
        _apply_mesh_line_range_f32 fuel mesh_line (pre ++ it :: post) =
          apply_loop_f32 fuel (pre ++ [it]) post (insert_all m1 calls) ∧
        (∀ x ∈ calls, ∃ k : Nat,
          x = ⟨loop_value_f32 it k it.start, it.prio⟩ ∧
            loop_value_f32 it k it.start < it.end_) ∧
        (∀ k : Nat, (∀ j ≤ k, loop_value_f32 it j it.start < it.end_) →
          ((⟨loop_value_f32 it k it.start, it.prio⟩ : line) ∈ calls ↔
            ¬ ∃ r2 ∈ pre, r2.start ≤ loop_value_f32 it k it.start ∧
              loop_value_f32 it k it.start < r2.end_)) ∧
        (∀ x ∈ calls, ∀ r2 ∈ pre, ¬ (r2.start ≤ x.v ∧ x.v < r2.end_))) := by
  constructor
  · intro fuel mesh_line pre post it hgap hfuel
    have hit : it ∈ pre ++ [it] := List.mem_append_right _ (List.mem_singleton.2 rfl)
    obtain ⟨m1, hm1⟩ := apply_loop_terminates fuel pre [] mesh_line
      (fun r hr => hgap r (List.mem_append_left _ hr))
      (fun r hr => hfuel r (List.mem_append_left _ hr))
    obtain ⟨calls, hc⟩ := range_inserts_fuel pre it (hgap it hit) fuel (hfuel it hit)
    have h2 : apply_loop fuel [] (pre ++ [it]) mesh_line = .ok (insert_all m1 calls) := by
      rw [apply_loop_append, hm1]
      simp only [List.nil_append, apply_loop, range_loop_eq_inserts, hc]
    refine ⟨m1, calls, hm1, hc, h2, ?_, ?_, ?_, ?_⟩
    · have e : pre ++ it :: post = (pre ++ [it]) ++ post := by simp
      unfold _apply_mesh_line_range
      rw [e, apply_loop_append, h2]
      simp only [List.nil_append]
    · intro x hx
      obtain ⟨k, hk, hlt, _⟩ := mem_range_inserts pre it fuel _ calls hc x hx
      exact ⟨k, hk, hlt⟩
    · intro k hk
      rw [← continue_iff]
      constructor
      · intro hx
        obtain ⟨j, hj, _, hcj⟩ := mem_range_inserts pre it fuel _ calls hc _ hx
        have hv : it.start + k * it.gap = it.start + j * it.gap := congrArg line.v hj
        rw [hv, hcj]
        simp
      · intro hcov
        exact range_inserts_mem pre it (hgap it hit) fuel _ calls hc k hk (by simpa using hcov)
    · intro x hx r2 hr2 hcov
      obtain ⟨k, hk, _, hck⟩ := mem_range_inserts pre it fuel _ calls hc x hx
      have : continue_ pre x.v = true := (continue_iff pre x.v).2 ⟨r2, hr2, hcov⟩
      rw [hk] at this
      rw [hck] at this
      cases this
  · intro fuel mesh_line pre post it d hadv hfuel
    have hit : it ∈ pre ++ [it] := List.mem_append_right _ (List.mem_singleton.2 rfl)
    obtain ⟨m1, hm1⟩ := apply_loop_f32_terminates fuel d pre [] mesh_line
      (fun r hr => hadv r (List.mem_append_left _ hr))
      (fun r hr => hfuel r (List.mem_append_left _ hr))
    obtain ⟨calls, hc, _⟩ := range_inserts_f32_fuel pre it (d it) (hadv it hit).1
      (hadv it hit).2 fuel (hfuel it hit)
    have h2 : apply_loop_f32 fuel [] (pre ++ [it]) mesh_line = .ok (insert_all m1 calls) := by
      rw [apply_loop_f32_append, hm1]
      simp only [List.nil_append, apply_loop_f32, range_loop_f32_eq_inserts, hc]
    refine ⟨m1, calls, hm1, hc, h2, ?_, ?_, ?_, ?_⟩
    · have e : pre ++ it :: post = (pre ++ [it]) ++ post := by simp
      unfold _apply_mesh_line_range_f32
      rw [e, apply_loop_f32_append, h2]
      simp only [List.nil_append]
    · intro x hx
      obtain ⟨k, hk, hlt, _⟩ := mem_range_inserts_f32 pre it fuel _ calls hc x hx
      exact ⟨k, hk, hlt⟩
    · intro k hk
      rw [← continue_iff]
      constructor
      · intro hx
        obtain ⟨j, hj, _, hcj⟩ := mem_range_inserts_f32 pre it fuel _ calls hc _ hx
        have hv : loop_value_f32 it k it.start = loop_value_f32 it j it.start :=
          congrArg line.v hj
        rw [hv, hcj]
        simp
      · intro hcov
        exact range_inserts_f32_mem pre it fuel _ calls hc k hk (by simpa using hcov)
    · intro x hx r2 hr2 hcov
      obtain ⟨k, hk, _, hck⟩ := mem_range_inserts_f32 pre it fuel _ calls hc x hx
      have : continue_ pre x.v = true := (continue_iff pre x.v).2 ⟨r2, hr2, hcov⟩
      rw [hk] at this
      rw [hck] at this
      cases this

theorem C5_range_precedence_witness :
    ∃ m1 calls,
      _apply_mesh_line_range 3 [] [⟨0, 1, 1 / 2, 5⟩] = .ok m1 ∧
      _apply_mesh_line_range 3 [] ([⟨0, 1, 1 / 2, 5⟩] ++ [⟨1 / 2, 2, 1 / 2, 3⟩]) =
        .ok (insert_all m1 calls) ∧
      ((⟨1 / 2, 3⟩ : line) ∉ calls) ∧ (⟨1, 3⟩ : line) ∈ calls := by
  obtain ⟨m1, calls, h1, _, h2, _, _, h5, _⟩ :=
    C5_range_precedence.1 3 [] [⟨0, 1, 1 / 2, 5⟩] [] ⟨1 / 2, 2, 1 / 2, 3⟩
      (by
        intro r hr
        simp only [List.mem_append, List.mem_singleton] at hr
        rcases hr with rfl | rfl <;> norm_num)
      (by
        intro r hr
        simp only [List.mem_append, List.mem_singleton] at hr
        rcases hr with rfl | rfl
        · have : ⌈((1 : ℚ) - 0) / (1 / 2)⌉₊ = 2 := by
            rw [Nat.ceil_eq_iff (by norm_num)]; norm_num
          simp only [this]; norm_num
        · have : ⌈((2 : ℚ) - 1 / 2) / (1 / 2)⌉₊ = 3 := by
            rw [Nat.ceil_eq_iff (by norm_num)]; norm_num
          simp only [this]; norm_num)
  refine ⟨m1, calls, h1, h2, ?_, ?_⟩
  · have h := h5 0 (by norm_num)
    intro hmem
    apply (h.1 (by simpa using hmem))
    exact ⟨⟨0, 1, 1 / 2, 5⟩, List.mem_singleton.2 rfl, by norm_num, by norm_num⟩
  · have h := h5 1 (by norm_num)
    have hm := h.2 (by
      rintro ⟨r2, hr2, hlo, hhi⟩
      rw [List.mem_singleton] at hr2
      subst hr2
      norm_num at hhi)
    have e : (⟨(1 / 2 : ℚ) + ((1 : Nat) : ℚ) * (1 / 2), 3⟩ : line) = ⟨1, 3⟩ := by norm_num
    rw [← e]
    exact hm

end openems_model_gen
